import Mathlib

/-!
# geo-service: OSM relation resolution and enrichment

A shallow embedding of `src/search/NominatimApiUtils.cc`: the chunked dispatcher
(`forEachChunk`, `splitInChunksAndParseResponses`), the two-pass bilingual merger
(`LookupRelationInformation`) and the city disambiguation
(`LookupRelationInformationForCities`); and of the two extractors of
`src/search/OverpassApiUtils.cc` (`ExtractCityDetails`, `ExtractRelationIds`).

Conventions of the embedding:
* a C++ loop over a container is a structural recursion over a `List`;
* captured mutable variables (`regions`/`cities`, `pendingIdsForEnglishNames`) are an
  explicit state that every handler takes and returns;
* an operation whose precondition can fail at run time (`GetArray` on a non-array,
  `vector::at`, `unordered_map::at`) returns `Option`, and `none` propagates to the caller;
* the transport `WebClient::Get` is a state machine `κ → String → String × κ`;
* a `double` is NaN, an infinity, or the rational number a finite double denotes, and the
  subtraction of two finite doubles is the exact difference rounded to the nearest double,
  ties to even.
-/

set_option autoImplicit false

namespace geo

/-- An OSM identifier (`std::int64_t` in the source). -/
abbrev OsmId := Int

/-- A list of OSM identifiers (`std::vector<OsmId>`). -/
abbrev OsmIds := List OsmId

/-- A `double` (IEEE 754 binary64): NaN, an infinity, or a finite value given by the rational
it denotes. The sign of zero is not represented: no operation of the program tells the two
zeros apart. -/
inductive Double where
  | nan
  | inf (negative : Bool)
  | val (q : ℚ)
  deriving DecidableEq

namespace Double

/-- Rounding of a rational to the nearest integer, a tie to the even neighbour. -/
def roundHalfEven (q : ℚ) : Int :=
  if q - ⌊q⌋ < 1 / 2 then ⌊q⌋
  else if 1 / 2 < q - ⌊q⌋ then ⌊q⌋ + 1
  else if ⌊q⌋ % 2 = 0 then ⌊q⌋ else ⌊q⌋ + 1

/-- The binary exponent of the binade of `q`, not below the exponent `-1022` of the subnormal
range. -/
def exponent (q : ℚ) : Int := max (Int.log 2 |q|) (-1022)

/-- The spacing of the doubles in the binade of `q` (53 bits of precision). -/
def ulp (q : ℚ) : ℚ := 2 ^ (exponent q - 52)

/-- The rounding of an exact result to a double in the default mode (to nearest, ties to even):
the nearest multiple of the spacing, an infinity when that is `2^1024` or more in magnitude. -/
def roundNearestEven (q : ℚ) : Double :=
  let r := roundHalfEven (q / ulp q) * ulp q
  if 2 ^ 1024 ≤ |r| then inf (decide (q < 0)) else val r

/-- Subtraction of doubles: the exact difference rounded; NaN is absorbing, and the difference
of two infinities of the same sign is NaN. -/
def sub : Double → Double → Double
  | val a, val b => roundNearestEven (a - b)
  | inf s, inf t => if s = t then nan else inf s
  | inf s, val _ => inf s
  | val _, inf t => inf (!t)
  | _, _ => nan

/-- The absolute value `std::abs`. -/
def abs : Double → Double
  | val a => val |a|
  | inf _ => inf false
  | nan => nan

/-- The comparison `<`; every comparison with NaN is false. -/
def lt : Double → Double → Bool
  | val a, val b => decide (a < b)
  | inf true, val _ => true
  | inf true, inf false => true
  | val _, inf false => true
  | _, _ => false

end Double

/-- A parsed JSON value (`rapidjson::Value`). -/
inductive JsonValue where
  | null
  | bool (b : Bool)
  | int (i : Int)
  | number (d : Double)
  | str (s : String)
  | array (elements : List JsonValue)
  | object (members : List (String × JsonValue))

namespace JsonValue

/-- The accessor `rapidjson::Value::GetArray`: its precondition is `IsArray()`, checked by an
assertion; on any other value there is no result. -/
def GetArray : JsonValue → Option (List JsonValue)
  | array elements => some elements
  | _ => none

/-- The test `rapidjson::Value::IsArray`. -/
def IsArray : JsonValue → Bool
  | array _ => true
  | _ => false

end JsonValue

namespace json

/-- Modelled from the spec: `utils/JsonUtils.h` is not part of the sources. One step of
`json::Get`: the member of an object stored under `key` (the first one if the key is
repeated); the null value when the value is not an object or has no such member. Member names
are compared as whole texts. -/
def member (value : JsonValue) (key : String) : JsonValue :=
  match value with
  | .object members => (members.lookup key).getD .null
  | _ => .null

/-- Modelled from the spec: `json::Get(value, keys...)` of the absent `utils/JsonUtils.h`
follows a path of member names (`address.<addresstype>` is `Get item ["address", addresstype]`)
and yields the null value as soon as a member is missing. -/
def Get (value : JsonValue) (keys : List String) : JsonValue :=
  keys.foldl member value

/-- Modelled from the spec: `json::GetString` of the absent `utils/JsonUtils.h` yields the text
of a string value and the empty text for every other value (a missing member included). -/
def GetString : JsonValue → String
  | .str s => s
  | _ => ""

/-- Modelled from the spec: `json::GetInt64` of the absent `utils/JsonUtils.h` yields the value
of a 64-bit integer and zero for every other value (a missing or unparsable ID is zero). -/
def GetInt64 : JsonValue → Int
  | .int i => if -(2 : Int) ^ 63 ≤ i ∧ i < (2 : Int) ^ 63 then i else 0
  | _ => 0

end json

namespace nominatim

/-- Modelled from the spec: the record type `RelationInfo` is declared in the absent
`NominatimApiUtils.h`; these are the fields the source reads and writes. The two English
fields are strings and start empty. -/
structure RelationInfo where
  osmId : OsmId
  name : String
  country : String
  latitude : Double
  longitude : Double
  name_en : String
  country_en : String
  deriving DecidableEq

/-- The list type `RelationInfos` (`std::vector<RelationInfo>`). -/
abbrev RelationInfos := List RelationInfo

/-- Modelled from the spec: the enumeration `Match` of the absent `NominatimApiUtils.h`. -/
inductive Match where
  | Best
  | Any
  deriving DecidableEq

/-- Third-party functions the source calls, taken as parameters: `Parse` is
`rapidjson::Document::Parse` (`none` is a parse error, which leaves the document null) and
`from_chars` is `std::from_chars` for `double` (`none` is an error code). -/
structure Lib where
  Parse : String → Option JsonValue
  from_chars : String → Option Double

/-- Maximum number of OSM IDs in a single API request. -/
def sc_chunkSize : Nat := 50

/-- Formats the request for the IDs of one chunk (the range `[itBegin, itEnd)`). -/
def formatRelationLookupRequest (chunk : OsmIds) (language : Option String) : String :=
  let request := "format=json&osm_ids=" ++ ",".intercalate (chunk.map fun id => "R" ++ toString id)
  request ++ (match language with
    | some l => "&accept-language=" ++ l
    | none => "")

/-- Converts a text to a double; NaN if parsing fails. -/
def getDoubleFromString (lib : Lib) (s : String) : Double :=
  match lib.from_chars s with
  | some value => value
  | none => Double.nan

/-- Converts a JSON item to a `RelationInfo`, reading the name under `address.<addressType>`. -/
def jsonToObject (lib : Lib) (value : JsonValue) (addressType : String) : RelationInfo :=
  { osmId := json.GetInt64 (json.Get value ["osm_id"])
    name := json.GetString (json.Get value ["address", addressType])
    country := json.GetString (json.Get value ["address", "country"])
    latitude := getDoubleFromString lib (json.GetString (json.Get value ["lat"]))
    longitude := getDoubleFromString lib (json.GetString (json.Get value ["lon"]))
    name_en := ""
    country_en := "" }

/-- A loop `for (const auto& item : ...)` whose body may fail: the first failure ends it. -/
def forItems {α σ : Type} (body : σ → α → Option σ) : List α → σ → Option σ
  | [], s => some s
  | item :: rest, s =>
    match body s item with
    | none => none
    | some s' => forItems body rest s'

/-- The loop of `forEachChunk`: `itBegin` is the position of the iterator, `fuel` bounds the
number of iterations. The handler gets the IDs of `[itBegin, itEnd)`. -/
def forEachChunkFrom {τ : Type} (relationIds : OsmIds) (fn : OsmIds → τ → Option τ) :
    Nat → Nat → τ → Option τ
  | 0, _, s => some s
  | fuel + 1, itBegin, s =>
    if itBegin < relationIds.length then
      let itEnd := min (itBegin + sc_chunkSize) relationIds.length
      match fn ((relationIds.drop itBegin).take (itEnd - itBegin)) s with
      | none => none
      | some s' => forEachChunkFrom relationIds fn fuel (itBegin + sc_chunkSize) s'
    else some s

/-- Splits the list of OSM IDs into chunks and runs the handler on each chunk. Every iteration
advances by `sc_chunkSize`, so `relationIds.length` iterations are enough. -/
def forEachChunk {τ : Type} (relationIds : OsmIds) (fn : OsmIds → τ → Option τ) (s : τ) :
    Option τ :=
  forEachChunkFrom relationIds fn relationIds.length 0 s

/-- The body of the lambda of `splitInChunksAndParseResponses`: one request, and the handler on
the parsed document unless the response is empty. -/
def dispatchChunk {κ σ : Type} (lib : Lib) (Get : κ → String → String × κ)
    (responseHandler : JsonValue → σ → Option σ) (language : Option String)
    (chunk : OsmIds) (st : κ × σ) : Option (κ × σ) :=
  let request := formatRelationLookupRequest chunk language
  let (response, k) := Get st.1 request
  if response = "" then some (k, st.2)
  else
    let document := (lib.Parse response).getD JsonValue.null
    match responseHandler document st.2 with
    | none => none
    | some s => some (k, s)

/-- Splits the IDs into chunks, sends one request per chunk and handles each response. -/
def splitInChunksAndParseResponses {κ σ : Type} (lib : Lib) (relationIds : OsmIds)
    (Get : κ → String → String × κ) (responseHandler : JsonValue → σ → Option σ)
    (language : Option String) (st : κ × σ) : Option (κ × σ) :=
  forEachChunk relationIds (dispatchChunk lib Get responseHandler language) st

/-- The captured variables of the response handlers: the output records (`regions` in
`LookupRelationInformation`, `cities` in `LookupRelationInformationForCities`) and the
`std::unordered_map` from an ID to its slot in the output. -/
structure LookupState where
  records : RelationInfos
  pendingIdsForEnglishNames : List (OsmId × Nat)
  deriving DecidableEq

/-- The state both lookups start from: no record, empty index map. -/
def emptyState : LookupState :=
  { records := [], pendingIdsForEnglishNames := [] }

/-- The test `unordered_map::contains`. -/
def mapContains (m : List (OsmId × Nat)) (key : OsmId) : Bool :=
  (m.lookup key).isSome

/-- The insertion `unordered_map::emplace`: an existing key keeps its value. -/
def mapEmplace (m : List (OsmId × Nat)) (key : OsmId) (value : Nat) : List (OsmId × Nat) :=
  if mapContains m key then m else m ++ [(key, value)]

/-- The access `unordered_map::at`: no result for a missing key. -/
def mapAt (m : List (OsmId × Nat)) (key : OsmId) : Option Nat :=
  m.lookup key

/-- The statement `auto& info = records.at(map.at(osmId)); info.name_en = ...;
info.country_en = ...;` shared by both English passes: no result when an access is out of
range. -/
def setEnglishFields (st : LookupState) (osmId : OsmId) (name_en country_en : String) :
    Option LookupState :=
  match mapAt st.pendingIdsForEnglishNames osmId with
  | none => none
  | some idx =>
    match st.records[idx]? with
    | none => none
    | some info =>
      some { st with records := st.records.set idx { info with name_en := name_en, country_en := country_en } }

/-- The body of the loop of `handleResponse` in `LookupRelationInformation`. -/
def handleItem (lib : Lib) (isEnglish : Bool) (st : LookupState) (item : JsonValue) :
    Option LookupState :=
  let addressType := json.GetString (json.Get item ["addresstype"])
  let osmId := json.GetInt64 (json.Get item ["osm_id"])
  if osmId = 0 ∨ addressType = "" then some st
  else if !mapContains st.pendingIdsForEnglishNames osmId then
    if isEnglish then some st
    else
      let regions := st.records ++ [jsonToObject lib item addressType]
      some { records := regions
             pendingIdsForEnglishNames := mapEmplace st.pendingIdsForEnglishNames osmId (regions.length - 1) }
  else if isEnglish then
    setEnglishFields st osmId (json.GetString (json.Get item ["address", addressType]))
      (json.GetString (json.Get item ["address", "country"]))
  else some st

/-- The lambda `handleResponse` of `LookupRelationInformation`. -/
def handleResponse (lib : Lib) (isEnglish : Bool) (document : JsonValue) (st : LookupState) :
    Option LookupState :=
  match document.GetArray with
  | none => none
  | some items => forItems (handleItem lib isEnglish) items st

/-- Both passes of `LookupRelationInformation`, with the final state of the transport. -/
def LookupRelationInformationRun {κ : Type} (lib : Lib) (relationIds : OsmIds)
    (Get : κ → String → String × κ) (k : κ) : Option (κ × LookupState) :=
  match splitInChunksAndParseResponses lib relationIds Get (handleResponse lib false) none
      (k, emptyState) with
  | none => none
  | some st => splitInChunksAndParseResponses lib relationIds Get (handleResponse lib true) (some "en") st

/-- The function `LookupRelationInformation`: the records after both passes. -/
def LookupRelationInformation {κ : Type} (lib : Lib) (relationIds : OsmIds)
    (Get : κ → String → String × κ) (k : κ) : Option RelationInfos :=
  (LookupRelationInformationRun lib relationIds Get k).map fun st => st.2.records

/-- The lambda `areCloseCoordinates`. -/
def areCloseCoordinates (c1 c2 : RelationInfo) : Bool :=
  ((c1.latitude.sub c2.latitude).abs.lt (Double.val 1)) &&
    ((c1.longitude.sub c2.longitude).abs.lt (Double.val 1))

/-- The address types in priority order. -/
def sc_types : List String := ["city", "town", "state"]

/-- The part of the loop body over items that selects and stores a candidate; `mode` is the
parameter `match` of the source. -/
def addCity (lib : Lib) (mode : Match) (type : String) (st : LookupState) (item : JsonValue) :
    LookupState :=
  if json.GetString (json.Get item ["addresstype"]) = type then
    let newObject := jsonToObject lib item type
    let needAdd := if mode = Match.Any then !(st.records.any fun c => areCloseCoordinates c newObject) else true
    if needAdd then
      let cities := st.records ++ [newObject]
      { records := cities
        pendingIdsForEnglishNames := mapEmplace st.pendingIdsForEnglishNames newObject.osmId (cities.length - 1) }
    else st
  else st

/-- The loop over the items of the document for one address type, with its `break`. -/
def citiesItemLoop (lib : Lib) (mode : Match) (type : String) :
    List JsonValue → LookupState → LookupState
  | [], st => st
  | item :: rest, st =>
    let st1 := addCity lib mode type st item
    if mode = Match.Best ∧ st1.records ≠ [] then st1
    else citiesItemLoop lib mode type rest st1

/-- The loop over the address types, with its `break`; `document.GetArray()` is evaluated for
each type. -/
def citiesTypeLoop (lib : Lib) (mode : Match) (document : JsonValue) :
    List String → LookupState → Option LookupState
  | [], st => some st
  | type :: types, st =>
    match document.GetArray with
    | none => none
    | some items =>
      let st1 := citiesItemLoop lib mode type items st
      if mode = Match.Best ∧ st1.records ≠ [] then some st1
      else citiesTypeLoop lib mode document types st1

/-- The first response handler of `LookupRelationInformationForCities`. -/
def handleCitiesResponse (lib : Lib) (mode : Match) (document : JsonValue) (st : LookupState) :
    Option LookupState :=
  citiesTypeLoop lib mode document sc_types st

/-- The body of the loop of the second (English) handler of
`LookupRelationInformationForCities`. -/
def handleCitiesEnglishItem (st : LookupState) (item : JsonValue) : Option LookupState :=
  let addresstype := json.GetString (json.Get item ["addresstype"])
  let osmId := json.GetInt64 (json.Get item ["osm_id"])
  if osmId = 0 then some st
  else if !mapContains st.pendingIdsForEnglishNames osmId then some st
  else
    setEnglishFields st osmId (json.GetString (json.Get item ["address", addresstype]))
      (json.GetString (json.Get item ["address", "country"]))

/-- The second (English) response handler of `LookupRelationInformationForCities`. -/
def handleCitiesEnglishResponse (document : JsonValue) (st : LookupState) : Option LookupState :=
  match document.GetArray with
  | none => none
  | some items => forItems handleCitiesEnglishItem items st

/-- Both passes of `LookupRelationInformationForCities`, with the final state of the
transport. -/
def LookupRelationInformationForCitiesRun {κ : Type} (lib : Lib) (relationIds : OsmIds)
    (mode : Match) (Get : κ → String → String × κ) (k : κ) : Option (κ × LookupState) :=
  match splitInChunksAndParseResponses lib relationIds Get (handleCitiesResponse lib mode) none
      (k, emptyState) with
  | none => none
  | some st => splitInChunksAndParseResponses lib relationIds Get handleCitiesEnglishResponse (some "en") st

/-- The function `LookupRelationInformationForCities`: the records after both passes. -/
def LookupRelationInformationForCities {κ : Type} (lib : Lib) (relationIds : OsmIds)
    (mode : Match) (Get : κ → String → String × κ) (k : κ) : Option RelationInfos :=
  (LookupRelationInformationForCitiesRun lib relationIds mode Get k).map fun st => st.2.records

/-- The batch with number `k` as the spec words it: `ids[50k : min(50(k+1), n)]`. -/
def batchAt (ids : OsmIds) (k : Nat) : OsmIds :=
  (ids.drop (50 * k)).take (min (50 * (k + 1)) ids.length - 50 * k)

/-- The batches of an ID list as the spec words them: `ceil(n/50)` batches, in order. -/
def batchesOf (ids : OsmIds) : List OsmIds :=
  (List.range ((ids.length + 49) / 50)).map (batchAt ids)

/-- The requests of one pass, one per batch in batch order. -/
def requestsOf (ids : OsmIds) (language : Option String) : List String :=
  (batchesOf ids).map fun chunk => formatRelationLookupRequest chunk language

/-- The responses of the transport to a sequence of requests sent in order from the transport
state `k`, with the state the transport is left in. -/
def responsesOf {κ : Type} (Get : κ → String → String × κ) : List String → κ → List String × κ
  | [], k => ([], k)
  | request :: rest, k =>
    let (response, k1) := Get k request
    let (responses, k2) := responsesOf Get rest k1
    (response :: responses, k2)

/-- The documents a handler is expected to see for a sequence of responses, as the spec words
it: one parsed document for each non-empty response, in order, none for an empty response; a
text that does not parse gives the null document. -/
def documentsOf (lib : Lib) (responses : List String) : List JsonValue :=
  (responses.filter fun response => response ≠ "").map fun response =>
    (lib.Parse response).getD JsonValue.null

/-- The documents handled in the first (primary-language) pass of a lookup. -/
def primaryDocuments {κ : Type} (lib : Lib) (ids : OsmIds) (Get : κ → String → String × κ)
    (k : κ) : List JsonValue :=
  documentsOf lib (responsesOf Get (requestsOf ids none) k).1

/-- The documents handled in the second (English) pass of a lookup: the transport continues
from the state the first pass left it in. -/
def englishDocuments {κ : Type} (lib : Lib) (ids : OsmIds) (Get : κ → String → String × κ)
    (k : κ) : List JsonValue :=
  documentsOf lib (responsesOf Get (requestsOf ids (some "en"))
    (responsesOf Get (requestsOf ids none) k).2).1

/-- The ID an item carries: `json::GetInt64(json::Get(item, "osm_id"))`. -/
def itemId (item : JsonValue) : Int :=
  json.GetInt64 (json.Get item ["osm_id"])

/-- The address type an item carries: `json::GetString(json::Get(item, "addresstype"))`. -/
def itemType (item : JsonValue) : String :=
  json.GetString (json.Get item ["addresstype"])

/-- An item is valid when its ID is not zero and its address type is not empty. -/
def isValidItem (item : JsonValue) : Bool :=
  decide (itemId item ≠ 0) && decide (itemType item ≠ "")

/-- The name an item carries under its own address type: `address[addresstype]`. -/
def itemName (item : JsonValue) : String :=
  json.GetString (json.Get item ["address", itemType item])

/-- The country an item carries: `address.country`. -/
def itemCountry (item : JsonValue) : String :=
  json.GetString (json.Get item ["address", "country"])

/-- A record with its two English fields replaced. -/
def RelationInfo.withEnglish (r : RelationInfo) (en : String × String) : RelationInfo :=
  { r with name_en := en.1, country_en := en.2 }

/-- The primary-language part of a record: ID, name, country and coordinates. -/
def RelationInfo.primary (r : RelationInfo) : OsmId × String × String × Double × Double :=
  (r.osmId, r.name, r.country, r.latitude, r.longitude)

/-- The common shape of the bodies of both English loops: an item accepted by `valid` whose ID
is registered overwrites the English fields of its slot, every other item is skipped. -/
def englishStep (valid : JsonValue → Bool) (st : LookupState) (item : JsonValue) :
    Option LookupState :=
  if valid item && mapContains st.pendingIdsForEnglishNames (itemId item) then
    setEnglishFields st (itemId item) (itemName item) (itemCountry item)
  else some st

/-- The English fields the last item of a list writes into slot `n`, if any item does. -/
def lastEnglish (valid : JsonValue → Bool) (m : List (OsmId × Nat)) (n : Nat) :
    List JsonValue → Option (String × String)
  | [] => none
  | item :: rest =>
    match lastEnglish valid m n rest with
    | some en => some en
    | none =>
      if valid item && (mapAt m (itemId item) == some n) then some (itemName item, itemCountry item)
      else none

/-- The effect of a list of English items on the record in slot `n`. -/
def applyEnglish (valid : JsonValue → Bool) (m : List (OsmId × Nat)) (n : Nat)
    (items : List JsonValue) (r : RelationInfo) : RelationInfo :=
  match lastEnglish valid m n items with
  | some en => r.withEnglish en
  | none => r

/-- Every slot of the index map is a position of the record sequence. -/
def InRange (st : LookupState) : Prop :=
  ∀ id i, mapAt st.pendingIdsForEnglishNames id = some i → i < st.records.length

/-- The items of a sequence of documents, in order; a document that is not an array has none. -/
def itemsOf (documents : List JsonValue) : List JsonValue :=
  (documents.map fun d => (d.GetArray).getD []).flatten

/-- The record the first pass builds from an item: the name is read under the address type of
the item itself. -/
def itemRecord (lib : Lib) (item : JsonValue) : RelationInfo :=
  jsonToObject lib item (itemType item)

/-- The items that register a record, following the spec's words (first-seen wins): the valid
items whose ID is neither in `seen` nor carried by an earlier valid item, in order. -/
def firstSeen (seen : List OsmId) : List JsonValue → List JsonValue
  | [] => []
  | item :: rest =>
    if isValidItem item && decide (itemId item ∉ seen) then
      item :: firstSeen (seen ++ [itemId item]) rest
    else firstSeen seen rest

/-- The IDs of a record sequence, in order. -/
def idsOf (records : RelationInfos) : List OsmId :=
  records.map fun r => r.osmId

/-- The index map registers exactly the IDs of the records. -/
def Registered (st : LookupState) : Prop :=
  ∀ id, mapContains st.pendingIdsForEnglishNames id = true ↔ id ∈ idsOf st.records

/-- Every entry of the index map points to a record that carries the ID of the entry. -/
def IndexOk (st : LookupState) : Prop :=
  ∀ id i, mapAt st.pendingIdsForEnglishNames id = some i →
    ∃ r, st.records[i]? = some r ∧ r.osmId = id

/-- The statements `cities.emplace_back(r); map.emplace(cities.back().osmId, cities.size() - 1);`
as one step on the state. -/
def pushRecord (st : LookupState) (r : RelationInfo) : LookupState :=
  { records := st.records ++ [r]
    pendingIdsForEnglishNames := mapEmplace st.pendingIdsForEnglishNames r.osmId st.records.length }

/-- An upstream item with the members the lookups read. -/
def sampleItem (osmId : Int) (addresstype name country lat lon : String) : JsonValue :=
  .object [("osm_id", .int osmId), ("addresstype", .str addresstype),
    ("address", .object [(addresstype, .str name), ("country", .str country)]),
    ("lat", .str lat), ("lon", .str lon)]

/-- A sample item of type state. -/
def lazioItem : JsonValue := sampleItem 40784 "state" "Lazio" "Italia" "42" "13"

/-- A sample item of type city. -/
def romaItem : JsonValue := sampleItem 41485 "city" "Roma" "Italia" "42" "12"

/-- The primary-language item of the spec's example: ID 100, type city, name Roma. -/
def roma100 : JsonValue := sampleItem 100 "city" "Roma" "Italia" "42" "12"

/-- The English item of the spec's example: ID 100, type city, name Rome. -/
def rome100 : JsonValue := sampleItem 100 "city" "Rome" "Italy" "42" "12"

/-- A sample library: the parser knows five response texts (an array with the state item, an
array with the city item, the two arrays of the spec's example, and an object that is not an
array) and rejects every other text; the number parser knows three numerals. -/
def sampleLib : Lib :=
  { Parse := fun text =>
      if text = "state-array" then some (.array [lazioItem])
      else if text = "city-array" then some (.array [romaItem])
      else if text = "roma-array" then some (.array [roma100])
      else if text = "rome-array" then some (.array [rome100])
      else if text = "error-object" then some (.object [("error", .str "unable to geocode")])
      else none
    from_chars := fun text =>
      if text = "42" then some (.val 42)
      else if text = "13" then some (.val 13)
      else if text = "12" then some (.val 12)
      else none }

/-- A transport that answers its requests from a fixed list of responses, in order, and with
the empty response once the list is used up; its state is the list of responses left. -/
def scriptedGet (script : List String) (_request : String) : String × List String :=
  (script.headD "", script.tail)

/-- The IDs 1 to 51: two batches. -/
def fiftyOneIds : OsmIds := (List.range 51).map fun i => (i : Int) + 1

/-- A transport that behaves as `Get` and also records, in order, every request it is sent. -/
def recordingGet {κ : Type} (Get : κ → String → String × κ) (st : κ × List String)
    (request : String) : String × (κ × List String) :=
  ((Get st.1 request).1, ((Get st.1 request).2, st.2 ++ [request]))

/-- The candidate `Match::Best` selects from the items of one batch when no record is stored
yet: for the first type of `types` that some item carries, the first item of that type. -/
def bestCandidate (items : List JsonValue) : List String → Option (JsonValue × String)
  | [] => none
  | type :: types =>
    match items.find? (fun x => decide (itemType x = type)) with
    | some x => some (x, type)
    | none => bestCandidate items types

/-- The records the first pass stores in `Match::Best` mode for a single batch: the record of
the selected candidate, read under the type it was selected for. -/
def bestRecords (lib : Lib) (items : List JsonValue) : RelationInfos :=
  match bestCandidate items sc_types with
  | some (x, type) => [jsonToObject lib x type]
  | none => []

/-- A second sample city item, with the coordinates of `romaItem`. -/
def ostiaItem : JsonValue := sampleItem 41486 "city" "Ostia" "Italia" "42" "12"

/-- A sample city item with the coordinates of `lazioItem`. -/
def rietiItem : JsonValue := sampleItem 41487 "city" "Rieti" "Italia" "42" "13"

/-- A sample city item without `osm_id`. -/
def namelessIdItem : JsonValue :=
  .object [("addresstype", .str "city"),
    ("address", .object [("city", .str "Roma"), ("country", .str "Italia")]),
    ("lat", .str "42"), ("lon", .str "12")]

/-- An English item for ID 100 that reports the type town and carries a name under `town` and
another under `city`. -/
def romeTown100 : JsonValue :=
  .object [("osm_id", .int 100), ("addresstype", .str "town"),
    ("address", .object [("town", .str "Rome (town)"), ("city", .str "Rome"),
      ("country", .str "Italy")]),
    ("lat", .str "42"), ("lon", .str "12")]

/-- An English item for ID 100 without `addresstype`. -/
def untyped100 : JsonValue :=
  .object [("osm_id", .int 100),
    ("address", .object [("city", .str "Rome"), ("country", .str "Italy")]),
    ("lat", .str "42"), ("lon", .str "12")]

/-- A second sample library: the parser of `sampleLib` extended by further response texts. -/
def sampleLib2 : Lib :=
  { Parse := fun text =>
      if text = "state-city-array" then some (.array [lazioItem, romaItem])
      else if text = "two-cities-array" then some (.array [romaItem, ostiaItem])
      else if text = "rieti-array" then some (.array [rietiItem])
      else if text = "no-id-array" then some (.array [namelessIdItem])
      else if text = "rome-town-array" then some (.array [romeTown100])
      else if text = "untyped-array" then some (.array [untyped100])
      else sampleLib.Parse text
    from_chars := sampleLib.from_chars }

end nominatim

namespace JsonValue

/-- The test `rapidjson::Value::IsObject`. -/
def IsObject : JsonValue → Bool
  | object _ => true
  | _ => false

/-- The test `rapidjson::Value::IsNull`. -/
def IsNull : JsonValue → Bool
  | null => true
  | _ => false

/-- The test `rapidjson::Value::HasMember`; the source calls it on objects only. -/
def HasMember : JsonValue → String → Bool
  | object members, name => (members.lookup name).isSome
  | _, _ => false

/-- The access `rapidjson::Value::operator[]` by member name: its precondition is an object
that has the member, checked by an assertion; otherwise there is no result. -/
def index : JsonValue → String → Option JsonValue
  | object members, name => members.lookup name
  | _, _ => none

end JsonValue

namespace overpass

/-- Modelled from the spec: the message type `GeoProtoTaggedFeature` comes from the absent
`ProtoTypes.h`; a feature is a position (latitude, longitude) plus a mapping from tag name to
tag value, kept here in insertion order. -/
structure GeoProtoTaggedFeature where
  latitude : Double
  longitude : Double
  tags : List (String × String)
  deriving DecidableEq

/-- The list type `GeoProtoTaggedFeatures`. -/
abbrev GeoProtoTaggedFeatures := List GeoProtoTaggedFeature

/-- The assignment `(*feature.mutable_tags())[key] = value`: a new key is added, an existing
key gets the new value. -/
def tagsSet (tags : List (String × String)) (key value : String) : List (String × String) :=
  if (tags.lookup key).isSome then tags.map fun kv => if kv.1 = key then (key, value) else kv
  else tags ++ [(key, value)]

/-- The optional tag of `ExtractCityDetails`: `if (tags.HasMember(key)) { if the text of the
member is not empty, store it under key }`. -/
def setTagIfPresent (tags : JsonValue) (key : String) (feature : GeoProtoTaggedFeature) :
    GeoProtoTaggedFeature :=
  if tags.HasMember key then
    let name := json.GetString (json.Get tags [key])
    if name ≠ "" then { feature with tags := tagsSet feature.tags key name } else feature
  else feature

/-- The block "Create TaggedFeature" of `ExtractCityDetails` for a kept element. `GetDouble`
is `json::GetDouble` of the absent `utils/JsonUtils.h`, taken as a parameter. -/
def makeFeature (GetDouble : JsonValue → Double) (element tags : JsonValue)
    (tourismValue : String) : GeoProtoTaggedFeature :=
  let lat := GetDouble (json.Get element ["lat"])
  let lon := GetDouble (json.Get element ["lon"])
  let feature : GeoProtoTaggedFeature := { latitude := lat, longitude := lon, tags := [] }
  let feature := { feature with tags := tagsSet feature.tags "tourism" tourismValue }
  let feature := setTagIfPresent tags "name" feature
  setTagIfPresent tags "name:en" feature

/-- The body of the loop of `ExtractCityDetails`; returning `features` unchanged is `continue`. -/
def cityDetailsStep (GetDouble : JsonValue → Double) (features : GeoProtoTaggedFeatures)
    (element : JsonValue) : GeoProtoTaggedFeatures :=
  if json.GetString (json.Get element ["type"]) ≠ "node" then features
  else
    let tags := json.Get element ["tags"]
    if !tags.IsObject || !tags.HasMember "tourism" then features
    else
      let tourismValue := json.GetString (json.Get tags ["tourism"])
      if tourismValue ≠ "hotel" ∧ tourismValue ≠ "museum" then features
      else features ++ [makeFeature GetDouble element tags tourismValue]

/-- The function `ExtractCityDetails`; `jsonText` is its parameter `json`. -/
def ExtractCityDetails (lib : nominatim.Lib) (GetDouble : JsonValue → Double) (jsonText : String) :
    Option GeoProtoTaggedFeatures :=
  if jsonText = "" then some []
  else
    let document := (lib.Parse jsonText).getD JsonValue.null
    if !document.IsObject || !document.HasMember "elements" then some []
    else
      match document.index "elements" with
      | none => none
      | some elements =>
        match elements.GetArray with
        | none => none
        | some array => some (array.foldl (cityDetailsStep GetDouble) [])

/-- The body of the loop of `ExtractRelationIds`. -/
def relationIdsStep (result : OsmIds) (e : JsonValue) : OsmIds :=
  let id := json.Get e ["id"]
  if !id.IsNull && decide (json.GetString (json.Get e ["type"]) = "relation") then
    result ++ [json.GetInt64 id]
  else result

/-- The function `ExtractRelationIds`; `jsonText` is its parameter `json`. -/
def ExtractRelationIds (lib : nominatim.Lib) (jsonText : String) : Option OsmIds :=
  if jsonText = "" then some []
  else
    let document := (lib.Parse jsonText).getD JsonValue.null
    if !document.IsObject then some []
    else
      match document.index "elements" with
      | none => none
      | some elements =>
        match elements.GetArray with
        | none => none
        | some array => some (array.foldl relationIdsStep [])

/-- The elements `ExtractCityDetails` is expected to keep, in the spec's words: a node whose
`tags` object carries `tourism` equal to `hotel` or `museum`. -/
def isHotelOrMuseumNode (element : JsonValue) : Bool :=
  decide (json.GetString (json.Get element ["type"]) = "node") &&
    match json.Get element ["tags"] with
    | .object members =>
      (match members.lookup "tourism" with
        | some (.str value) => decide (value = "hotel" ∨ value = "museum")
        | _ => false)
    | _ => false

/-- The tag entry `ExtractCityDetails` stores for an optional tag: the text of the member
`key` of `tags` when that text is not empty. -/
def optionalTag (tags : JsonValue) (key : String) : List (String × String) :=
  if json.GetString (json.Get tags [key]) ≠ "" then [(key, json.GetString (json.Get tags [key]))]
  else []

/-- A sample node element with the given tags. -/
def sampleNode (tags : List (String × JsonValue)) : JsonValue :=
  .object [("type", .str "node"), ("id", .int 7), ("lat", .number (.val 42)),
    ("lon", .number (.val 12)), ("tags", .object tags)]

/-- The hotel of the spec's example. -/
def grandHotel : JsonValue :=
  sampleNode [("tourism", .str "hotel"), ("name", .str "Grand Hotel")]

/-- The restaurant of the spec's example. -/
def restaurant : JsonValue := sampleNode [("tourism", .str "restaurant")]

/-- A hotel that carries a further tag. -/
def starredHotel : JsonValue :=
  sampleNode [("tourism", .str "hotel"), ("name", .str "Grand Hotel"), ("stars", .str "5")]

/-- A sample `json::GetDouble`: the value of a number, zero otherwise. -/
def sampleGetDouble : JsonValue → Double
  | .number d => d
  | .int i => .val i
  | _ => .val 0

/-- A sample parser for Overpass responses: five texts are known, every other text is
rejected. -/
def sampleOverpassLib : nominatim.Lib :=
  { Parse := fun text =>
      if text = "hotel-and-restaurant" then
        some (.object [("elements", .array [grandHotel, restaurant])])
      else if text = "starred-hotel" then some (.object [("elements", .array [starredHotel])])
      else if text = "empty-object" then some (.object [])
      else if text = "elements-five" then some (.object [("elements", .int 5)])
      else if text = "empty-array" then some (.array [])
      else none
    from_chars := fun _ => none }

/-- The feature `ExtractCityDetails` builds for a kept element. -/
def featureOf (GetDouble : JsonValue → Double) (element : JsonValue) : GeoProtoTaggedFeature :=
  makeFeature GetDouble element (json.Get element ["tags"])
    (json.GetString (json.Get (json.Get element ["tags"]) ["tourism"]))

end overpass

namespace nominatim

end nominatim

namespace overpass

/-- The elements `ExtractRelationIds` is expected to keep: the type is `relation` and the
member `id` is present and not null. -/
def isRelationWithId (e : JsonValue) : Bool :=
  decide (json.GetString (json.Get e ["type"]) = "relation") && !(json.Get e ["id"]).IsNull

/-- A sample element of the given type and ID. -/
def sampleElement (type : String) (id : Int) : JsonValue :=
  .object [("type", .str type), ("id", .int id)]

/-- A sample relation element without `id`. -/
def relationWithoutId : JsonValue := .object [("type", .str "relation")]

/-- A sample parser for a response with relations: the text `relations` holds the relation 5,
the node 7, a relation without ID, the way 8 and the relation 9. -/
def sampleRelationsLib : nominatim.Lib :=
  { Parse := fun text =>
      if text = "relations" then
        some (.object [("elements", .array [sampleElement "relation" 5, sampleElement "node" 7,
          relationWithoutId, sampleElement "way" 8, sampleElement "relation" 9])])
      else none
    from_chars := fun _ => none }

end overpass

namespace nominatim

/-- The invariant of the index map: every entry `id -> i` points to the first slot whose record
carries `id`, and the ID of every record has an entry. -/
def IndexInvariant (st : LookupState) : Prop :=
  (∀ id i, mapAt st.pendingIdsForEnglishNames id = some i →
    (idsOf st.records)[i]? = some id ∧ ∀ j, j < i → (idsOf st.records)[j]? ≠ some id) ∧
  (∀ id ∈ idsOf st.records, mapContains st.pendingIdsForEnglishNames id = true)

end nominatim

/-- Modelled from the spec: the message `google.protobuf.Timestamp` (the absent generated
header `geo.pb.h` uses it for `from_date` and `to_date`): whole seconds and nanoseconds. -/
structure Timestamp where
  seconds : Int
  nanos : Int
  deriving DecidableEq

/-- The order of timestamps: by seconds, then by nanoseconds. -/
def Timestamp.le (a b : Timestamp) : Prop :=
  a.seconds < b.seconds ∨ (a.seconds = b.seconds ∧ a.nanos ≤ b.nanos)

/-- Modelled from the spec: a position message of the absent `geo.pb.h`. -/
structure Position where
  latitude : Double
  longitude : Double
  deriving DecidableEq

/-- Modelled from the spec: the message `WeatherRequest` of the absent `geo.pb.h`; an unset
message field is `none`, `num_years` is unsigned. -/
structure WeatherRequest where
  locations : List Position
  from_date : Option Timestamp
  to_date : Option Timestamp
  num_years : Nat

/-- Modelled from the spec: the message `RegionsRequest.Preferences` of the absent `geo.pb.h`:
a bit mask of features and a map of properties. -/
structure Preferences where
  mask : Nat
  properties : List (String × String)
  deriving DecidableEq

/-- Modelled from the spec: the message `RegionsRequest` of the absent `geo.pb.h`; an unset
message field is `none`, `distance_km` is unsigned. -/
structure RegionsRequest where
  position : Option Position
  prefs : Option Preferences
  distance_km : Nat

/-- The functions and constants the validators take from absent headers, as parameters:
`IsValidLatitude` and `IsValidLongitude` of `utils/GeoUtils.h`, and the enumerators
`GEOGRAPHICAL_FEATURE_UNSPECIFIED` and `GEOGRAPHICAL_FEATURE_PEAKS` of `geo.pb.h`. -/
structure ValidatorEnv where
  IsValidLatitude : Double → Bool
  IsValidLongitude : Double → Bool
  GEOGRAPHICAL_FEATURE_UNSPECIFIED : Nat
  GEOGRAPHICAL_FEATURE_PEAKS : Nat

/-- The accessor of a message field: the default message when the field is unset. -/
def Timestamp.orDefault (t : Option Timestamp) : Timestamp :=
  t.getD { seconds := 0, nanos := 0 }

/-- The loop of `ValidateWeatherRequest` over the locations: the error of the first location
with a wrong coordinate, the latitude being checked before the longitude. -/
def weatherLocationsError (env : ValidatorEnv) : List Position → Option String
  | [] => none
  | location :: rest =>
    if !env.IsValidLatitude location.latitude then some "Wrong latitude in WeatherRequest"
    else if !env.IsValidLongitude location.longitude then some "Wrong longitude in WeatherRequest"
    else weatherLocationsError env rest

/-- The function `ValidateWeatherRequest`: `none` is `nullptr`. -/
def ValidateWeatherRequest (env : ValidatorEnv) (request : WeatherRequest) : Option String :=
  if request.locations.length = 0 then
    some "At least one location must be set in WeatherRequest"
  else
    match weatherLocationsError env request.locations with
    | some errorString => some errorString
    | none =>
      if request.from_date.isNone || request.to_date.isNone then
        some "Date range must be set in WeatherRequest"
      else if (Timestamp.orDefault request.from_date).seconds >
          (Timestamp.orDefault request.to_date).seconds then
        some "from_date must be before or equal to to_date in WeatherRequest"
      else if request.num_years = 0 then some "num_years must be at least 1 in WeatherRequest"
      else none

/-- The accessor `request.position()`: the default message when the field is unset. -/
def RegionsRequest.positionOrDefault (request : RegionsRequest) : Position :=
  request.position.getD { latitude := .val 0, longitude := .val 0 }

/-- The accessor `request.prefs()`: the default message when the field is unset. -/
def RegionsRequest.prefsOrDefault (request : RegionsRequest) : Preferences :=
  request.prefs.getD { mask := 0, properties := [] }

/-- The function `ValidateRegionsRequest`: `none` is `nullptr`. -/
def ValidateRegionsRequest (env : ValidatorEnv) (request : RegionsRequest) : Option String :=
  if request.position.isNone then some "Position must be set in RegionsRequest"
  else if request.prefs.isNone then some "Preferences must be set in RegionsRequest"
  else if !env.IsValidLatitude request.positionOrDefault.latitude then
    some "Wrong latitude in RegionsRequest"
  else if !env.IsValidLongitude request.positionOrDefault.longitude then
    some "Wrong longitude in RegionsRequest"
  else if request.distance_km > 1000 then some "distance_km is out-of-range"
  else if request.prefsOrDefault.mask = env.GEOGRAPHICAL_FEATURE_UNSPECIFIED then
    some "At least one feature must be specified"
  else if request.prefsOrDefault.mask &&& env.GEOGRAPHICAL_FEATURE_PEAKS ≠ 0 then
    if (request.prefsOrDefault.properties.lookup "minPeakHeight").isNone then
      some "minPeakHeight is required for Peaks feature"
    else none
  else none

/-- A sample environment: a coordinate is valid when it is a number; the feature mask 0 is
unspecified and the bit 2 is the peaks feature. -/
def sampleEnv : ValidatorEnv :=
  { IsValidLatitude := fun d => decide (d ≠ Double.nan)
    IsValidLongitude := fun d => decide (d ≠ Double.nan)
    GEOGRAPHICAL_FEATURE_UNSPECIFIED := 0
    GEOGRAPHICAL_FEATURE_PEAKS := 2 }

/-- A sample weather request whose `from_date` is later than its `to_date` within one second. -/
def sameSecondRequest : WeatherRequest :=
  { locations := [{ latitude := .val 42, longitude := .val 12 }]
    from_date := some { seconds := 10, nanos := 5 }
    to_date := some { seconds := 10, nanos := 0 }
    num_years := 1 }

/-- A sample regions request that passes validation. -/
def sampleRegionsRequest : RegionsRequest :=
  { position := some { latitude := .val 42, longitude := .val 12 }
    prefs := some { mask := 1, properties := [] }
    distance_km := 10 }

namespace nominatim

end nominatim

/-- The status an RPC is finished with (`grpc::Status`). -/
inductive Status where
  | OK
  | INVALID_ARGUMENT (message : String)
  | UNKNOWN (message : String)
  deriving DecidableEq

/-- What the reactor does to the outside, in the order it happens: a call of the search handler
(with the value `m_currentBoxIndex` had when the box was taken), a `StartWrite` of a response
with the given regions, a `Finish` with a status. -/
inductive ReactorEvent (β ρ : Type) where
  | search (index : Nat) (bbox : β)
  | write (regions : List ρ)
  | finish (status : Status)
  deriving DecidableEq

/-- The index and box of a search event. -/
def ReactorEvent.searched {β ρ : Type} : ReactorEvent β ρ → Option (Nat × β)
  | .search index bbox => some (index, bbox)
  | _ => none

/-- The regions of a write event. -/
def ReactorEvent.written {β ρ : Type} : ReactorEvent β ρ → Option (List ρ)
  | .write regions => some regions
  | _ => none

/-- The status of a finish event. -/
def ReactorEvent.finished {β ρ : Type} : ReactorEvent β ρ → Option Status
  | .finish status => some status
  | _ => none

/-- The members of `GetRegionsStreamReactor` (boxes of type `β`, regions of type `ρ`, the state
of the incremental search handler of type `η`), with the events so far and whether a write is
in flight, that is whether `OnWriteDone` is still to be called. -/
structure ReactorState (β ρ η : Type) where
  m_prefs : Preferences
  m_boundingBoxes : List β
  m_currentBoxIndex : Nat
  m_searchHandler : η
  events : List (ReactorEvent β ρ)
  writePending : Bool

/-- The loop of `processNextBox`; `fuel` bounds the number of iterations. `search` is the call
`m_searchHandler(bbox, m_prefs)`: it yields the regions and the next state of the handler. -/
def processNextBoxLoop {β ρ η : Type} (search : η → β → Preferences → List ρ × η) :
    Nat → ReactorState β ρ η → ReactorState β ρ η
  | 0, r => r
  | fuel + 1, r =>
    if h : r.m_currentBoxIndex < r.m_boundingBoxes.length then
      let bbox := r.m_boundingBoxes[r.m_currentBoxIndex]
      let regions := (search r.m_searchHandler bbox r.m_prefs).1
      let r1 : ReactorState β ρ η :=
        { r with
          m_currentBoxIndex := r.m_currentBoxIndex + 1
          m_searchHandler := (search r.m_searchHandler bbox r.m_prefs).2
          events := r.events ++ [ReactorEvent.search r.m_currentBoxIndex bbox] }
      if !regions.isEmpty then
        { r1 with events := r1.events ++ [ReactorEvent.write regions], writePending := true }
      else processNextBoxLoop search fuel r1
    else { r with events := r.events ++ [ReactorEvent.finish Status.OK] }

/-- The method `processNextBox`: every iteration advances `m_currentBoxIndex`, so one more
iteration than there are boxes left is enough. -/
def processNextBox {β ρ η : Type} (search : η → β → Preferences → List ρ × η)
    (r : ReactorState β ρ η) : ReactorState β ρ η :=
  processNextBoxLoop search (r.m_boundingBoxes.length - r.m_currentBoxIndex + 1) r

/-- The method `OnWriteDone`. -/
def OnWriteDone {β ρ η : Type} (search : η → β → Preferences → List ρ × η) (ok : Bool)
    (r : ReactorState β ρ η) : ReactorState β ρ η :=
  if !ok then { r with events := r.events ++ [ReactorEvent.finish (Status.UNKNOWN "Write failed")] }
  else processNextBox search r

/-- The constructor of `GetRegionsStreamReactor`. `CreateBoundingBoxes` (of the absent
`utils/GeoUtils.h`) and the handler state `StartFindRegions` returns are parameters. -/
def GetRegionsStreamReactor {β ρ η : Type} (env : ValidatorEnv)
    (CreateBoundingBoxes : Double → Double → Nat → Nat → Nat → List β) (StartFindRegions : η)
    (search : η → β → Preferences → List ρ × η) (request : RegionsRequest)
    (maxBoxWidth maxBoxHeight : Nat) : ReactorState β ρ η :=
  match ValidateRegionsRequest env request with
  | some errorString =>
    { m_prefs := { mask := 0, properties := [] }
      m_boundingBoxes := []
      m_currentBoxIndex := 0
      m_searchHandler := StartFindRegions
      events := [ReactorEvent.finish (Status.INVALID_ARGUMENT errorString)]
      writePending := false }
  | none =>
    processNextBox search
      { m_prefs := { mask := request.prefsOrDefault.mask
                     properties := request.prefsOrDefault.properties }
        m_boundingBoxes := CreateBoundingBoxes request.positionOrDefault.latitude
          request.positionOrDefault.longitude (request.distance_km * 1000) maxBoxWidth maxBoxHeight
        m_currentBoxIndex := 0
        m_searchHandler := StartFindRegions
        events := []
        writePending := false }

/-- The gRPC runtime as far as the reactor sees it: while a write is in flight it completes the
write and calls `OnWriteDone` with the next outcome of `oks`. -/
def deliverWrites {β ρ η : Type} (search : η → β → Preferences → List ρ × η) :
    List Bool → ReactorState β ρ η → ReactorState β ρ η
  | [], r => r
  | ok :: oks, r =>
    if r.writePending then
      deliverWrites search oks (OnWriteDone search ok { r with writePending := false })
    else r

/-- The events expected for the boxes from position `index` on, in the spec's words: for each
box in order one search, followed by a write when the search found regions, and one `Finish`
with `OK` after the last box. -/
def expectedEvents {β ρ η : Type} (search : η → β → Preferences → List ρ × η)
    (prefs : Preferences) : η → Nat → List β → List (ReactorEvent β ρ)
  | _, _, [] => [ReactorEvent.finish Status.OK]
  | handler, index, bbox :: rest =>
    ReactorEvent.search index bbox ::
      ((if !(search handler bbox prefs).1.isEmpty then
          [ReactorEvent.write (search handler bbox prefs).1]
        else []) ++
        expectedEvents search prefs (search handler bbox prefs).2 (index + 1) rest)

/-- The results of the searches of the boxes in order, the handler state being threaded. -/
def searchResults {β ρ η : Type} (search : η → β → Preferences → List ρ × η)
    (prefs : Preferences) : η → List β → List (List ρ)
  | _, [] => []
  | handler, bbox :: rest =>
    (search handler bbox prefs).1 :: searchResults search prefs (search handler bbox prefs).2 rest

/-- The boxes paired with their positions, counted from `index`. -/
def indexedFrom {β : Type} : Nat → List β → List (Nat × β)
  | _, [] => []
  | index, bbox :: rest => (index, bbox) :: indexedFrom (index + 1) rest

/-- A sample search over boxes that are numbers: an even box has the region `box / 2`, an odd
box has none; the handler counts its calls. -/
def sampleSearch (calls : Nat) (bbox : Nat) (_prefs : Preferences) : List Nat × Nat :=
  (if bbox % 2 = 0 then [bbox / 2] else [], calls + 1)

/-- A sample `CreateBoundingBoxes`: the boxes 4, 7 and 10. -/
def sampleBoxes (_latitude _longitude : Double) (_distance _maxBoxWidth _maxBoxHeight : Nat) :
    List Nat :=
  [4, 7, 10]

namespace nominatim

/-- A city item at latitude 1 and longitude 0. -/
def northItem : JsonValue := sampleItem 1 "city" "North" "Land" "1" "0"

/-- A city item at longitude 0 whose latitude is the double `2^-54`, written
`5.5511151231257827e-17`. -/
def southItem : JsonValue := sampleItem 2 "city" "South" "Land" "5.5511151231257827e-17" "0"

/-- A sample library for the boundary of the closeness test: the parser knows the array of
`northItem` and `southItem`, the number parser the three numerals of these items, each read as
the double nearest to it. -/
def boundaryLib : Lib :=
  { Parse := fun text =>
      if text = "boundary-array" then some (.array [northItem, southItem]) else none
    from_chars := fun text =>
      if text = "1" then some (.val 1)
      else if text = "0" then some (.val 0)
      else if text = "5.5511151231257827e-17" then some (.val (1 / 2 ^ 54))
      else none }

/-- The outcome of a run that acts on the transport and can stop at a failed precondition, as
the outcome of a run that returns: the state of the transport is known either way, the captured
variables only when the run returns. -/
def completed {κ σ : Type} : κ × Option σ → Option (κ × σ)
  | (k, some s) => some (k, s)
  | (_, none) => none

/-- The loop of `forEachChunk` for a handler that acts on the transport: as `forEachChunkFrom`,
and when the handler stops at a failed precondition the loop ends there with the transport as
it is at that point. -/
def forEachChunkFromTraced {κ σ : Type} (relationIds : OsmIds)
    (fn : OsmIds → κ × σ → κ × Option σ) : Nat → Nat → κ × σ → κ × Option σ
  | 0, _, s => (s.1, some s.2)
  | fuel + 1, itBegin, s =>
    if itBegin < relationIds.length then
      let itEnd := min (itBegin + sc_chunkSize) relationIds.length
      match fn ((relationIds.drop itBegin).take (itEnd - itBegin)) s with
      | (k, none) => (k, none)
      | (k, some s') => forEachChunkFromTraced relationIds fn fuel (itBegin + sc_chunkSize) (k, s')
    else (s.1, some s.2)

/-- The function `forEachChunk` with the transport kept, see `forEachChunkFromTraced`. -/
def forEachChunkTraced {κ σ : Type} (relationIds : OsmIds)
    (fn : OsmIds → κ × σ → κ × Option σ) (s : κ × σ) : κ × Option σ :=
  forEachChunkFromTraced relationIds fn relationIds.length 0 s

/-- The body of the lambda of `splitInChunksAndParseResponses` with the transport kept: the
request is sent before the response is handled, so it stays sent when the handler stops. -/
def dispatchChunkTraced {κ σ : Type} (lib : Lib) (Get : κ → String → String × κ)
    (responseHandler : JsonValue → σ → Option σ) (language : Option String)
    (chunk : OsmIds) (st : κ × σ) : κ × Option σ :=
  let request := formatRelationLookupRequest chunk language
  let (response, k) := Get st.1 request
  if response = "" then (k, some st.2)
  else
    let document := (lib.Parse response).getD JsonValue.null
    (k, responseHandler document st.2)

/-- The function `splitInChunksAndParseResponses` with the transport kept. -/
def splitInChunksAndParseResponsesTraced {κ σ : Type} (lib : Lib) (relationIds : OsmIds)
    (Get : κ → String → String × κ) (responseHandler : JsonValue → σ → Option σ)
    (language : Option String) (st : κ × σ) : κ × Option σ :=
  forEachChunkTraced relationIds (dispatchChunkTraced lib Get responseHandler language) st

/-- Both passes of `LookupRelationInformation` with the transport kept: the second pass is not
started when the first one stops. -/
def LookupRelationInformationTraced {κ : Type} (lib : Lib) (relationIds : OsmIds)
    (Get : κ → String → String × κ) (k : κ) : κ × Option LookupState :=
  match splitInChunksAndParseResponsesTraced lib relationIds Get (handleResponse lib false) none
      (k, emptyState) with
  | (k1, none) => (k1, none)
  | (k1, some st) =>
    splitInChunksAndParseResponsesTraced lib relationIds Get (handleResponse lib true) (some "en")
      (k1, st)

/-- Both passes of `LookupRelationInformationForCities` with the transport kept. -/
def LookupRelationInformationForCitiesTraced {κ : Type} (lib : Lib) (relationIds : OsmIds)
    (mode : Match) (Get : κ → String → String × κ) (k : κ) : κ × Option LookupState :=
  match splitInChunksAndParseResponsesTraced lib relationIds Get (handleCitiesResponse lib mode)
      none (k, emptyState) with
  | (k1, none) => (k1, none)
  | (k1, some st) =>
    splitInChunksAndParseResponsesTraced lib relationIds Get handleCitiesEnglishResponse
      (some "en") (k1, st)

/-! ## Theorems -/

theorem forItems_append {α σ : Type} (body : σ → α → Option σ) (xs ys : List α) (s : σ) :
    forItems body (xs ++ ys) s = (forItems body xs s).bind (forItems body ys) := by
  induction xs generalizing s with
  | nil => simp [forItems]
  | cons x xs ih =>
    simp only [List.cons_append, forItems]
    cases body s x with
    | none => simp
    | some s1 => simpa using ih s1

theorem batchAt_eq (ids : OsmIds) (k : Nat) :
    batchAt ids k = (ids.drop (50 * k)).take 50 := by
  unfold batchAt
  rw [List.take_eq_take, List.length_drop]
  omega

theorem forEachChunkFrom_eq {τ : Type} (ids : OsmIds) (fn : OsmIds → τ → Option τ) :
    ∀ (fuel j : Nat) (s : τ), (ids.length + 49) / 50 ≤ j + fuel →
      forEachChunkFrom ids fn fuel (50 * j) s =
        forItems (fun s chunk => fn chunk s)
          ((List.range' j ((ids.length + 49) / 50 - j)).map (batchAt ids)) s := by
  intro fuel
  induction fuel with
  | zero =>
    intro j s h
    have : (ids.length + 49) / 50 - j = 0 := by omega
    simp [forEachChunkFrom, forItems, this]
  | succ fuel ih =>
    intro j s h
    unfold forEachChunkFrom
    by_cases hlt : 50 * j < ids.length
    · have hm : (ids.length + 49) / 50 - j = ((ids.length + 49) / 50 - (j + 1)) + 1 := by omega
      rw [if_pos hlt, hm, List.range'_succ]
      simp only [List.map_cons, forItems, sc_chunkSize]
      have hb : List.take (min (50 * j + 50) ids.length - 50 * j) (List.drop (50 * j) ids) = batchAt ids j := by
        unfold batchAt
        rfl
      rw [hb]
      cases fn (batchAt ids j) s with
      | none => rfl
      | some s1 =>
        have := ih (j + 1) s1 (by omega)
        simpa [Nat.mul_add] using this
    · have : (ids.length + 49) / 50 - j = 0 := by omega
      simp [hlt, forItems, this]

theorem forEachChunk_eq {τ : Type} (ids : OsmIds) (fn : OsmIds → τ → Option τ) (s : τ) :
    forEachChunk ids fn s = forItems (fun s chunk => fn chunk s) (batchesOf ids) s := by
  have h := forEachChunkFrom_eq ids fn ids.length 0 s (by omega)
  simpa [forEachChunk, batchesOf, List.range_eq_range'] using h

theorem batches_flatten_take (ids : OsmIds) (m : Nat) :
    ((List.range m).map (batchAt ids)).flatten = ids.take (50 * m) := by
  induction m with
  | zero => simp
  | succ m ih =>
    rw [List.range_succ, List.map_append, List.flatten_append, ih, Nat.mul_succ, List.take_add]
    simp [batchAt_eq]

theorem batchesOf_flatten (ids : OsmIds) : (batchesOf ids).flatten = ids := by
  unfold batchesOf
  rw [batches_flatten_take]
  apply List.take_of_length_le
  omega

theorem batchesOf_mem (ids b : OsmIds) (hb : b ∈ batchesOf ids) : b ≠ [] ∧ b.length ≤ 50 := by
  unfold batchesOf at hb
  obtain ⟨k, hk, rfl⟩ := List.mem_map.1 hb
  rw [List.mem_range] at hk
  rw [batchAt_eq]
  constructor
  · intro h
    have := congrArg List.length h
    simp at this
    omega
  · simp

theorem forItems_log {α : Type} (xs : List α) (log : List α) :
    forItems (fun (log : List α) x => some (log ++ [x])) xs log = some (log ++ xs) := by
  induction xs generalizing log with
  | nil => simp [forItems]
  | cons x xs ih => simp [forItems, ih]

/-- C1: for every ID list of length n, `forEachChunk` (and so
`splitInChunksAndParseResponses`) issues exactly ceil(n/50) batches, batch k is
`ids[50k : min(50(k+1), n)]`, every batch is non-empty and has at most 50 IDs, and the batches
concatenated in order are the ID list. The batches are the ones a handler that logs its
argument sees; every other handler, and the dispatcher, runs over the same batches. -/
theorem forEachChunk_batches (relationIds : OsmIds) :
    ∃ batches : List OsmIds,
      forEachChunk relationIds (fun chunk log => some (log ++ [chunk])) [] = some batches ∧
      batches.length = (relationIds.length + 49) / 50 ∧
      (∀ k, k < batches.length → batches[k]? =
        some ((relationIds.drop (50 * k)).take (min (50 * (k + 1)) relationIds.length - 50 * k))) ∧
      (∀ b ∈ batches, b ≠ [] ∧ b.length ≤ 50) ∧
      batches.flatten = relationIds ∧
      (∀ (τ : Type) (fn : OsmIds → τ → Option τ) (s : τ),
        forEachChunk relationIds fn s = forItems (fun s chunk => fn chunk s) batches s) ∧
      (∀ (κ σ : Type) (lib : Lib) (Get : κ → String → String × κ)
        (responseHandler : JsonValue → σ → Option σ) (language : Option String) (st : κ × σ),
        splitInChunksAndParseResponses lib relationIds Get responseHandler language st =
          forItems (fun s chunk => dispatchChunk lib Get responseHandler language chunk s) batches st) := by
  refine ⟨batchesOf relationIds, ?_, ?_, ?_, batchesOf_mem relationIds, batchesOf_flatten relationIds,
    fun τ fn s => forEachChunk_eq relationIds fn s, ?_⟩
  · rw [forEachChunk_eq, forItems_log]; simp
  · simp [batchesOf]
  · intro k hk
    simp only [batchesOf, List.length_map, List.length_range] at hk
    simp [batchesOf, List.getElem?_range hk, batchAt]
  · intro κ σ lib Get responseHandler language st
    exact forEachChunk_eq relationIds _ st

theorem forItems_dispatchChunk {κ σ : Type} (lib : Lib) (Get : κ → String → String × κ)
    (responseHandler : JsonValue → σ → Option σ) (language : Option String) :
    ∀ (chunks : List OsmIds) (k : κ) (s : σ),
      forItems (fun st chunk => dispatchChunk lib Get responseHandler language chunk st) chunks (k, s) =
        (forItems (fun s document => responseHandler document s)
          (documentsOf lib (responsesOf Get
            (chunks.map fun chunk => formatRelationLookupRequest chunk language) k).1) s).map
          fun s' => ((responsesOf Get
            (chunks.map fun chunk => formatRelationLookupRequest chunk language) k).2, s') := by
  intro chunks
  induction chunks with
  | nil => intro k s; simp [forItems, responsesOf, documentsOf]
  | cons chunk rest ih =>
    intro k s
    simp only [forItems, List.map_cons, responsesOf, dispatchChunk]
    by_cases hempty : (Get k (formatRelationLookupRequest chunk language)).1 = ""
    · have hd : documentsOf lib ((Get k (formatRelationLookupRequest chunk language)).1 ::
          (responsesOf Get (rest.map fun chunk => formatRelationLookupRequest chunk language)
            (Get k (formatRelationLookupRequest chunk language)).2).1) =
          documentsOf lib (responsesOf Get (rest.map fun chunk => formatRelationLookupRequest chunk language)
            (Get k (formatRelationLookupRequest chunk language)).2).1 := by
        simp [documentsOf, hempty]
      rw [if_pos hempty, hd]
      exact ih _ s
    · have hd : documentsOf lib ((Get k (formatRelationLookupRequest chunk language)).1 ::
          (responsesOf Get (rest.map fun chunk => formatRelationLookupRequest chunk language)
            (Get k (formatRelationLookupRequest chunk language)).2).1) =
          (lib.Parse (Get k (formatRelationLookupRequest chunk language)).1).getD JsonValue.null ::
          documentsOf lib (responsesOf Get (rest.map fun chunk => formatRelationLookupRequest chunk language)
            (Get k (formatRelationLookupRequest chunk language)).2).1 := by
        simp [documentsOf, hempty]
      rw [if_neg hempty, hd]
      simp only [forItems]
      cases responseHandler ((lib.Parse (Get k (formatRelationLookupRequest chunk language)).1).getD
          JsonValue.null) s with
      | none => rfl
      | some s1 => exact ih _ s1

theorem splitInChunksAndParseResponses_eq {κ σ : Type} (lib : Lib) (ids : OsmIds)
    (Get : κ → String → String × κ) (responseHandler : JsonValue → σ → Option σ)
    (language : Option String) (k : κ) (s : σ) :
    splitInChunksAndParseResponses lib ids Get responseHandler language (k, s) =
      (forItems (fun s document => responseHandler document s)
        (documentsOf lib (responsesOf Get (requestsOf ids language) k).1) s).map
        fun s' => ((responsesOf Get (requestsOf ids language) k).2, s') := by
  unfold splitInChunksAndParseResponses
  rw [forEachChunk_eq]
  exact forItems_dispatchChunk lib Get responseHandler language (batchesOf ids) k s

theorem responsesOf_length {κ : Type} (Get : κ → String → String × κ) :
    ∀ (requests : List String) (k : κ), (responsesOf Get requests k).1.length = requests.length := by
  intro requests
  induction requests with
  | nil => intro k; rfl
  | cons request rest ih => intro k; simp [responsesOf, ih]

theorem responsesOf_all_empty {κ : Type} (Get : κ → String → String × κ)
    (hGet : ∀ k request, (Get k request).1 = "") :
    ∀ (requests : List String) (k : κ), ∀ r ∈ (responsesOf Get requests k).1, r = "" := by
  intro requests
  induction requests with
  | nil => intro k r hr; simp [responsesOf] at hr
  | cons request rest ih =>
    intro k r hr
    simp only [responsesOf, List.mem_cons] at hr
    rcases hr with h | h
    · rw [h]; exact hGet k request
    · exact ih _ r h

theorem documentsOf_all_empty (lib : Lib) (responses : List String)
    (h : ∀ r ∈ responses, r = "") : documentsOf lib responses = [] := by
  unfold documentsOf
  rw [List.map_eq_nil_iff, List.filter_eq_nil_iff]
  intro r hr
  simp [h r hr]

theorem LookupRelationInformationRun_eq {κ : Type} (lib : Lib) (ids : OsmIds)
    (Get : κ → String → String × κ) (k : κ) :
    LookupRelationInformationRun lib ids Get k =
      (forItems (fun s d => handleResponse lib false d s) (primaryDocuments lib ids Get k)
        emptyState).bind fun s1 =>
        (forItems (fun s d => handleResponse lib true d s) (englishDocuments lib ids Get k) s1).map
          fun s2 => ((responsesOf Get (requestsOf ids (some "en"))
            (responsesOf Get (requestsOf ids none) k).2).2, s2) := by
  unfold LookupRelationInformationRun
  rw [splitInChunksAndParseResponses_eq]
  cases h : forItems (fun s d => handleResponse lib false d s)
      (documentsOf lib (responsesOf Get (requestsOf ids none) k).1) emptyState with
  | none => simp [primaryDocuments, h]
  | some s1 =>
    simp only [Option.map_some', primaryDocuments, h, Option.some_bind]
    rw [splitInChunksAndParseResponses_eq]
    rfl

theorem LookupRelationInformation_eq {κ : Type} (lib : Lib) (ids : OsmIds)
    (Get : κ → String → String × κ) (k : κ) :
    LookupRelationInformation lib ids Get k =
      ((forItems (fun s d => handleResponse lib false d s) (primaryDocuments lib ids Get k)
        emptyState).bind fun s1 =>
        forItems (fun s d => handleResponse lib true d s) (englishDocuments lib ids Get k) s1).map
        fun s2 => s2.records := by
  unfold LookupRelationInformation
  rw [LookupRelationInformationRun_eq]
  cases forItems (fun s d => handleResponse lib false d s) (primaryDocuments lib ids Get k)
      emptyState with
  | none => rfl
  | some s1 =>
    simp only [Option.some_bind]
    cases forItems (fun s d => handleResponse lib true d s) (englishDocuments lib ids Get k) s1 <;> rfl

theorem LookupRelationInformationForCities_eq {κ : Type} (lib : Lib) (ids : OsmIds) (mode : Match)
    (Get : κ → String → String × κ) (k : κ) :
    LookupRelationInformationForCities lib ids mode Get k =
      ((forItems (fun s d => handleCitiesResponse lib mode d s) (primaryDocuments lib ids Get k)
        emptyState).bind fun s1 =>
        forItems (fun s d => handleCitiesEnglishResponse d s) (englishDocuments lib ids Get k) s1).map
        fun s2 => s2.records := by
  unfold LookupRelationInformationForCities LookupRelationInformationForCitiesRun
  rw [splitInChunksAndParseResponses_eq]
  cases h : forItems (fun s d => handleCitiesResponse lib mode d s)
      (documentsOf lib (responsesOf Get (requestsOf ids none) k).1) emptyState with
  | none => simp [primaryDocuments, h]
  | some s1 =>
    simp only [Option.map_some', primaryDocuments, h, Option.some_bind]
    rw [splitInChunksAndParseResponses_eq]
    cases h2 : forItems (fun s d => handleCitiesEnglishResponse d s)
      (documentsOf lib (responsesOf Get (requestsOf ids (some "en"))
        (responsesOf Get (requestsOf ids none) k).2).1) s1 with
    | none => simp [englishDocuments, h2]
    | some s2 => simp [englishDocuments, h2]

/-- C10: an empty transport response is skipped without aborting. For every ID list and every
transport the dispatcher issues one request per batch, and its handler is run once, in batch
order, on the document of each non-empty response and never for an empty one (the run of any
handler is the loop over `documentsOf`, and a handler that logs its argument sees exactly that
list); if every response is empty both lookups return an empty sequence. -/
theorem splitInChunksAndParseResponses_skips_empty {κ : Type} (lib : Lib) (relationIds : OsmIds)
    (Get : κ → String → String × κ) (language : Option String) (k : κ) :
    (responsesOf Get (requestsOf relationIds language) k).1.length = (relationIds.length + 49) / 50 ∧
    (∀ (σ : Type) (responseHandler : JsonValue → σ → Option σ) (s : σ),
      splitInChunksAndParseResponses lib relationIds Get responseHandler language (k, s) =
        (forItems (fun s document => responseHandler document s)
          (documentsOf lib (responsesOf Get (requestsOf relationIds language) k).1) s).map
          fun s' => ((responsesOf Get (requestsOf relationIds language) k).2, s')) ∧
    splitInChunksAndParseResponses lib relationIds Get (fun document log => some (log ++ [document]))
        language (k, []) =
      some ((responsesOf Get (requestsOf relationIds language) k).2,
        ((responsesOf Get (requestsOf relationIds language) k).1.filter fun response =>
          response ≠ "").map fun response => (lib.Parse response).getD JsonValue.null) ∧
    ((∀ r ∈ (responsesOf Get (requestsOf relationIds none) k).1, r = "") →
      (∀ r ∈ (responsesOf Get (requestsOf relationIds (some "en"))
        (responsesOf Get (requestsOf relationIds none) k).2).1, r = "") →
      LookupRelationInformation lib relationIds Get k = some [] ∧
      ∀ mode, LookupRelationInformationForCities lib relationIds mode Get k = some []) := by
  refine ⟨?_, ?_, ?_, ?_⟩
  · rw [responsesOf_length]
    simp [requestsOf, batchesOf]
  · intro σ responseHandler s
    exact splitInChunksAndParseResponses_eq lib relationIds Get responseHandler language k s
  · rw [splitInChunksAndParseResponses_eq, forItems_log]
    simp [documentsOf]
  · intro hp he
    have h1 : primaryDocuments lib relationIds Get k = [] := documentsOf_all_empty lib _ hp
    have h2 : englishDocuments lib relationIds Get k = [] := documentsOf_all_empty lib _ he
    refine ⟨?_, fun mode => ?_⟩
    · rw [LookupRelationInformation_eq, h1, h2]
      rfl
    · rw [LookupRelationInformationForCities_eq, h1, h2]
      rfl

theorem handleItem_english (lib : Lib) (st : LookupState) (item : JsonValue) :
    handleItem lib true st item = englishStep isValidItem st item := by
  unfold handleItem englishStep isValidItem itemName itemCountry itemType itemId
  by_cases h0 : json.GetInt64 (json.Get item ["osm_id"]) = 0
  · simp [h0]
  · by_cases ht : json.GetString (json.Get item ["addresstype"]) = ""
    · simp [ht]
    · cases hc : mapContains st.pendingIdsForEnglishNames (json.GetInt64 (json.Get item ["osm_id"])) <;>
        simp [h0, ht, hc]

theorem handleCitiesEnglishItem_eq (st : LookupState) (item : JsonValue) :
    handleCitiesEnglishItem st item = englishStep (fun item => decide (itemId item ≠ 0)) st item := by
  unfold handleCitiesEnglishItem englishStep itemName itemCountry itemType itemId
  by_cases h0 : json.GetInt64 (json.Get item ["osm_id"]) = 0
  · simp [h0]
  · cases hc : mapContains st.pendingIdsForEnglishNames (json.GetInt64 (json.Get item ["osm_id"])) <;>
      simp [h0, hc]

theorem englishStep_spec (valid : JsonValue → Bool) (st s1 : LookupState) (item : JsonValue)
    (h : englishStep valid st item = some s1) :
    s1.pendingIdsForEnglishNames = st.pendingIdsForEnglishNames ∧
    s1.records.length = st.records.length ∧
    ∀ n, s1.records[n]? = (st.records[n]?).map fun r =>
      if valid item && (mapAt st.pendingIdsForEnglishNames (itemId item) == some n) then
        r.withEnglish (itemName item, itemCountry item)
      else r := by
  unfold englishStep at h
  by_cases hc : (valid item && mapContains st.pendingIdsForEnglishNames (itemId item)) = true
  · rw [if_pos hc] at h
    unfold setEnglishFields at h
    cases hl : mapAt st.pendingIdsForEnglishNames (itemId item) with
    | none => simp [hl] at h
    | some idx =>
      cases hr : st.records[idx]? with
      | none => simp [hl, hr] at h
      | some info =>
        simp only [hl, hr, Option.some.injEq] at h
        subst h
        have hv : valid item = true := by
          simp only [Bool.and_eq_true] at hc; exact hc.1
        refine ⟨rfl, by simp, fun n => ?_⟩
        simp only [List.getElem?_set, hv, Bool.true_and, beq_iff_eq, Option.some.injEq]
        by_cases hin : idx = n
        · subst hin
          have hlt : idx < st.records.length := by
            by_contra hge
            rw [List.getElem?_eq_none (by omega)] at hr
            cases hr
          simp [hlt, hr, RelationInfo.withEnglish]
        · rw [if_neg hin]
          cases st.records[n]? with
          | none => rfl
          | some r => simp [hin]
  · rw [if_neg hc] at h
    simp only [Option.some.injEq] at h
    subst h
    refine ⟨rfl, rfl, fun n => ?_⟩
    have : (valid item && (mapAt st.pendingIdsForEnglishNames (itemId item) == some n)) = false := by
      cases hv : valid item with
      | false => simp
      | true =>
        simp only [hv, Bool.true_and, Bool.not_eq_true] at hc
        simp only [Bool.true_and, beq_eq_false_iff_ne, ne_eq]
        intro hl
        unfold mapContains at hc
        unfold mapAt at hl
        rw [hl] at hc
        cases hc
    simp only [this]
    cases st.records[n]? <;> simp

theorem forItems_englishStep_spec (valid : JsonValue → Bool) :
    ∀ (items : List JsonValue) (st st' : LookupState),
      forItems (englishStep valid) items st = some st' →
      st'.pendingIdsForEnglishNames = st.pendingIdsForEnglishNames ∧
      st'.records.length = st.records.length ∧
      ∀ n, st'.records[n]? =
        (st.records[n]?).map (applyEnglish valid st.pendingIdsForEnglishNames n items) := by
  intro items
  induction items with
  | nil =>
    intro st st' h
    simp only [forItems, Option.some.injEq] at h
    subst h
    refine ⟨rfl, rfl, fun n => ?_⟩
    cases st.records[n]? <;> simp [applyEnglish, lastEnglish]
  | cons item rest ih =>
    intro st st' h
    simp only [forItems] at h
    cases hs : englishStep valid st item with
    | none => simp [hs] at h
    | some s1 =>
      simp only [hs] at h
      obtain ⟨hp1, hl1, hr1⟩ := englishStep_spec valid st s1 item hs
      obtain ⟨hp2, hl2, hr2⟩ := ih s1 st' h
      refine ⟨hp2.trans hp1, hl2.trans hl1, fun n => ?_⟩
      rw [hr2 n, hr1 n, hp1]
      cases st.records[n]? with
      | none => rfl
      | some r =>
        simp only [Option.map_some', Option.some.injEq, applyEnglish, lastEnglish]
        cases lastEnglish valid st.pendingIdsForEnglishNames n rest with
        | some en =>
          by_cases hc : (valid item && (mapAt st.pendingIdsForEnglishNames (itemId item) == some n)) = true
          · simp only [hc, if_true]; rfl
          · simp [hc]
        | none =>
          by_cases hc : (valid item && (mapAt st.pendingIdsForEnglishNames (itemId item) == some n)) = true
          · simp only [hc, if_true]
          · simp [hc]

theorem englishStep_total (valid : JsonValue → Bool) (st : LookupState) (item : JsonValue)
    (hin : InRange st) : ∃ s1, englishStep valid st item = some s1 := by
  unfold englishStep
  split
  · rename_i hc
    simp only [Bool.and_eq_true] at hc
    unfold setEnglishFields
    cases hl : mapAt st.pendingIdsForEnglishNames (itemId item) with
    | none =>
      have hc2 := hc.2
      unfold mapContains at hc2
      unfold mapAt at hl
      rw [hl] at hc2
      cases hc2
    | some idx =>
      have hlt := hin _ _ hl
      simp [List.getElem?_eq_getElem hlt]
  · exact ⟨st, rfl⟩

theorem forItems_englishStep_total (valid : JsonValue → Bool) :
    ∀ (items : List JsonValue) (st : LookupState), InRange st →
      ∃ st', forItems (englishStep valid) items st = some st' := by
  intro items
  induction items with
  | nil => intro st _; exact ⟨st, rfl⟩
  | cons item rest ih =>
    intro st hin
    obtain ⟨s1, hs⟩ := englishStep_total valid st item hin
    obtain ⟨hp1, hl1, -⟩ := englishStep_spec valid st s1 item hs
    have hin1 : InRange s1 := by
      intro id i hi
      rw [hp1] at hi
      rw [hl1]
      exact hin id i hi
    obtain ⟨st', h'⟩ := ih s1 hin1
    exact ⟨st', by simp [forItems, hs, h']⟩

theorem forItems_arrays_of_some {σ : Type} (body : σ → JsonValue → Option σ) :
    ∀ (documents : List JsonValue) (st st' : σ),
      forItems (fun s (d : JsonValue) =>
        match d.GetArray with
        | none => none
        | some items => forItems body items s) documents st = some st' →
      (∀ d ∈ documents, d.IsArray = true) ∧ forItems body (itemsOf documents) st = some st' := by
  intro documents
  induction documents with
  | nil => intro st st' h; exact ⟨by simp, by simpa [itemsOf, forItems] using h⟩
  | cons d rest ih =>
    intro st st' h
    simp only [forItems] at h
    cases d with
    | array items =>
      simp only [JsonValue.GetArray] at h
      cases hb : forItems body items st with
      | none => simp [hb] at h
      | some s1 =>
        simp only [hb] at h
        obtain ⟨ha, hr⟩ := ih s1 st' h
        refine ⟨?_, ?_⟩
        · intro d hd
          rcases List.mem_cons.1 hd with rfl | hd
          · rfl
          · exact ha d hd
        · have : itemsOf (JsonValue.array items :: rest) = items ++ itemsOf rest := by
            simp [itemsOf, JsonValue.GetArray]
          rw [this, forItems_append, hb]
          exact hr
    | null => simp [JsonValue.GetArray] at h
    | bool b => simp [JsonValue.GetArray] at h
    | int i => simp [JsonValue.GetArray] at h
    | number x => simp [JsonValue.GetArray] at h
    | str x => simp [JsonValue.GetArray] at h
    | object ms => simp [JsonValue.GetArray] at h

theorem forItems_arrays_of_isArray {σ : Type} (body : σ → JsonValue → Option σ) :
    ∀ (documents : List JsonValue) (st : σ), (∀ d ∈ documents, d.IsArray = true) →
      forItems (fun s (d : JsonValue) =>
        match d.GetArray with
        | none => none
        | some items => forItems body items s) documents st = forItems body (itemsOf documents) st := by
  intro documents
  induction documents with
  | nil => intro st _; simp [itemsOf, forItems]
  | cons d rest ih =>
    intro st ha
    have hd := ha d (List.mem_cons_self _ _)
    cases d with
    | array items =>
      have : itemsOf (JsonValue.array items :: rest) = items ++ itemsOf rest := by
        simp [itemsOf, JsonValue.GetArray]
      rw [this, forItems_append]
      simp only [forItems, JsonValue.GetArray]
      cases forItems body items st with
      | none => rfl
      | some s1 => exact ih s1 fun d hd => ha d (List.mem_cons_of_mem _ hd)
    | null => cases hd
    | bool b => cases hd
    | int i => cases hd
    | number x => cases hd
    | str x => cases hd
    | object ms => cases hd

theorem handleResponse_eq (lib : Lib) (isEnglish : Bool) :
    (fun s (d : JsonValue) => handleResponse lib isEnglish d s) =
      fun s (d : JsonValue) =>
        match d.GetArray with
        | none => none
        | some items => forItems (handleItem lib isEnglish) items s := rfl

theorem handleCitiesEnglishResponse_eq :
    (fun s (d : JsonValue) => handleCitiesEnglishResponse d s) =
      fun s (d : JsonValue) =>
        match d.GetArray with
        | none => none
        | some items => forItems handleCitiesEnglishItem items s := rfl

theorem englishStep_isValidItem (lib : Lib) : handleItem lib true = englishStep isValidItem := by
  funext st item
  exact handleItem_english lib st item

theorem englishStep_cities :
    handleCitiesEnglishItem = englishStep fun item => decide (itemId item ≠ 0) := by
  funext st item
  exact handleCitiesEnglishItem_eq st item

theorem itemRecord_osmId (lib : Lib) (item : JsonValue) : (itemRecord lib item).osmId = itemId item := rfl

theorem mapAt_append_single (m : List (OsmId × Nat)) (key id : OsmId) (value : Nat) :
    mapAt (m ++ [(key, value)]) id =
      (mapAt m id).or (if id = key then some value else none) := by
  unfold mapAt
  rw [List.lookup_append]
  congr 1
  by_cases h : id = key
  · simp [List.lookup, h]
  · have hb : (id == key) = false := by simpa using h
    simp [List.lookup, h, hb]

theorem handleItem_primary (lib : Lib) (st : LookupState) (item : JsonValue) :
    handleItem lib false st item =
      some (if isValidItem item && !mapContains st.pendingIdsForEnglishNames (itemId item) then
        { records := st.records ++ [itemRecord lib item]
          pendingIdsForEnglishNames := st.pendingIdsForEnglishNames ++ [(itemId item, st.records.length)] }
      else st) := by
  unfold handleItem isValidItem itemRecord itemType itemId
  by_cases h0 : json.GetInt64 (json.Get item ["osm_id"]) = 0
  · simp [h0]
  · by_cases ht : json.GetString (json.Get item ["addresstype"]) = ""
    · simp [ht]
    · cases hc : mapContains st.pendingIdsForEnglishNames (json.GetInt64 (json.Get item ["osm_id"])) <;>
        simp [h0, ht, hc, mapEmplace]

theorem primary_step_invariants (lib : Lib) (st : LookupState) (item : JsonValue)
    (hreg : Registered st) (hidx : IndexOk st) :
    Registered { records := st.records ++ [itemRecord lib item]
                 pendingIdsForEnglishNames :=
                   st.pendingIdsForEnglishNames ++ [(itemId item, st.records.length)] } ∧
    IndexOk { records := st.records ++ [itemRecord lib item]
              pendingIdsForEnglishNames :=
                st.pendingIdsForEnglishNames ++ [(itemId item, st.records.length)] } := by
  constructor
  · intro id
    have h := hreg id
    unfold mapContains at h ⊢
    simp only [idsOf, List.map_append, List.map_cons, List.map_nil, List.mem_append,
      List.mem_singleton, itemRecord_osmId] at h ⊢
    have := mapAt_append_single st.pendingIdsForEnglishNames (itemId item) id st.records.length
    unfold mapAt at this
    rw [this]
    cases hl : List.lookup id st.pendingIdsForEnglishNames with
    | some i =>
      simp only [hl, Option.isSome_some, true_iff] at h
      simp [h]
    | none =>
      simp only [hl, Option.isSome_none, Bool.false_eq_true, false_iff] at h
      by_cases he : id = itemId item <;> simp [h, he]
  · intro id i hi
    rw [mapAt_append_single] at hi
    cases hl : mapAt st.pendingIdsForEnglishNames id with
    | some j =>
      simp only [hl, Option.or_some, Option.some.injEq] at hi
      subst hi
      obtain ⟨r, hr, hid⟩ := hidx id j hl
      refine ⟨r, ?_, hid⟩
      have hlt : j < st.records.length := by
        by_contra hge
        rw [List.getElem?_eq_none (by omega)] at hr
        cases hr
      simp only []
      rw [List.getElem?_append_left hlt]
      exact hr
    | none =>
      simp only [hl, Option.none_or] at hi
      by_cases he : id = itemId item
      · simp only [he, if_true, Option.some.injEq] at hi
        subst hi
        refine ⟨itemRecord lib item, ?_, by rw [itemRecord_osmId, he]⟩
        simp
      · simp [he] at hi

theorem forItems_primary (lib : Lib) :
    ∀ (items : List JsonValue) (st : LookupState), Registered st → IndexOk st →
      ∃ st', forItems (handleItem lib false) items st = some st' ∧ Registered st' ∧ IndexOk st' ∧
        st'.records = st.records ++ (firstSeen (idsOf st.records) items).map (itemRecord lib) := by
  intro items
  induction items with
  | nil => intro st hreg hidx; exact ⟨st, rfl, hreg, hidx, by simp [firstSeen]⟩
  | cons item rest ih =>
    intro st hreg hidx
    simp only [forItems, handleItem_primary]
    by_cases hv : isValidItem item = true
    · cases hc : mapContains st.pendingIdsForEnglishNames (itemId item) with
      | false =>
        have hnot : itemId item ∉ idsOf st.records := by
          intro hmem
          rw [← hreg (itemId item), hc] at hmem
          cases hmem
        obtain ⟨hreg1, hidx1⟩ := primary_step_invariants lib st item hreg hidx
        obtain ⟨st', hrun, hreg', hidx', hrec⟩ := ih _ hreg1 hidx1
        refine ⟨st', ?_, hreg', hidx', ?_⟩
        · simpa [hv, hc] using hrun
        · rw [hrec]
          have hfs : firstSeen (idsOf st.records) (item :: rest) =
              item :: firstSeen (idsOf st.records ++ [itemId item]) rest := by
            simp [firstSeen, hv, hnot]
          rw [hfs]
          simp [idsOf, itemRecord_osmId]
      | true =>
        have hmem : itemId item ∈ idsOf st.records := (hreg (itemId item)).1 hc
        obtain ⟨st', hrun, hreg', hidx', hrec⟩ := ih st hreg hidx
        refine ⟨st', ?_, hreg', hidx', ?_⟩
        · simpa [hv, hc] using hrun
        · rw [hrec]
          have hfs : firstSeen (idsOf st.records) (item :: rest) = firstSeen (idsOf st.records) rest := by
            simp [firstSeen, hv, hmem]
          rw [hfs]
    · obtain ⟨st', hrun, hreg', hidx', hrec⟩ := ih st hreg hidx
      refine ⟨st', ?_, hreg', hidx', ?_⟩
      · simpa [hv] using hrun
      · rw [hrec]
        simp [firstSeen, hv]

theorem emptyState_registered : Registered emptyState := by
  intro id
  simp [emptyState, mapContains, idsOf]

theorem emptyState_indexOk : IndexOk emptyState := by
  intro id i hi
  simp [emptyState, mapAt] at hi

theorem indexOk_inRange (st : LookupState) (h : IndexOk st) : InRange st := by
  intro id i hi
  obtain ⟨r, hr, -⟩ := h id i hi
  by_contra hge
  rw [List.getElem?_eq_none (by omega)] at hr
  cases hr

theorem firstSeen_mem :
    ∀ (items : List JsonValue) (seen : List OsmId) (x : JsonValue), x ∈ firstSeen seen items →
      x ∈ items ∧ isValidItem x = true ∧ itemId x ∉ seen := by
  intro items
  induction items with
  | nil => intro seen x hx; simp [firstSeen] at hx
  | cons item rest ih =>
    intro seen x hx
    unfold firstSeen at hx
    by_cases hc : (isValidItem item && decide (itemId item ∉ seen)) = true
    · rw [if_pos hc] at hx
      simp only [Bool.and_eq_true, decide_eq_true_eq] at hc
      rcases List.mem_cons.1 hx with rfl | hx
      · exact ⟨List.mem_cons_self _ _, hc.1, hc.2⟩
      · obtain ⟨h1, h2, h3⟩ := ih _ x hx
        exact ⟨List.mem_cons_of_mem _ h1, h2, fun h => h3 (List.mem_append_left _ h)⟩
    · rw [if_neg hc] at hx
      obtain ⟨h1, h2, h3⟩ := ih _ x hx
      exact ⟨List.mem_cons_of_mem _ h1, h2, h3⟩

theorem firstSeen_ids_nodup :
    ∀ (items : List JsonValue) (seen : List OsmId), ((firstSeen seen items).map itemId).Nodup := by
  intro items
  induction items with
  | nil => intro seen; simp [firstSeen]
  | cons item rest ih =>
    intro seen
    unfold firstSeen
    by_cases hc : (isValidItem item && decide (itemId item ∉ seen)) = true
    · rw [if_pos hc, List.map_cons, List.nodup_cons]
      refine ⟨?_, ih _⟩
      intro hmem
      obtain ⟨x, hx, hid⟩ := List.mem_map.1 hmem
      obtain ⟨-, -, h3⟩ := firstSeen_mem rest _ x hx
      exact h3 (by simp [hid])
    · rw [if_neg hc]
      exact ih _

theorem firstSeen_of_find :
    ∀ (items : List JsonValue) (seen : List OsmId) (id : OsmId) (p : JsonValue),
      items.find? (fun y => isValidItem y && decide (itemId y = id)) = some p → id ∉ seen →
      p ∈ firstSeen seen items := by
  intro items
  induction items with
  | nil => intro seen id p h; simp at h
  | cons item rest ih =>
    intro seen id p h hns
    unfold firstSeen
    by_cases hm : (isValidItem item && decide (itemId item = id)) = true
    · simp only [List.find?, hm, Option.some.injEq] at h
      subst h
      simp only [Bool.and_eq_true, decide_eq_true_eq] at hm
      have hc : (isValidItem item && decide (itemId item ∉ seen)) = true := by
        simp [hm.1, hm.2, hns]
      rw [if_pos hc]
      exact List.mem_cons_self _ _
    · simp only [Bool.not_eq_true] at hm
      simp only [List.find?, hm] at h
      by_cases hc : (isValidItem item && decide (itemId item ∉ seen)) = true
      · rw [if_pos hc]
        refine List.mem_cons_of_mem _ (ih _ id p h ?_)
        simp only [Bool.and_eq_true, decide_eq_true_eq] at hc
        have hne : itemId item ≠ id := by
          intro he
          simp [hc.1, he] at hm
        simp only [List.mem_append, List.mem_singleton, not_or]
        exact ⟨hns, fun he => hne he.symm⟩
      · rw [if_neg hc]
        exact ih _ id p h hns

theorem first_pass_docs (lib : Lib) (documents : List JsonValue) (st1 : LookupState)
    (h : forItems (fun s d => handleResponse lib false d s) documents emptyState = some st1) :
    (∀ d ∈ documents, d.IsArray = true) ∧ Registered st1 ∧ IndexOk st1 ∧
      st1.records = (firstSeen [] (itemsOf documents)).map (itemRecord lib) := by
  rw [handleResponse_eq] at h
  obtain ⟨harr, hrun⟩ := forItems_arrays_of_some _ documents emptyState st1 h
  obtain ⟨st', hrun', hreg, hidx, hrec⟩ :=
    forItems_primary lib (itemsOf documents) emptyState emptyState_registered emptyState_indexOk
  rw [hrun] at hrun'
  cases hrun'
  exact ⟨harr, hreg, hidx, by simpa [emptyState, idsOf] using hrec⟩

theorem first_pass_docs_total (lib : Lib) (documents : List JsonValue)
    (harr : ∀ d ∈ documents, d.IsArray = true) :
    ∃ st1, forItems (fun s d => handleResponse lib false d s) documents emptyState = some st1 := by
  rw [handleResponse_eq, forItems_arrays_of_isArray _ documents emptyState harr]
  obtain ⟨st', hrun', -⟩ :=
    forItems_primary lib (itemsOf documents) emptyState emptyState_registered emptyState_indexOk
  exact ⟨st', hrun'⟩

theorem split_some {κ σ : Type} (lib : Lib) (ids : OsmIds) (Get : κ → String → String × κ)
    (responseHandler : JsonValue → σ → Option σ) (language : Option String) (k k1 : κ) (s s1 : σ)
    (h : splitInChunksAndParseResponses lib ids Get responseHandler language (k, s) = some (k1, s1)) :
    forItems (fun s document => responseHandler document s)
      (documentsOf lib (responsesOf Get (requestsOf ids language) k).1) s = some s1 ∧
    k1 = (responsesOf Get (requestsOf ids language) k).2 := by
  rw [splitInChunksAndParseResponses_eq] at h
  cases hf : forItems (fun s document => responseHandler document s)
      (documentsOf lib (responsesOf Get (requestsOf ids language) k).1) s with
  | none => simp [hf] at h
  | some s2 =>
    simp only [hf, Option.map_some', Option.some.injEq, Prod.mk.injEq] at h
    exact ⟨by rw [h.2], h.1.symm⟩

theorem applyEnglish_primary (valid : JsonValue → Bool) (m : List (OsmId × Nat)) (n : Nat)
    (items : List JsonValue) (r : RelationInfo) :
    (applyEnglish valid m n items r).primary = r.primary := by
  unfold applyEnglish
  cases lastEnglish valid m n items <;> rfl

theorem applyEnglish_idem (valid : JsonValue → Bool) (m : List (OsmId × Nat)) (n : Nat)
    (items : List JsonValue) (r : RelationInfo) :
    applyEnglish valid m n items (applyEnglish valid m n items r) = applyEnglish valid m n items r := by
  unfold applyEnglish
  cases lastEnglish valid m n items <;> rfl

theorem lastEnglish_none (valid : JsonValue → Bool) (m : List (OsmId × Nat)) (n : Nat) :
    ∀ items : List JsonValue,
      (∀ x ∈ items, valid x = true → mapAt m (itemId x) ≠ some n) →
      lastEnglish valid m n items = none := by
  intro items
  induction items with
  | nil => intro _; rfl
  | cons item rest ih =>
    intro h
    have hrest := ih fun x hx => h x (List.mem_cons_of_mem _ hx)
    have hitem := h item (List.mem_cons_self _ _)
    unfold lastEnglish
    rw [hrest]
    cases hv : valid item with
    | false => simp
    | true =>
      have := hitem hv
      simp [this]

theorem englishStep_transfer (valid : JsonValue → Bool) (st s1 t : LookupState) (item : JsonValue)
    (h : englishStep valid st item = some s1)
    (hp : t.pendingIdsForEnglishNames = st.pendingIdsForEnglishNames)
    (hl : t.records.length = st.records.length) :
    ∃ t1, englishStep valid t item = some t1 := by
  unfold englishStep at h ⊢
  rw [hp]
  by_cases hc : (valid item && mapContains st.pendingIdsForEnglishNames (itemId item)) = true
  · rw [if_pos hc] at h ⊢
    unfold setEnglishFields at h ⊢
    rw [hp]
    cases hm : mapAt st.pendingIdsForEnglishNames (itemId item) with
    | none => simp [hm] at h
    | some idx =>
      cases hr : st.records[idx]? with
      | none => simp [hm, hr] at h
      | some info =>
        have hlt : idx < t.records.length := by
          rw [hl]
          by_contra hge
          rw [List.getElem?_eq_none (by omega)] at hr
          cases hr
        simp [List.getElem?_eq_getElem hlt]
  · rw [if_neg hc]
    exact ⟨t, rfl⟩

theorem forItems_englishStep_transfer (valid : JsonValue → Bool) :
    ∀ (items : List JsonValue) (st st' t : LookupState),
      forItems (englishStep valid) items st = some st' →
      t.pendingIdsForEnglishNames = st.pendingIdsForEnglishNames →
      t.records.length = st.records.length →
      ∃ t', forItems (englishStep valid) items t = some t' := by
  intro items
  induction items with
  | nil => intro st st' t _ _ _; exact ⟨t, rfl⟩
  | cons item rest ih =>
    intro st st' t h hp hl
    simp only [forItems] at h ⊢
    cases hs : englishStep valid st item with
    | none => simp [hs] at h
    | some s1 =>
      simp only [hs] at h
      obtain ⟨t1, ht1⟩ := englishStep_transfer valid st s1 t item hs hp hl
      obtain ⟨hp1, hl1, -⟩ := englishStep_spec valid st s1 item hs
      obtain ⟨hq1, hm1, -⟩ := englishStep_spec valid t t1 item ht1
      obtain ⟨t', ht'⟩ := ih s1 st' t1 h (by rw [hq1, hp, hp1]) (by rw [hm1, hl, hl1])
      exact ⟨t', by simp [ht1, ht']⟩

theorem forItems_englishStep_idem (valid : JsonValue → Bool) (items : List JsonValue)
    (st st1 : LookupState) (h : forItems (englishStep valid) items st = some st1) :
    forItems (englishStep valid) items st1 = some st1 := by
  obtain ⟨hp, hl, hr⟩ := forItems_englishStep_spec valid items st st1 h
  obtain ⟨t, ht⟩ := forItems_englishStep_transfer valid items st st1 st1 h hp hl
  obtain ⟨hp', hl', hr'⟩ := forItems_englishStep_spec valid items st1 t ht
  have hrec : t.records = st1.records := by
    apply List.ext_getElem?
    intro n
    rw [hr' n, hr n, hp]
    cases st.records[n]? with
    | none => rfl
    | some r => simp [applyEnglish_idem]
  have : t = st1 := by
    cases t
    cases st1
    simp only [LookupState.mk.injEq]
    exact ⟨hrec, hp'⟩
  rw [ht, this]

theorem english_docs_total (lib : Lib) (st : LookupState) (documents : List JsonValue)
    (hidx : IndexOk st) (harr : ∀ d ∈ documents, d.IsArray = true) :
    ∃ st1, forItems (fun s d => handleResponse lib true d s) documents st = some st1 := by
  rw [handleResponse_eq, forItems_arrays_of_isArray _ documents st harr, englishStep_isValidItem]
  exact forItems_englishStep_total isValidItem _ st (indexOk_inRange st hidx)

/-- C8: the English pass is idempotent. For every state and every sequence of English response
documents, a run of `handleResponse` with `isEnglish = true` over the documents that ends in a
state `st1` ends in `st1` again when it is run a second time on `st1`; the run does end for a
well-indexed state (such as the one the first pass leaves) and array documents. -/
theorem english_pass_idempotent (lib : Lib) (st : LookupState) (documents : List JsonValue) :
    (∀ st1, forItems (fun s d => handleResponse lib true d s) documents st = some st1 →
      forItems (fun s d => handleResponse lib true d s) documents st1 = some st1) ∧
    (IndexOk st → (∀ d ∈ documents, d.IsArray = true) →
      ∃ st1, forItems (fun s d => handleResponse lib true d s) documents st = some st1) := by
  constructor
  · intro st1 h
    rw [handleResponse_eq] at h ⊢
    obtain ⟨harr, hrun⟩ := forItems_arrays_of_some _ documents st st1 h
    rw [forItems_arrays_of_isArray _ documents st1 harr]
    rw [englishStep_isValidItem] at hrun ⊢
    exact forItems_englishStep_idem isValidItem _ st st1 hrun
  · intro hidx harr
    exact english_docs_total lib st documents hidx harr

theorem english_docs_spec (lib : Lib) (documents : List JsonValue) (st st2 : LookupState)
    (h : forItems (fun s d => handleResponse lib true d s) documents st = some st2) :
    st2.pendingIdsForEnglishNames = st.pendingIdsForEnglishNames ∧
    st2.records.length = st.records.length ∧
    ∀ n, st2.records[n]? = (st.records[n]?).map
      (applyEnglish isValidItem st.pendingIdsForEnglishNames n (itemsOf documents)) := by
  rw [handleResponse_eq] at h
  obtain ⟨-, hrun⟩ := forItems_arrays_of_some _ documents st st2 h
  rw [englishStep_isValidItem] at hrun
  exact forItems_englishStep_spec isValidItem _ st st2 hrun

theorem map_primary_of_spec (valid : JsonValue → Bool) (m : List (OsmId × Nat))
    (items : List JsonValue) (rs rs2 : RelationInfos)
    (h : ∀ n, rs2[n]? = (rs[n]?).map (applyEnglish valid m n items)) :
    rs2.map RelationInfo.primary = rs.map RelationInfo.primary := by
  apply List.ext_getElem?
  intro n
  rw [List.getElem?_map, List.getElem?_map, h n]
  cases rs[n]? with
  | none => rfl
  | some r => simp [applyEnglish_primary]

/-- C7: the English pass of `LookupRelationInformation` never appends and never reorders. From
every state the first pass produces, and for every sequence of English responses, the pass
keeps the number of records, the index map and the ID, name, country, latitude and longitude of
every record in its slot; a record whose ID occurs in no valid English item is unchanged, and an
English item whose ID is not registered has no effect. The pass returns whenever the English
documents are arrays. -/
theorem english_pass_frame {κ κ2 : Type} (lib : Lib) (relationIds : OsmIds)
    (Get : κ → String → String × κ) (k k1 : κ) (st1 : LookupState)
    (h1 : splitInChunksAndParseResponses lib relationIds Get (handleResponse lib false) none
      (k, emptyState) = some (k1, st1))
    (ids2 : OsmIds) (Get2 : κ2 → String → String × κ2) (k2 : κ2) (language : Option String) :
    ((∀ d ∈ documentsOf lib (responsesOf Get2 (requestsOf ids2 language) k2).1, d.IsArray = true) →
      ∃ k3 st2, splitInChunksAndParseResponses lib ids2 Get2 (handleResponse lib true) language
        (k2, st1) = some (k3, st2)) ∧
    (∀ k3 st2, splitInChunksAndParseResponses lib ids2 Get2 (handleResponse lib true) language
        (k2, st1) = some (k3, st2) →
      st2.records.length = st1.records.length ∧
      st2.pendingIdsForEnglishNames = st1.pendingIdsForEnglishNames ∧
      st2.records.map RelationInfo.primary = st1.records.map RelationInfo.primary ∧
      (∀ (n : Nat) (r : RelationInfo), st1.records[n]? = some r →
        (∀ x ∈ itemsOf (documentsOf lib (responsesOf Get2 (requestsOf ids2 language) k2).1),
          isValidItem x = true → itemId x ≠ r.osmId) →
        st2.records[n]? = some r)) ∧
    (∀ st item, mapContains st.pendingIdsForEnglishNames (itemId item) = false →
      handleItem lib true st item = some st) := by
  obtain ⟨hrun1, -⟩ := split_some lib relationIds Get _ none k k1 emptyState st1 h1
  obtain ⟨-, -, hidx, -⟩ := first_pass_docs lib _ st1 hrun1
  refine ⟨?_, ?_, ?_⟩
  · intro harr
    obtain ⟨st2, h2⟩ := english_docs_total lib st1 _ hidx harr
    refine ⟨(responsesOf Get2 (requestsOf ids2 language) k2).2, st2, ?_⟩
    rw [splitInChunksAndParseResponses_eq, h2]
    rfl
  · intro k3 st2 h2
    obtain ⟨hrun2, -⟩ := split_some lib ids2 Get2 _ language k2 k3 st1 st2 h2
    obtain ⟨hp, hl, hr⟩ := english_docs_spec lib _ st1 st2 hrun2
    refine ⟨hl, hp, map_primary_of_spec _ _ _ _ _ hr, ?_⟩
    intro n r hn hno
    rw [hr n, hn]
    have hnone : lastEnglish isValidItem st1.pendingIdsForEnglishNames n
        (itemsOf (documentsOf lib (responsesOf Get2 (requestsOf ids2 language) k2).1)) = none := by
      apply lastEnglish_none
      intro x hx hv hm
      obtain ⟨r', hr', hid⟩ := hidx _ _ hm
      rw [hn] at hr'
      cases hr'
      exact hno x hx hv hid.symm
    simp [applyEnglish, hnone]
  · intro st item hc
    rw [handleItem_english]
    simp [englishStep, hc]

theorem nodup_getElem?_inj {α : Type} {l : List α} (h : l.Nodup) {i j : Nat} {a : α}
    (hi : l[i]? = some a) (hj : l[j]? = some a) : i = j := by
  have hil : i < l.length := by
    by_contra hge
    rw [List.getElem?_eq_none (by omega)] at hi
    cases hi
  have hjl : j < l.length := by
    by_contra hge
    rw [List.getElem?_eq_none (by omega)] at hj
    cases hj
  rcases Nat.lt_trichotomy i j with hlt | heq | hgt
  · exact absurd (hi.trans hj.symm) (List.nodup_iff_getElem?_ne_getElem?.1 h i j hlt hjl)
  · exact heq
  · exact absurd (hj.trans hi.symm) (List.nodup_iff_getElem?_ne_getElem?.1 h j i hgt hil)

theorem lastEnglish_eq_getLast (valid : JsonValue → Bool) (m : List (OsmId × Nat)) (n : Nat)
    (id : OsmId) (hm : ∀ x, mapAt m (itemId x) = some n ↔ itemId x = id) :
    ∀ items : List JsonValue,
      lastEnglish valid m n items =
        ((items.filter fun y => valid y && decide (itemId y = id)).getLast?).map
          fun y => (itemName y, itemCountry y) := by
  intro items
  induction items with
  | nil => rfl
  | cons item rest ih =>
    unfold lastEnglish
    rw [ih]
    have hcond : (valid item && (mapAt m (itemId item) == some n)) =
        (valid item && decide (itemId item = id)) := by
      congr 1
      by_cases he : itemId item = id
      · have hs := (hm item).2 he
        rw [hs]
        simp [he]
      · have : mapAt m (itemId item) ≠ some n := fun h => he ((hm item).1 h)
        simp [he, this]
    rw [hcond]
    by_cases hc : (valid item && decide (itemId item = id)) = true
    · have hf : (item :: rest).filter (fun y => valid y && decide (itemId y = id)) =
          item :: rest.filter (fun y => valid y && decide (itemId y = id)) :=
        List.filter_cons_of_pos hc
      rw [hf, List.getLast?_cons]
      cases (rest.filter fun y => valid y && decide (itemId y = id)).getLast? with
      | none => simp [hc]
      | some y => simp
    · have hf : (item :: rest).filter (fun y => valid y && decide (itemId y = id)) =
          rest.filter (fun y => valid y && decide (itemId y = id)) :=
        List.filter_cons_of_neg hc
      rw [hf]
      cases (rest.filter fun y => valid y && decide (itemId y = id)).getLast? with
      | none => simp [hc]
      | some y => simp

theorem registered_slot (st : LookupState) (hreg : Registered st) (hidx : IndexOk st)
    (hnd : (idsOf st.records).Nodup) (n : Nat) (r : RelationInfo) (hn : st.records[n]? = some r) :
    ∀ id, mapAt st.pendingIdsForEnglishNames id = some n ↔ id = r.osmId := by
  intro id
  constructor
  · intro h
    obtain ⟨r', hr', hid⟩ := hidx id n h
    rw [hn] at hr'
    cases hr'
    exact hid.symm
  · rintro rfl
    have hmem : r.osmId ∈ idsOf st.records := by
      unfold idsOf
      exact List.mem_map.2 ⟨r, List.mem_iff_getElem?.2 ⟨n, hn⟩, rfl⟩
    have hc := (hreg r.osmId).2 hmem
    unfold mapContains at hc
    cases hl : mapAt st.pendingIdsForEnglishNames r.osmId with
    | none => unfold mapAt at hl; rw [hl] at hc; cases hc
    | some j =>
      obtain ⟨r', hr', hid⟩ := hidx _ j hl
      have h1 : (idsOf st.records)[j]? = some r.osmId := by
        unfold idsOf
        rw [List.getElem?_map, hr']
        simp [hid]
      have h2 : (idsOf st.records)[n]? = some r.osmId := by
        unfold idsOf
        rw [List.getElem?_map, hn]
        rfl
      rw [nodup_getElem?_inj hnd h1 h2]

theorem lookup_some {κ : Type} (lib : Lib) (ids : OsmIds) (Get : κ → String → String × κ) (k : κ)
    (result : RelationInfos) (h : LookupRelationInformation lib ids Get k = some result) :
    ∃ s1 s2,
      forItems (fun s d => handleResponse lib false d s) (primaryDocuments lib ids Get k)
        emptyState = some s1 ∧
      forItems (fun s d => handleResponse lib true d s) (englishDocuments lib ids Get k) s1 =
        some s2 ∧
      result = s2.records := by
  rw [LookupRelationInformation_eq] at h
  cases h1 : forItems (fun s d => handleResponse lib false d s) (primaryDocuments lib ids Get k)
      emptyState with
  | none => simp [h1] at h
  | some s1 =>
    cases h2 : forItems (fun s d => handleResponse lib true d s) (englishDocuments lib ids Get k)
        s1 with
    | none => simp [h1, h2] at h
    | some s2 =>
      simp only [h1, h2, Option.some_bind, Option.map_some', Option.some.injEq] at h
      exact ⟨s1, s2, rfl, h2, h.symm⟩

theorem lookup_total {κ : Type} (lib : Lib) (ids : OsmIds) (Get : κ → String → String × κ) (k : κ)
    (h1 : ∀ d ∈ primaryDocuments lib ids Get k, d.IsArray = true)
    (h2 : ∀ d ∈ englishDocuments lib ids Get k, d.IsArray = true) :
    ∃ result, LookupRelationInformation lib ids Get k = some result := by
  obtain ⟨s1, hs1⟩ := first_pass_docs_total lib _ h1
  obtain ⟨-, -, hidx, -⟩ := first_pass_docs lib _ s1 hs1
  obtain ⟨s2, hs2⟩ := english_docs_total lib s1 _ hidx h2
  exact ⟨s2.records, by simp [LookupRelationInformation_eq, hs1, hs2]⟩

/-- C5: whenever `LookupRelationInformation` returns, an ID whose first valid primary item is
`p` and whose last valid English item is `e` has exactly one record in the result, with `name`
equal to `address[addresstype]` of `p` and `name_en`, `country_en` equal to
`address[addresstype]` and `address.country` of `e`. The lookup returns whenever the parsed
responses are arrays. -/
theorem merged_record_bilingual {κ : Type} (lib : Lib) (relationIds : OsmIds)
    (Get : κ → String → String × κ) (k : κ) (id : OsmId) (p e : JsonValue)
    (hp : (itemsOf (primaryDocuments lib relationIds Get k)).find?
      (fun y => isValidItem y && decide (itemId y = id)) = some p)
    (he : ((itemsOf (englishDocuments lib relationIds Get k)).filter
      fun y => isValidItem y && decide (itemId y = id)).getLast? = some e) :
    ((∀ d ∈ primaryDocuments lib relationIds Get k, d.IsArray = true) →
      (∀ d ∈ englishDocuments lib relationIds Get k, d.IsArray = true) →
      ∃ result, LookupRelationInformation lib relationIds Get k = some result) ∧
    ∀ result, LookupRelationInformation lib relationIds Get k = some result →
      ∃ r ∈ result, r.osmId = id ∧
        r.name = json.GetString (json.Get p ["address", json.GetString (json.Get p ["addresstype"])]) ∧
        r.name_en = json.GetString (json.Get e ["address", json.GetString (json.Get e ["addresstype"])]) ∧
        r.country_en = json.GetString (json.Get e ["address", "country"]) ∧
        ∀ r' ∈ result, r'.osmId = id → r' = r := by
  refine ⟨fun h1 h2 => lookup_total lib relationIds Get k h1 h2, ?_⟩
  intro result hres
  obtain ⟨s1, s2, hs1, hs2, rfl⟩ := lookup_some lib relationIds Get k result hres
  obtain ⟨-, hreg, hidx, hrec⟩ := first_pass_docs lib _ s1 hs1
  obtain ⟨hpend, hlen, hspec⟩ := english_docs_spec lib _ s1 s2 hs2
  have hpid : itemId p = id := by
    have := List.find?_some hp
    simp only [Bool.and_eq_true, decide_eq_true_eq] at this
    exact this.2
  have hids1 : idsOf s1.records =
      (firstSeen [] (itemsOf (primaryDocuments lib relationIds Get k))).map itemId := by
    rw [hrec]
    simp [idsOf, itemRecord_osmId]
  have hnd1 : (idsOf s1.records).Nodup := by
    rw [hids1]
    exact firstSeen_ids_nodup _ _
  have hmem : p ∈ firstSeen [] (itemsOf (primaryDocuments lib relationIds Get k)) :=
    firstSeen_of_find _ [] id p hp (by simp)
  obtain ⟨n, hn⟩ := List.getElem?_of_mem hmem
  have hn1 : s1.records[n]? = some (itemRecord lib p) := by
    rw [hrec, List.getElem?_map, hn]
    rfl
  have hslot := registered_slot s1 hreg hidx hnd1 n (itemRecord lib p) hn1
  have hlast : lastEnglish isValidItem s1.pendingIdsForEnglishNames n
      (itemsOf (englishDocuments lib relationIds Get k)) = some (itemName e, itemCountry e) := by
    rw [lastEnglish_eq_getLast isValidItem _ n id (fun x => by rw [hslot, itemRecord_osmId, hpid]),
      he]
    rfl
  have hn2 : s2.records[n]? =
      some ((itemRecord lib p).withEnglish (itemName e, itemCountry e)) := by
    rw [hspec n, hn1]
    simp [applyEnglish, hlast]
  have hids2 : idsOf s2.records = idsOf s1.records := by
    have hm := map_primary_of_spec _ _ _ _ _ hspec
    have := congrArg (List.map fun t : OsmId × String × String × Double × Double => t.1) hm
    simpa [idsOf, RelationInfo.primary, List.map_map, Function.comp] using this
  refine ⟨_, List.mem_iff_getElem?.2 ⟨n, hn2⟩, hpid, rfl, rfl, rfl, ?_⟩
  intro r' hr' hrid
  obtain ⟨j, hj⟩ := List.getElem?_of_mem hr'
  have h1 : (idsOf s2.records)[j]? = some id := by
    unfold idsOf
    rw [List.getElem?_map, hj]
    simp [hrid]
  have h2 : (idsOf s2.records)[n]? = some id := by
    unfold idsOf
    rw [List.getElem?_map, hn2]
    simp [RelationInfo.withEnglish, itemRecord_osmId, hpid]
  have hjn : j = n := nodup_getElem?_inj (hids2 ▸ hnd1) h1 h2
  rw [hjn, hn2] at hj
  exact (Option.some.inj hj).symm

/-- The spec's example for C5: primary `Roma` and English `Rome` for ID 100 merge into one
record with `name = "Roma"` and `name_en = "Rome"`. -/
theorem merged_record_bilingual_witness :
    ∃ result, LookupRelationInformation sampleLib [100] scriptedGet ["roma-array", "rome-array"] =
        some result ∧
      ∃ r ∈ result, r.osmId = 100 ∧ r.name = "Roma" ∧ r.name_en = "Rome" ∧ r.country_en = "Italy" ∧
        ∀ r' ∈ result, r'.osmId = 100 → r' = r := by
  have h := merged_record_bilingual sampleLib [100] scriptedGet ["roma-array", "rome-array"] 100
    roma100 rome100 rfl rfl
  obtain ⟨result, hres⟩ := h.1 (by decide) (by decide)
  obtain ⟨r, hr, hid, hname, hen, hcen, huniq⟩ := h.2 result hres
  exact ⟨result, hres, r, hr, hid, hname.trans (by decide), hen.trans (by decide),
    hcen.trans (by decide), huniq⟩

theorem isValidItem_iff (item : JsonValue) :
    isValidItem item = true ↔ itemId item ≠ 0 ∧ itemType item ≠ "" := by
  simp [isValidItem]

/-- C4: every record `LookupRelationInformation` returns has a non-zero `osmId` and carries the
primary fields of a primary-pass item whose ID is non-zero and whose address type is non-empty;
an item whose ID is zero (a missing `osm_id` reads as zero) or whose address type is empty
leaves the state of either pass unchanged. The lookup returns whenever the parsed responses are
arrays. -/
theorem lookup_records_come_from_valid_items {κ : Type} (lib : Lib) (relationIds : OsmIds)
    (Get : κ → String → String × κ) (k : κ) :
    ((∀ d ∈ primaryDocuments lib relationIds Get k, d.IsArray = true) →
      (∀ d ∈ englishDocuments lib relationIds Get k, d.IsArray = true) →
      ∃ result, LookupRelationInformation lib relationIds Get k = some result) ∧
    (∀ result, LookupRelationInformation lib relationIds Get k = some result →
      ∀ r ∈ result, r.osmId ≠ 0 ∧
        ∃ x ∈ itemsOf (primaryDocuments lib relationIds Get k),
          json.GetInt64 (json.Get x ["osm_id"]) ≠ 0 ∧
          json.GetString (json.Get x ["addresstype"]) ≠ "" ∧
          r.primary = (jsonToObject lib x (json.GetString (json.Get x ["addresstype"]))).primary) ∧
    (∀ (isEnglish : Bool) (st : LookupState) (item : JsonValue),
      json.GetInt64 (json.Get item ["osm_id"]) = 0 ∨
        json.GetString (json.Get item ["addresstype"]) = "" →
      handleItem lib isEnglish st item = some st) ∧
    (∀ members : List (String × JsonValue), members.lookup "osm_id" = none →
      json.GetInt64 (json.Get (JsonValue.object members) ["osm_id"]) = 0) := by
  refine ⟨fun h1 h2 => lookup_total lib relationIds Get k h1 h2, ?_, ?_, ?_⟩
  · intro result hres r hr
    obtain ⟨s1, s2, hs1, hs2, rfl⟩ := lookup_some lib relationIds Get k result hres
    obtain ⟨-, -, -, hrec⟩ := first_pass_docs lib _ s1 hs1
    obtain ⟨-, -, hspec⟩ := english_docs_spec lib _ s1 s2 hs2
    have hm := map_primary_of_spec _ _ _ _ _ hspec
    have hrp : r.primary ∈ s1.records.map RelationInfo.primary := by
      rw [← hm]
      exact List.mem_map_of_mem _ hr
    obtain ⟨r1, hr1, hp1⟩ := List.mem_map.1 hrp
    rw [hrec] at hr1
    obtain ⟨x, hx, rfl⟩ := List.mem_map.1 hr1
    obtain ⟨hxin, hxv, -⟩ := firstSeen_mem _ _ x hx
    obtain ⟨hid, hty⟩ := (isValidItem_iff x).1 hxv
    have hosm : r.osmId = itemId x := by
      have := congrArg Prod.fst hp1
      exact this.symm
    exact ⟨by rw [hosm]; exact hid, x, hxin, hid, hty, hp1.symm⟩
  · intro isEnglish st item h
    unfold handleItem
    simp [h]
  · intro members h
    simp [json.Get, json.member, h, json.GetInt64]

theorem roundHalfEven_bounds (q : ℚ) :
    q - 1 / 2 ≤ (Double.roundHalfEven q : ℚ) ∧ (Double.roundHalfEven q : ℚ) ≤ q + 1 / 2 := by
  have h1 := Int.floor_le q
  have h2 := Int.lt_floor_add_one q
  unfold Double.roundHalfEven
  split_ifs with ha hb hc
  · constructor <;> linarith
  · push_cast; constructor <;> linarith
  · constructor <;> linarith
  · push_cast; constructor <;> linarith

theorem roundHalfEven_le_of_le (q : ℚ) (n : Int) (h : q ≤ n) : Double.roundHalfEven q ≤ n := by
  have := (roundHalfEven_bounds q).2
  have h3 : (Double.roundHalfEven q : ℚ) < (n + 1 : Int) := by push_cast; linarith
  have := Int.cast_lt.1 h3
  omega

theorem le_roundHalfEven_of_le (q : ℚ) (n : Int) (h : (n : ℚ) ≤ q) : n ≤ Double.roundHalfEven q := by
  have := (roundHalfEven_bounds q).1
  have h3 : ((n - 1 : Int) : ℚ) < (Double.roundHalfEven q : ℚ) := by push_cast; linarith
  have := Int.cast_lt.1 h3
  omega

theorem roundHalfEven_le_odd (q : ℚ) (n : Int) (hn : n % 2 = 1) :
    Double.roundHalfEven q ≤ n ↔ q < n + 1 / 2 := by
  constructor
  · intro h
    by_contra hge
    push_neg at hge
    rcases eq_or_lt_of_le hge with heq | hlt
    · have hfl : ⌊q⌋ = n := by
        rw [Int.floor_eq_iff]
        constructor <;> linarith
      have hfr : q - ⌊q⌋ = 1 / 2 := by rw [hfl]; linarith
      have : Double.roundHalfEven q = n + 1 := by
        unfold Double.roundHalfEven
        rw [hfr, hfl]
        have h2 : ¬ (n % 2 = 0) := by omega
        simp [h2]
      omega
    · have := (roundHalfEven_bounds q).1
      have h3 : (n : ℚ) < (Double.roundHalfEven q : ℚ) := by linarith
      have := Int.cast_lt.1 h3
      omega
  · intro h
    have := (roundHalfEven_bounds q).2
    have h3 : (Double.roundHalfEven q : ℚ) < (n + 1 : Int) := by push_cast; linarith
    have := Int.cast_lt.1 h3
    omega

theorem odd_le_roundHalfEven (q : ℚ) (n : Int) (hn : n % 2 = 1) :
    n ≤ Double.roundHalfEven q ↔ (n : ℚ) - 1 / 2 < q := by
  constructor
  · intro h
    by_contra hge
    push_neg at hge
    rcases eq_or_lt_of_le hge with heq | hlt
    · have hfl : ⌊q⌋ = n - 1 := by
        rw [Int.floor_eq_iff]
        push_cast
        constructor <;> linarith
      have hfr : q - ⌊q⌋ = 1 / 2 := by rw [hfl]; push_cast; linarith
      have : Double.roundHalfEven q = n - 1 := by
        unfold Double.roundHalfEven
        rw [hfr, hfl]
        have h2 : (n - 1) % 2 = 0 := by omega
        simp [h2]
      omega
    · have := (roundHalfEven_bounds q).2
      have h3 : (Double.roundHalfEven q : ℚ) < (n : ℚ) := by linarith
      have := Int.cast_lt.1 h3
      omega
  · intro h
    have := (roundHalfEven_bounds q).1
    have h3 : ((n - 1 : Int) : ℚ) < (Double.roundHalfEven q : ℚ) := by push_cast; linarith
    have := Int.cast_lt.1 h3
    omega


theorem roundNearestEven_lt_one_raw (x : ℚ) :
    ((Double.roundNearestEven x).abs.lt (Double.val 1)) = true ↔
      |(Double.roundHalfEven (x / Double.ulp x) : ℚ) * Double.ulp x| < 1 := by
  unfold Double.roundNearestEven
  simp only []
  split_ifs with h
  · have h1 : (1 : ℚ) ≤ 2 ^ 1024 := one_le_pow₀ (by norm_num)
    simp only [Double.abs, Double.lt, Bool.false_eq_true, false_iff, not_lt]
    linarith
  · simp [Double.abs, Double.lt]

theorem exponent_spec (x : ℚ) (hx : x ≠ 0) :
    |x| < 2 ^ (Double.exponent x + 1) ∧ (0 ≤ Double.exponent x → (2 : ℚ) ^ Double.exponent x ≤ |x|) := by
  have ha : 0 < |x| := abs_pos.2 hx
  have hlog1 : ((2 : ℕ) : ℚ) ^ Int.log 2 |x| ≤ |x| := Int.zpow_log_le_self (by norm_num) ha
  have hlog2 : |x| < ((2 : ℕ) : ℚ) ^ (Int.log 2 |x| + 1) :=
    Int.lt_zpow_succ_log_self (by norm_num) _
  rw [Nat.cast_ofNat] at hlog1 hlog2
  constructor
  · refine lt_of_lt_of_le hlog2 (zpow_le_zpow_right₀ (by norm_num) ?_)
    unfold Double.exponent
    omega
  · intro h0
    have : Double.exponent x = Int.log 2 |x| := by
      unfold Double.exponent at h0 ⊢
      omega
    rw [this]
    exact hlog1

theorem roundNearestEven_lt_one (x : ℚ) :
    ((Double.roundNearestEven x).abs.lt (Double.val 1)) = true ↔ |x| < 1 - 1 / 2 ^ 54 := by
  rw [roundNearestEven_lt_one_raw]
  by_cases hx : x = 0
  · subst hx
    have h0 : Double.roundHalfEven (0 / Double.ulp 0) = 0 := by
      rw [zero_div]
      have h1 := roundHalfEven_le_of_le 0 0 (by simp)
      have h2 := le_roundHalfEven_of_le 0 0 (by simp)
      omega
    rw [h0]
    norm_num
  obtain ⟨hup, hlow⟩ := exponent_spec x hx
  have hu : Double.ulp x = 2 ^ (Double.exponent x - 52) := rfl
  have hupos : 0 < Double.ulp x := by rw [hu]; positivity
  generalize Double.exponent x = e at hup hlow hu
  generalize Double.ulp x = u at hu hupos
  have habs : ∀ m : ℚ, |m * u| = |m| * u := fun m => by rw [abs_mul, abs_of_pos hupos]
  have hxu : x = x / u * u := by field_simp
  rcases lt_trichotomy e (-1) with hlt | heq | hgt
  · have h53 : (2 : ℚ) ^ (e + 1) = 2 ^ 53 * u := by
      rw [hu, show e + 1 = (53 : ℤ) + (e - 52) by ring, zpow_add₀ (by norm_num)]
      norm_num
    have hle : (2 : ℚ) ^ (e + 1) ≤ 2 ^ (-1 : ℤ) := zpow_le_zpow_right₀ (by norm_num) (by omega)
    have hhalf : (2 : ℚ) ^ (-1 : ℤ) = 1 / 2 := by norm_num
    rw [hhalf] at hle
    have hy : |x / u| < 2 ^ 53 := by
      rw [abs_div, abs_of_pos hupos, div_lt_iff₀ hupos]
      linarith
    rw [abs_lt] at hy
    have hm1 := roundHalfEven_le_of_le (x / u) (2 ^ 53) (by push_cast; linarith)
    have hm2 := le_roundHalfEven_of_le (x / u) (-(2 ^ 53)) (by push_cast; linarith)
    have hm : |(Double.roundHalfEven (x / u) : ℚ)| ≤ 2 ^ 53 := by
      rw [abs_le]
      constructor
      · have := (Int.cast_le (R := ℚ)).2 hm2
        push_cast at this
        exact this
      · have := (Int.cast_le (R := ℚ)).2 hm1
        push_cast at this
        exact this
    constructor
    · intro _
      have : (1 : ℚ) / 2 < 1 - 1 / 2 ^ 54 := by norm_num
      linarith
    · intro _
      rw [habs]
      have := mul_le_mul_of_nonneg_right hm hupos.le
      linarith
  · subst heq
    have hu' : u = 1 / 2 ^ 53 := by rw [hu]; norm_num
    have hodd : ((2 : Int) ^ 53 - 1) % 2 = 1 := by norm_num
    have hodd' : (-((2 : Int) ^ 53 - 1)) % 2 = 1 := by norm_num
    have h1 := roundHalfEven_le_odd (x / u) (2 ^ 53 - 1) hodd
    have h2 := odd_le_roundHalfEven (x / u) (-(2 ^ 53 - 1)) hodd'
    have hxu' : x / u = x * 2 ^ 53 := by rw [hu']; field_simp
    rw [hxu'] at h1 h2
    rw [habs, hxu']
    generalize Double.roundHalfEven (x * 2 ^ 53) = m at h1 h2 ⊢
    have hmabs : |(m : ℚ)| * u < 1 ↔ m ≤ 2 ^ 53 - 1 ∧ -(2 ^ 53 - 1) ≤ m := by
      rw [hu', mul_one_div, div_lt_iff₀ (by positivity), one_mul, abs_lt]
      constructor
      · rintro ⟨ha, hb⟩
        have ha' : ((-(2 ^ 53) : Int) : ℚ) < (m : ℚ) := by
          push_cast; exact ha
        have hb' : (m : ℚ) < ((2 ^ 53 : Int) : ℚ) := by
          push_cast; exact hb
        have ha'' := Int.cast_lt.1 ha'
        have hb'' := Int.cast_lt.1 hb'
        omega
      · rintro ⟨ha, hb⟩
        have ha' := (Int.cast_le (R := ℚ)).2 ha
        have hb' := (Int.cast_le (R := ℚ)).2 hb
        push_cast at ha' hb'
        constructor <;> linarith
    rw [hmabs, h1, h2, abs_lt]
    push_cast
    constructor
    · rintro ⟨ha, hb⟩
      constructor <;> nlinarith
    · rintro ⟨ha, hb⟩
      constructor <;> nlinarith
  · have he0 : 0 ≤ e := by omega
    have hlow' := hlow he0
    have h52 : (2 : ℚ) ^ e = 2 ^ 52 * u := by
      rw [hu, show e = (52 : ℤ) + (e - 52) by ring, zpow_add₀ (by norm_num)]
      norm_num
    have hone : (1 : ℚ) ≤ 2 ^ e := by
      have := zpow_le_zpow_right₀ (a := (2 : ℚ)) (by norm_num) he0
      simpa using this
    have hy : (2 : ℚ) ^ 52 ≤ |x / u| := by
      rw [abs_div, abs_of_pos hupos, le_div_iff₀ hupos]
      linarith
    have hm : (2 : ℚ) ^ 52 ≤ |(Double.roundHalfEven (x / u) : ℚ)| := by
      rcases le_abs'.1 hy with hneg | hpos
      · have := roundHalfEven_le_of_le (x / u) (-(2 ^ 52)) (by push_cast; linarith)
        have h3 := (Int.cast_le (R := ℚ)).2 this
        push_cast at h3
        exact le_abs'.2 (Or.inl h3)
      · have := le_roundHalfEven_of_le (x / u) (2 ^ 52) (by push_cast; linarith)
        have h3 := (Int.cast_le (R := ℚ)).2 this
        push_cast at h3
        exact le_abs'.2 (Or.inr h3)
    have hfalse1 : ¬ |x| < 1 - 1 / 2 ^ 54 := by
      have : (1 : ℚ) - 1 / 2 ^ 54 < 1 := by norm_num
      intro h
      linarith
    have hfalse2 : ¬ |(Double.roundHalfEven (x / u) : ℚ) * u| < 1 := by
      rw [habs]
      have := mul_le_mul_of_nonneg_right hm hupos.le
      intro h
      linarith
    exact ⟨fun h => absurd h hfalse2, fun h => absurd h hfalse1⟩

theorem double_close_iff (x y : Double) :
    ((x.sub y).abs.lt (Double.val 1)) = true ↔
      ∃ a b : ℚ, x = .val a ∧ y = .val b ∧ |a - b| < 1 - 1 / 2 ^ 54 := by
  cases x with
  | nan => simp [Double.sub, Double.abs, Double.lt]
  | inf s =>
    cases y with
    | nan => simp [Double.sub, Double.abs, Double.lt]
    | inf t =>
      by_cases h : s = t
      · simp [Double.sub, Double.abs, Double.lt, h]
      · simp [Double.sub, Double.abs, Double.lt, h]
    | val b => simp [Double.sub, Double.abs, Double.lt]
  | val a =>
    cases y with
    | nan => simp [Double.sub, Double.abs, Double.lt]
    | inf t => simp [Double.sub, Double.abs, Double.lt]
    | val b =>
      simp only [Double.sub, roundNearestEven_lt_one, Double.val.injEq, exists_and_left,
        exists_eq_left']

theorem areCloseCoordinates_iff (c1 c2 : RelationInfo) :
    areCloseCoordinates c1 c2 = true ↔
      (∃ a b : ℚ, c1.latitude = .val a ∧ c2.latitude = .val b ∧ |a - b| < 1 - 1 / 2 ^ 54) ∧
      (∃ a b : ℚ, c1.longitude = .val a ∧ c2.longitude = .val b ∧ |a - b| < 1 - 1 / 2 ^ 54) := by
  unfold areCloseCoordinates
  rw [Bool.and_eq_true, double_close_iff, double_close_iff]

theorem areCloseCoordinates_symm (c1 c2 : RelationInfo) :
    areCloseCoordinates c1 c2 = areCloseCoordinates c2 c1 := by
  rw [Bool.eq_iff_iff, areCloseCoordinates_iff, areCloseCoordinates_iff]
  constructor
  · rintro ⟨⟨a, b, ha, hb, hab⟩, ⟨c, d, hc, hd, hcd⟩⟩
    exact ⟨⟨b, a, hb, ha, by rwa [abs_sub_comm]⟩, ⟨d, c, hd, hc, by rwa [abs_sub_comm]⟩⟩
  · rintro ⟨⟨a, b, ha, hb, hab⟩, ⟨c, d, hc, hd, hcd⟩⟩
    exact ⟨⟨b, a, hb, ha, by rwa [abs_sub_comm]⟩, ⟨d, c, hd, hc, by rwa [abs_sub_comm]⟩⟩

theorem areCloseCoordinates_primary (a b a' b' : RelationInfo) (ha : a.primary = a'.primary)
    (hb : b.primary = b'.primary) : areCloseCoordinates a b = areCloseCoordinates a' b' := by
  simp only [RelationInfo.primary, Prod.mk.injEq] at ha hb
  unfold areCloseCoordinates
  rw [ha.2.2.2.1, ha.2.2.2.2, hb.2.2.2.1, hb.2.2.2.2]

theorem citiesItemLoop_invariant (lib : Lib) (mode : Match) (P : LookupState → Prop)
    (hP : ∀ type st item, P st → P (addCity lib mode type st item)) (type : String) :
    ∀ (items : List JsonValue) (st : LookupState), P st → P (citiesItemLoop lib mode type items st) := by
  intro items
  induction items with
  | nil => intro st h; exact h
  | cons item rest ih =>
    intro st h
    unfold citiesItemLoop
    simp only []
    split
    · exact hP type st item h
    · exact ih _ (hP type st item h)

theorem citiesTypeLoop_invariant (lib : Lib) (mode : Match) (P : LookupState → Prop)
    (hP : ∀ type st item, P st → P (addCity lib mode type st item)) (document : JsonValue) :
    ∀ (types : List String) (st st' : LookupState), P st →
      citiesTypeLoop lib mode document types st = some st' → P st' := by
  intro types
  induction types with
  | nil =>
    intro st st' h hrun
    simp only [citiesTypeLoop, Option.some.injEq] at hrun
    exact hrun ▸ h
  | cons type rest ih =>
    intro st st' h hrun
    unfold citiesTypeLoop at hrun
    cases hd : document.GetArray with
    | none => simp [hd] at hrun
    | some items =>
      simp only [hd] at hrun
      have h1 := citiesItemLoop_invariant lib mode P hP type items st h
      split at hrun
      · simp only [Option.some.injEq] at hrun
        exact hrun ▸ h1
      · exact ih _ st' h1 hrun

theorem citiesTypeLoop_total (lib : Lib) (mode : Match) (document : JsonValue)
    (hd : document.IsArray = true) :
    ∀ (types : List String) (st : LookupState),
      ∃ st', citiesTypeLoop lib mode document types st = some st' := by
  intro types
  induction types with
  | nil => intro st; exact ⟨st, rfl⟩
  | cons type rest ih =>
    intro st
    cases document with
    | array items =>
      unfold citiesTypeLoop
      simp only [JsonValue.GetArray]
      split
      · exact ⟨_, rfl⟩
      · exact ih _
    | null => cases hd
    | bool b => cases hd
    | int i => cases hd
    | number x => cases hd
    | str x => cases hd
    | object ms => cases hd

theorem forItems_cities_invariant (lib : Lib) (mode : Match) (P : LookupState → Prop)
    (hP : ∀ type st item, P st → P (addCity lib mode type st item)) :
    ∀ (documents : List JsonValue) (st st' : LookupState), P st →
      forItems (fun s d => handleCitiesResponse lib mode d s) documents st = some st' → P st' := by
  intro documents
  induction documents with
  | nil =>
    intro st st' h hrun
    simp only [forItems, Option.some.injEq] at hrun
    exact hrun ▸ h
  | cons d rest ih =>
    intro st st' h hrun
    simp only [forItems] at hrun
    cases hs : handleCitiesResponse lib mode d st with
    | none => simp [hs] at hrun
    | some s1 =>
      simp only [hs] at hrun
      exact ih s1 st' (citiesTypeLoop_invariant lib mode P hP d sc_types st s1 h hs) hrun

theorem forItems_cities_total (lib : Lib) (mode : Match) :
    ∀ (documents : List JsonValue) (st : LookupState), (∀ d ∈ documents, d.IsArray = true) →
      ∃ st', forItems (fun s d => handleCitiesResponse lib mode d s) documents st = some st' := by
  intro documents
  induction documents with
  | nil => intro st _; exact ⟨st, rfl⟩
  | cons d rest ih =>
    intro st harr
    obtain ⟨s1, hs1⟩ := citiesTypeLoop_total lib mode d (harr d (List.mem_cons_self _ _)) sc_types st
    obtain ⟨st', hst'⟩ := ih s1 fun d hd => harr d (List.mem_cons_of_mem _ hd)
    refine ⟨st', ?_⟩
    simp only [forItems]
    have : handleCitiesResponse lib mode d st = some s1 := hs1
    rw [this]
    exact hst'

theorem addCity_cases (lib : Lib) (mode : Match) (type : String) (st : LookupState)
    (item : JsonValue) :
    addCity lib mode type st item = st ∨
      (itemType item = type ∧
        (mode = Match.Any →
          ∀ c ∈ st.records, areCloseCoordinates c (jsonToObject lib item type) = false) ∧
        addCity lib mode type st item = pushRecord st (jsonToObject lib item type)) := by
  unfold addCity
  by_cases ht : json.GetString (json.Get item ["addresstype"]) = type
  · rw [if_pos ht]
    by_cases hm : mode = Match.Any
    · cases hany : st.records.any fun c => areCloseCoordinates c (jsonToObject lib item type) with
      | true => left; simp [hm, hany]
      | false =>
        right
        refine ⟨ht, fun _ c hc => ?_, ?_⟩
        · have := List.any_eq_false.1 hany c hc
          simpa using this
        · simp [hm, hany, pushRecord]
    · right
      refine ⟨ht, fun h => absurd h hm, ?_⟩
      simp [hm, pushRecord]
  · left
    rw [if_neg ht]

theorem pushRecord_inRange (st : LookupState) (r : RelationInfo) (h : InRange st) :
    InRange (pushRecord st r) := by
  intro id i hi
  unfold pushRecord at hi ⊢
  simp only [List.length_append, List.length_singleton] at hi ⊢
  unfold mapEmplace at hi
  split at hi
  · have := h id i hi
    omega
  · rw [mapAt_append_single] at hi
    cases hl : mapAt st.pendingIdsForEnglishNames id with
    | some j =>
      simp only [hl, Option.or_some, Option.some.injEq] at hi
      have := h id j hl
      omega
    | none =>
      simp only [hl, Option.none_or] at hi
      split at hi
      · simp only [Option.some.injEq] at hi
        omega
      · cases hi

theorem addCity_inRange (lib : Lib) (mode : Match) (type : String) (st : LookupState)
    (item : JsonValue) (h : InRange st) : InRange (addCity lib mode type st item) := by
  rcases addCity_cases lib mode type st item with he | ⟨-, -, he⟩
  · rw [he]; exact h
  · rw [he]; exact pushRecord_inRange st _ h

theorem addCity_any_noClose (lib : Lib) (type : String) (st : LookupState) (item : JsonValue)
    (h : st.records.Pairwise fun a b => areCloseCoordinates a b = false) :
    (addCity lib Match.Any type st item).records.Pairwise
      fun a b => areCloseCoordinates a b = false := by
  rcases addCity_cases lib Match.Any type st item with he | ⟨-, hfar, he⟩
  · rw [he]; exact h
  · rw [he]
    unfold pushRecord
    simp only []
    rw [List.pairwise_append]
    refine ⟨h, List.pairwise_singleton _ _, ?_⟩
    intro a ha b hb
    rw [List.mem_singleton] at hb
    subst hb
    exact hfar rfl a ha

theorem cities_some {κ : Type} (lib : Lib) (ids : OsmIds) (mode : Match)
    (Get : κ → String → String × κ) (k : κ) (result : RelationInfos)
    (h : LookupRelationInformationForCities lib ids mode Get k = some result) :
    ∃ s1 s2,
      forItems (fun s d => handleCitiesResponse lib mode d s) (primaryDocuments lib ids Get k)
        emptyState = some s1 ∧
      forItems (fun s d => handleCitiesEnglishResponse d s) (englishDocuments lib ids Get k) s1 =
        some s2 ∧
      result = s2.records := by
  rw [LookupRelationInformationForCities_eq] at h
  cases h1 : forItems (fun s d => handleCitiesResponse lib mode d s)
      (primaryDocuments lib ids Get k) emptyState with
  | none => simp [h1] at h
  | some s1 =>
    cases h2 : forItems (fun s d => handleCitiesEnglishResponse d s)
        (englishDocuments lib ids Get k) s1 with
    | none => simp [h1, h2] at h
    | some s2 =>
      simp only [h1, h2, Option.some_bind, Option.map_some', Option.some.injEq] at h
      exact ⟨s1, s2, rfl, h2, h.symm⟩

theorem cities_english_docs_spec (documents : List JsonValue) (st st2 : LookupState)
    (h : forItems (fun s d => handleCitiesEnglishResponse d s) documents st = some st2) :
    st2.pendingIdsForEnglishNames = st.pendingIdsForEnglishNames ∧
    st2.records.length = st.records.length ∧
    ∀ n, st2.records[n]? = (st.records[n]?).map
      (applyEnglish (fun item => decide (itemId item ≠ 0)) st.pendingIdsForEnglishNames n
        (itemsOf documents)) := by
  rw [handleCitiesEnglishResponse_eq] at h
  obtain ⟨-, hrun⟩ := forItems_arrays_of_some _ documents st st2 h
  rw [englishStep_cities] at hrun
  exact forItems_englishStep_spec _ _ st st2 hrun

theorem emptyState_inRange : InRange emptyState := indexOk_inRange _ emptyState_indexOk

theorem cities_total {κ : Type} (lib : Lib) (ids : OsmIds) (mode : Match)
    (Get : κ → String → String × κ) (k : κ)
    (h1 : ∀ d ∈ primaryDocuments lib ids Get k, d.IsArray = true)
    (h2 : ∀ d ∈ englishDocuments lib ids Get k, d.IsArray = true) :
    ∃ result, LookupRelationInformationForCities lib ids mode Get k = some result := by
  obtain ⟨s1, hs1⟩ := forItems_cities_total lib mode _ emptyState h1
  have hin : InRange s1 :=
    forItems_cities_invariant lib mode InRange (fun type st item h => addCity_inRange lib mode type st item h)
      _ emptyState s1 emptyState_inRange hs1
  have hs2 : ∃ s2, forItems (fun s d => handleCitiesEnglishResponse d s)
      (englishDocuments lib ids Get k) s1 = some s2 := by
    rw [handleCitiesEnglishResponse_eq, forItems_arrays_of_isArray _ _ s1 h2, englishStep_cities]
    exact forItems_englishStep_total _ _ s1 hin
  obtain ⟨s2, hs2⟩ := hs2
  exact ⟨s2.records, by simp [LookupRelationInformationForCities_eq, hs1, hs2]⟩

/-- C3 (amended): whenever `LookupRelationInformationForCities` with `Match::Any` returns, no two
records at distinct positions of the result are close by the test of the code (across types
and batches): both coordinate differences, computed in double arithmetic, below 1.0 in
absolute value. Two records are close by that test exactly when their four coordinates are
finite and both exact differences are below `1 - 2^-54` in absolute value, so a record with a
NaN or infinite coordinate is close to nothing. The lookup returns whenever the parsed
responses are arrays. -/
theorem any_mode_no_close_pair {κ : Type} (lib : Lib) (relationIds : OsmIds)
    (Get : κ → String → String × κ) (k : κ) :
    ((∀ d ∈ primaryDocuments lib relationIds Get k, d.IsArray = true) →
      (∀ d ∈ englishDocuments lib relationIds Get k, d.IsArray = true) →
      ∃ result, LookupRelationInformationForCities lib relationIds Match.Any Get k = some result) ∧
    (∀ result, LookupRelationInformationForCities lib relationIds Match.Any Get k = some result →
      ∀ (i j : Nat) (a b : RelationInfo), i ≠ j → result[i]? = some a → result[j]? = some b →
        areCloseCoordinates a b = false) ∧
    (∀ a b : RelationInfo, areCloseCoordinates a b =
      ((a.latitude.sub b.latitude).abs.lt (Double.val 1) &&
        (a.longitude.sub b.longitude).abs.lt (Double.val 1))) ∧
    (∀ x y : ℚ, (Double.val x).sub (Double.val y) = Double.roundNearestEven (x - y)) ∧
    (∀ a b : RelationInfo, areCloseCoordinates a b = true ↔
      (∃ x y : ℚ, a.latitude = .val x ∧ b.latitude = .val y ∧ |x - y| < 1 - 1 / 2 ^ 54) ∧
      (∃ x y : ℚ, a.longitude = .val x ∧ b.longitude = .val y ∧ |x - y| < 1 - 1 / 2 ^ 54)) := by
  refine ⟨fun h1 h2 => cities_total lib relationIds Match.Any Get k h1 h2, ?_,
    fun _ _ => rfl, fun _ _ => rfl, areCloseCoordinates_iff⟩
  intro result hres
  obtain ⟨s1, s2, hs1, hs2, rfl⟩ := cities_some lib relationIds Match.Any Get k result hres
  have hp1 : s1.records.Pairwise fun a b => areCloseCoordinates a b = false :=
    forItems_cities_invariant lib Match.Any
      (fun st => st.records.Pairwise fun a b => areCloseCoordinates a b = false)
      (fun type st item h => addCity_any_noClose lib type st item h) _ emptyState s1
      (by simp [emptyState]) hs1
  obtain ⟨-, -, hspec⟩ := cities_english_docs_spec _ s1 s2 hs2
  have hm := map_primary_of_spec _ _ _ _ _ hspec
  have hfar : ∀ (i j : Nat) (a b : RelationInfo), i < j → s2.records[i]? = some a →
      s2.records[j]? = some b → areCloseCoordinates a b = false := by
    intro i j a b hij ha hb
    have hai : (s1.records.map RelationInfo.primary)[i]? = some a.primary := by
      rw [← hm, List.getElem?_map, ha]; rfl
    have hbj : (s1.records.map RelationInfo.primary)[j]? = some b.primary := by
      rw [← hm, List.getElem?_map, hb]; rfl
    rw [List.getElem?_map] at hai hbj
    cases ha1 : s1.records[i]? with
    | none => simp [ha1] at hai
    | some a1 =>
      cases hb1 : s1.records[j]? with
      | none => simp [hb1] at hbj
      | some b1 =>
        simp only [ha1, hb1, Option.map_some', Option.some.injEq] at hai hbj
        have hjl : j < s1.records.length := by
          by_contra hge
          rw [List.getElem?_eq_none (by omega)] at hb1
          cases hb1
        have hil : i < s1.records.length := by omega
        have := List.pairwise_iff_getElem.1 hp1 i j hil hjl hij
        rw [List.getElem?_eq_getElem hil] at ha1
        rw [List.getElem?_eq_getElem hjl] at hb1
        cases ha1
        cases hb1
        rw [← areCloseCoordinates_primary _ _ _ _ hai hbj]
        exact this
  intro i j a b hne ha hb
  rcases Nat.lt_or_gt_of_ne hne with hlt | hgt
  · exact hfar i j a b hlt ha hb
  · rw [areCloseCoordinates_symm]
    exact hfar j i b a hgt hb ha

/-- C2 (failing input): with 51 IDs, a first batch answered by one state item and a second batch
answered by one city item, `LookupRelationInformationForCities` with `Match::Best` returns two
records, the first selected as a state and the second selected as a city. -/
theorem best_mode_mixes_types_across_batches :
    LookupRelationInformationForCities sampleLib fiftyOneIds Match.Best scriptedGet
        ["state-array", "city-array"] =
      some [jsonToObject sampleLib lazioItem "state", jsonToObject sampleLib romaItem "city"] ∧
    json.GetString (json.Get lazioItem ["addresstype"]) = "state" ∧
    json.GetString (json.Get romaItem ["addresstype"]) = "city" ∧
    (jsonToObject sampleLib lazioItem "state").name = "Lazio" ∧
    (jsonToObject sampleLib romaItem "city").name = "Roma" ∧
    (batchesOf fiftyOneIds).length = 2 := by
  refine ⟨by decide, by decide, by decide, by decide, by decide, by decide⟩

/-- C9 (failing input): a non-empty response that does not parse, or that parses to an object,
reaches `document.GetArray()` of the handlers, whose precondition fails: both lookups end
without a result, also when a later batch has a well-formed response. -/
theorem non_array_response_fails :
    sampleLib.Parse "not json" = none ∧
    LookupRelationInformation sampleLib [1] scriptedGet ["not json"] = none ∧
    LookupRelationInformation sampleLib [1] scriptedGet ["error-object"] = none ∧
    LookupRelationInformationForCities sampleLib [1] Match.Best scriptedGet ["not json"] = none ∧
    LookupRelationInformationForCities sampleLib [1] Match.Any scriptedGet ["error-object"] = none ∧
    LookupRelationInformation sampleLib fiftyOneIds scriptedGet ["error-object", "city-array"] = none ∧
    LookupRelationInformation sampleLib fiftyOneIds scriptedGet ["", "city-array"] =
      some [jsonToObject sampleLib romaItem "city"] := by
  refine ⟨rfl, by decide, by decide, by decide, by decide, by decide, by decide⟩

/-- The frame of the English pass (C7) on the spec's example: after the primary pass stored
`Roma` for ID 100, the English pass keeps one record with the same primary fields. -/
theorem english_pass_frame_witness :
    ∃ k3 st2,
      splitInChunksAndParseResponses sampleLib [100] scriptedGet (handleResponse sampleLib true)
        (some "en") (["rome-array"], pushRecord emptyState (itemRecord sampleLib roma100)) =
        some (k3, st2) ∧
      st2.records.length = 1 ∧
      st2.records.map RelationInfo.primary = [(itemRecord sampleLib roma100).primary] := by
  have h := english_pass_frame sampleLib [100] scriptedGet ["roma-array", "rome-array"]
    ["rome-array"] (pushRecord emptyState (itemRecord sampleLib roma100)) (by decide)
    [100] scriptedGet ["rome-array"] (some "en")
  obtain ⟨k3, st2, h2⟩ := h.1 (by decide)
  obtain ⟨hl, -, hp, -⟩ := h.2.1 k3 st2 h2
  exact ⟨k3, st2, h2, hl, hp⟩

theorem responsesOf_recordingGet {κ : Type} (Get : κ → String → String × κ) :
    ∀ (requests : List String) (k : κ) (log : List String),
      responsesOf (recordingGet Get) requests (k, log) =
        ((responsesOf Get requests k).1, ((responsesOf Get requests k).2, log ++ requests)) := by
  intro requests
  induction requests with
  | nil => intro k log; simp [responsesOf]
  | cons request rest ih =>
    intro k log
    simp only [responsesOf, recordingGet]
    rw [ih]
    simp

theorem primaryDocuments_recordingGet {κ : Type} (lib : Lib) (ids : OsmIds)
    (Get : κ → String → String × κ) (k : κ) (log : List String) :
    primaryDocuments lib ids (recordingGet Get) (k, log) = primaryDocuments lib ids Get k := by
  unfold primaryDocuments
  rw [responsesOf_recordingGet]

theorem englishDocuments_recordingGet {κ : Type} (lib : Lib) (ids : OsmIds)
    (Get : κ → String → String × κ) (k : κ) (log : List String) :
    englishDocuments lib ids (recordingGet Get) (k, log) = englishDocuments lib ids Get k := by
  unfold englishDocuments
  rw [responsesOf_recordingGet, responsesOf_recordingGet]

theorem formatRelationLookupRequest_en (chunk : OsmIds) :
    formatRelationLookupRequest chunk (some "en") =
      formatRelationLookupRequest chunk none ++ "&accept-language=en" := by
  simp [formatRelationLookupRequest]

theorem requestsOf_length (ids : OsmIds) (language : Option String) :
    (requestsOf ids language).length = (ids.length + 49) / 50 := by
  simp [requestsOf, batchesOf]

theorem LookupRelationInformationForCitiesRun_eq {κ : Type} (lib : Lib) (ids : OsmIds)
    (mode : Match) (Get : κ → String → String × κ) (k : κ) :
    LookupRelationInformationForCitiesRun lib ids mode Get k =
      (forItems (fun s d => handleCitiesResponse lib mode d s) (primaryDocuments lib ids Get k)
        emptyState).bind fun s1 =>
        (forItems (fun s d => handleCitiesEnglishResponse d s) (englishDocuments lib ids Get k)
          s1).map
          fun s2 => ((responsesOf Get (requestsOf ids (some "en"))
            (responsesOf Get (requestsOf ids none) k).2).2, s2) := by
  unfold LookupRelationInformationForCitiesRun
  rw [splitInChunksAndParseResponses_eq]
  cases h : forItems (fun s d => handleCitiesResponse lib mode d s)
      (documentsOf lib (responsesOf Get (requestsOf ids none) k).1) emptyState with
  | none => simp [primaryDocuments, h]
  | some s1 =>
    simp only [Option.map_some', primaryDocuments, h, Option.some_bind]
    rw [splitInChunksAndParseResponses_eq]
    rfl

theorem run_some_log {σ : Type} {κ : Type} (first : Option σ) (second : σ → Option σ)
    (kfin k' : κ × List String) (s : σ)
    (h : (first.bind fun s1 => (second s1).map fun s2 => (kfin, s2)) = some (k', s)) :
    k' = kfin := by
  cases first with
  | none => simp at h
  | some s1 =>
    simp only [Option.some_bind] at h
    cases hs : second s1 with
    | none => simp [hs] at h
    | some s2 =>
      simp only [hs, Option.map_some', Option.some.injEq, Prod.mk.injEq] at h
      exact h.1.symm

theorem run_of_map_some {α β γ : Type} (run : Option (α × β)) (f : α × β → γ) (r : γ)
    (h : run.map f = some r) : ∃ a b, run = some (a, b) := by
  cases run with
  | none => simp at h
  | some p => exact ⟨p.1, p.2, rfl⟩

/-- The requests of a call that returns: one call of `LookupRelationInformation`, and of
`LookupRelationInformationForCities` in either match mode, that returns has sent exactly
`2 * ceil(n/50)` requests to the transport:
first the requests of the chunks in chunk order without a language parameter, then the requests
of the same chunks with `&accept-language=en` appended, so every primary-pass request precedes
every English-pass request. The requests are those a recording wrapper of an arbitrary
transport logs; the wrapper does not change the result, and the call returns whenever the
parsed responses are arrays. -/
theorem lookups_issue_two_passes_of_requests {κ : Type} (lib : Lib) (relationIds : OsmIds)
    (Get : κ → String → String × κ) (k : κ) (mode : Match) :
    (∀ k' log st, LookupRelationInformationRun lib relationIds (recordingGet Get) (k, []) =
        some ((k', log), st) →
      log = requestsOf relationIds none ++ requestsOf relationIds (some "en") ∧
      log.length = 2 * ((relationIds.length + 49) / 50)) ∧
    (∀ k' log st, LookupRelationInformationForCitiesRun lib relationIds mode (recordingGet Get)
        (k, []) = some ((k', log), st) →
      log = requestsOf relationIds none ++ requestsOf relationIds (some "en") ∧
      log.length = 2 * ((relationIds.length + 49) / 50)) ∧
    requestsOf relationIds none =
      (batchesOf relationIds).map (fun chunk => formatRelationLookupRequest chunk none) ∧
    requestsOf relationIds (some "en") =
      (batchesOf relationIds).map
        (fun chunk => formatRelationLookupRequest chunk none ++ "&accept-language=en") ∧
    (batchesOf relationIds).length = (relationIds.length + 49) / 50 ∧
    LookupRelationInformation lib relationIds (recordingGet Get) (k, []) =
      LookupRelationInformation lib relationIds Get k ∧
    LookupRelationInformationForCities lib relationIds mode (recordingGet Get) (k, []) =
      LookupRelationInformationForCities lib relationIds mode Get k ∧
    ((∀ d ∈ primaryDocuments lib relationIds Get k, d.IsArray = true) →
      (∀ d ∈ englishDocuments lib relationIds Get k, d.IsArray = true) →
      (∃ k' log st, LookupRelationInformationRun lib relationIds (recordingGet Get) (k, []) =
        some ((k', log), st)) ∧
      (∃ k' log st, LookupRelationInformationForCitiesRun lib relationIds mode (recordingGet Get)
        (k, []) = some ((k', log), st))) := by
  have hlog : ((responsesOf (recordingGet Get) (requestsOf relationIds (some "en"))
      (responsesOf (recordingGet Get) (requestsOf relationIds none) (k, [])).2).2).2 =
      requestsOf relationIds none ++ requestsOf relationIds (some "en") := by
    rw [responsesOf_recordingGet, responsesOf_recordingGet]
    simp
  have hlen : (requestsOf relationIds none ++ requestsOf relationIds (some "en")).length =
      2 * ((relationIds.length + 49) / 50) := by
    rw [List.length_append, requestsOf_length, requestsOf_length]
    omega
  refine ⟨?_, ?_, rfl, ?_, ?_, ?_, ?_, ?_⟩
  · intro k' log st h
    rw [LookupRelationInformationRun_eq] at h
    have hk := run_some_log _ _ _ _ _ h
    have : log = requestsOf relationIds none ++ requestsOf relationIds (some "en") := by
      rw [← hlog, ← hk]
    exact ⟨this, this ▸ hlen⟩
  · intro k' log st h
    rw [LookupRelationInformationForCitiesRun_eq] at h
    have hk := run_some_log _ _ _ _ _ h
    have : log = requestsOf relationIds none ++ requestsOf relationIds (some "en") := by
      rw [← hlog, ← hk]
    exact ⟨this, this ▸ hlen⟩
  · unfold requestsOf
    apply List.map_congr_left
    intro chunk _
    exact formatRelationLookupRequest_en chunk
  · simp [batchesOf]
  · rw [LookupRelationInformation_eq, LookupRelationInformation_eq,
      primaryDocuments_recordingGet, englishDocuments_recordingGet]
  · rw [LookupRelationInformationForCities_eq, LookupRelationInformationForCities_eq,
      primaryDocuments_recordingGet, englishDocuments_recordingGet]
  · intro h1 h2
    constructor
    · obtain ⟨result, hres⟩ := lookup_total lib relationIds (recordingGet Get) (k, [])
        (by rw [primaryDocuments_recordingGet]; exact h1)
        (by rw [englishDocuments_recordingGet]; exact h2)
      obtain ⟨a, b, hab⟩ := run_of_map_some _ _ _ hres
      exact ⟨a.1, a.2, b, hab⟩
    · obtain ⟨result, hres⟩ := cities_total lib relationIds mode (recordingGet Get) (k, [])
        (by rw [primaryDocuments_recordingGet]; exact h1)
        (by rw [englishDocuments_recordingGet]; exact h2)
      obtain ⟨a, b, hab⟩ := run_of_map_some _ _ _ hres
      exact ⟨a.1, a.2, b, hab⟩

theorem addCity_best (lib : Lib) (type : String) (st : LookupState) (item : JsonValue) :
    addCity lib Match.Best type st item =
      if itemType item = type then pushRecord st (jsonToObject lib item type) else st := by
  unfold addCity itemType pushRecord
  by_cases h : json.GetString (json.Get item ["addresstype"]) = type
  · simp [h]
  · simp [h]

theorem pushRecord_records_ne_nil (st : LookupState) (r : RelationInfo) :
    (pushRecord st r).records ≠ [] := by
  simp [pushRecord]

theorem citiesItemLoop_best_empty (lib : Lib) (type : String) (st : LookupState)
    (hst : st.records = []) :
    ∀ items : List JsonValue,
      citiesItemLoop lib Match.Best type items st =
        match items.find? (fun x => decide (itemType x = type)) with
        | some x => pushRecord st (jsonToObject lib x type)
        | none => st := by
  intro items
  induction items with
  | nil => rfl
  | cons item rest ih =>
    unfold citiesItemLoop
    simp only [addCity_best]
    by_cases h : itemType item = type
    · have hne := pushRecord_records_ne_nil st (jsonToObject lib item type)
      simp [h, hne]
    · simp only [h, if_false, hst, ne_eq, not_true_eq_false, and_false, List.find?, decide_False]
      exact ih

theorem citiesTypeLoop_best_empty (lib : Lib) (items : List JsonValue) (st : LookupState)
    (hst : st.records = []) :
    ∀ types : List String,
      citiesTypeLoop lib Match.Best (JsonValue.array items) types st =
        some (match bestCandidate items types with
          | some (x, type) => pushRecord st (jsonToObject lib x type)
          | none => st) := by
  intro types
  induction types with
  | nil => rfl
  | cons type rest ih =>
    unfold citiesTypeLoop bestCandidate
    simp only [JsonValue.GetArray]
    rw [citiesItemLoop_best_empty lib type st hst items]
    cases hf : items.find? (fun x => decide (itemType x = type)) with
    | some x =>
      have hne := pushRecord_records_ne_nil st (jsonToObject lib x type)
      simp [hne]
    | none =>
      simp only [hst, ne_eq, not_true_eq_false, and_false, if_false]
      exact ih

theorem handleCitiesResponse_best_first (lib : Lib) (items : List JsonValue) :
    handleCitiesResponse lib Match.Best (JsonValue.array items) emptyState =
      some { records := bestRecords lib items
             pendingIdsForEnglishNames :=
               match bestCandidate items sc_types with
               | some (x, type) => [((jsonToObject lib x type).osmId, 0)]
               | none => [] } := by
  unfold handleCitiesResponse
  rw [citiesTypeLoop_best_empty lib items emptyState rfl]
  unfold bestRecords
  cases bestCandidate items sc_types with
  | none => rfl
  | some p => rfl

theorem cities_result_primary {κ : Type} (lib : Lib) (ids : OsmIds) (mode : Match)
    (Get : κ → String → String × κ) (k : κ) (result : RelationInfos)
    (h : LookupRelationInformationForCities lib ids mode Get k = some result) :
    ∃ s1,
      forItems (fun s d => handleCitiesResponse lib mode d s) (primaryDocuments lib ids Get k)
        emptyState = some s1 ∧
      result.map RelationInfo.primary = s1.records.map RelationInfo.primary ∧
      result.length = s1.records.length := by
  obtain ⟨s1, s2, hs1, hs2, rfl⟩ := cities_some lib ids mode Get k result h
  obtain ⟨-, hlen, hspec⟩ := cities_english_docs_spec _ s1 s2 hs2
  exact ⟨s1, hs1, map_primary_of_spec _ _ _ _ _ hspec, hlen⟩

theorem primaryDocuments_length_le {κ : Type} (lib : Lib) (ids : OsmIds)
    (Get : κ → String → String × κ) (k : κ) :
    (primaryDocuments lib ids Get k).length ≤ (ids.length + 49) / 50 := by
  unfold primaryDocuments documentsOf
  rw [List.length_map]
  refine le_trans (List.length_filter_le _ _) ?_
  rw [responsesOf_length, requestsOf_length]

theorem cities_best_single {κ : Type} (lib : Lib) (ids : OsmIds)
    (Get : κ → String → String × κ) (k : κ) (items : List JsonValue)
    (hdocs : primaryDocuments lib ids Get k = [JsonValue.array items]) (result : RelationInfos)
    (h : LookupRelationInformationForCities lib ids Match.Best Get k = some result) :
    result.map RelationInfo.primary = (bestRecords lib items).map RelationInfo.primary := by
  obtain ⟨s1, hs1, hprim, -⟩ := cities_result_primary lib ids Match.Best Get k result h
  rw [hdocs] at hs1
  simp only [forItems, handleCitiesResponse_best_first, Option.some.injEq] at hs1
  rw [hprim, ← hs1]

theorem bestCandidate_some_spec (items : List JsonValue) :
    ∀ x type, bestCandidate items ["city", "town", "state"] = some (x, type) →
      items.find? (fun y => decide (json.GetString (json.Get y ["addresstype"]) = type)) = some x ∧
      (type = "city" ∨
        (type = "town" ∧ ∀ y ∈ items, json.GetString (json.Get y ["addresstype"]) ≠ "city") ∨
        (type = "state" ∧ ∀ y ∈ items, json.GetString (json.Get y ["addresstype"]) ≠ "city" ∧
          json.GetString (json.Get y ["addresstype"]) ≠ "town")) := by
  intro x type hbest
  unfold bestCandidate bestCandidate bestCandidate bestCandidate at hbest
  cases hc : items.find? (fun y => decide (itemType y = "city")) with
  | some c =>
    simp only [hc, Option.some.injEq, Prod.mk.injEq] at hbest
    obtain ⟨rfl, rfl⟩ := hbest
    exact ⟨hc, Or.inl rfl⟩
  | none =>
    have hnc : ∀ y ∈ items, itemType y ≠ "city" := by
      intro y hy
      have := List.find?_eq_none.1 hc y hy
      simpa using this
    cases ht : items.find? (fun y => decide (itemType y = "town")) with
    | some c =>
      simp only [hc, ht, Option.some.injEq, Prod.mk.injEq] at hbest
      obtain ⟨rfl, rfl⟩ := hbest
      exact ⟨ht, Or.inr (Or.inl ⟨rfl, hnc⟩)⟩
    | none =>
      have hnt : ∀ y ∈ items, itemType y ≠ "town" := by
        intro y hy
        have := List.find?_eq_none.1 ht y hy
        simpa using this
      cases hs : items.find? (fun y => decide (itemType y = "state")) with
      | some c =>
        simp only [hc, ht, hs, Option.some.injEq, Prod.mk.injEq] at hbest
        obtain ⟨rfl, rfl⟩ := hbest
        exact ⟨hs, Or.inr (Or.inr ⟨rfl, fun y hy => ⟨hnc y hy, hnt y hy⟩⟩)⟩
      | none => simp [hc, ht, hs] at hbest

theorem bestCandidate_none_iff (items : List JsonValue) :
    bestCandidate items ["city", "town", "state"] = none ↔
      ∀ y ∈ items, json.GetString (json.Get y ["addresstype"]) ≠ "city" ∧
        json.GetString (json.Get y ["addresstype"]) ≠ "town" ∧
        json.GetString (json.Get y ["addresstype"]) ≠ "state" := by
  unfold bestCandidate bestCandidate bestCandidate bestCandidate
  constructor
  · intro hnone
    cases hc : items.find? (fun y => decide (itemType y = "city")) with
    | some c => simp [hc] at hnone
    | none =>
      cases ht : items.find? (fun y => decide (itemType y = "town")) with
      | some c => simp [hc, ht] at hnone
      | none =>
        cases hs : items.find? (fun y => decide (itemType y = "state")) with
        | some c => simp [hc, ht, hs] at hnone
        | none =>
          intro y hy
          have h1 := List.find?_eq_none.1 hc y hy
          have h2 := List.find?_eq_none.1 ht y hy
          have h3 := List.find?_eq_none.1 hs y hy
          simp only [decide_eq_true_eq] at h1 h2 h3
          exact ⟨h1, h2, h3⟩
  · intro hall
    have hc : items.find? (fun y => decide (itemType y = "city")) = none :=
      List.find?_eq_none.2 fun y hy => by simpa using (hall y hy).1
    have ht : items.find? (fun y => decide (itemType y = "town")) = none :=
      List.find?_eq_none.2 fun y hy => by simpa using (hall y hy).2.1
    have hs : items.find? (fun y => decide (itemType y = "state")) = none :=
      List.find?_eq_none.2 fun y hy => by simpa using (hall y hy).2.2
    simp [hc, ht, hs]

/-- C12 (counterexample): a single batch answered by two city items yields one record in
`Match::Best` mode, the one of the first city item, not a record for each city item. -/
theorem best_mode_keeps_first_item_only :
    LookupRelationInformationForCities sampleLib2 [1] Match.Best scriptedGet
        ["two-cities-array"] = some [jsonToObject sampleLib2 romaItem "city"] ∧
    sampleLib2.Parse "two-cities-array" = some (JsonValue.array [romaItem, ostiaItem]) ∧
    ([romaItem, ostiaItem].filter fun x => decide (itemType x = "city")).length = 2 ∧
    ¬ (∃ result, LookupRelationInformationForCities sampleLib2 [1] Match.Best scriptedGet
        ["two-cities-array"] = some result ∧
      result.length = ([romaItem, ostiaItem].filter fun x => decide (itemType x = "city")).length) := by
  refine ⟨by decide, rfl, by decide, ?_⟩
  rintro ⟨result, hres, hlen⟩
  have h : LookupRelationInformationForCities sampleLib2 [1] Match.Best scriptedGet
      ["two-cities-array"] = some [jsonToObject sampleLib2 romaItem "city"] := by decide
  rw [h] at hres
  cases hres
  revert hlen
  decide

/-- C12 (amended): in `Match::Best` mode, when the first pass handles a single response batch,
the lookup returns exactly one record for the first type in the order city, town, state that
some item of the batch carries, built from the first item of that type, and nothing from
further types; it returns no record when no item carries one of the three types. The lookup
returns whenever the English documents are arrays. -/
theorem best_mode_single_batch_first_of_best_type {κ : Type} (lib : Lib) (relationIds : OsmIds)
    (Get : κ → String → String × κ) (k : κ) (items : List JsonValue)
    (hdocs : primaryDocuments lib relationIds Get k = [JsonValue.array items]) :
    ((∀ d ∈ englishDocuments lib relationIds Get k, d.IsArray = true) →
      ∃ result, LookupRelationInformationForCities lib relationIds Match.Best Get k = some result) ∧
    (∀ result, LookupRelationInformationForCities lib relationIds Match.Best Get k = some result →
      result.map RelationInfo.primary =
        match bestCandidate items ["city", "town", "state"] with
        | some (x, type) => [(jsonToObject lib x type).primary]
        | none => []) ∧
    (∀ x type, bestCandidate items ["city", "town", "state"] = some (x, type) →
      items.find? (fun y => decide (json.GetString (json.Get y ["addresstype"]) = type)) = some x ∧
      (type = "city" ∨
        (type = "town" ∧ ∀ y ∈ items, json.GetString (json.Get y ["addresstype"]) ≠ "city") ∨
        (type = "state" ∧ ∀ y ∈ items, json.GetString (json.Get y ["addresstype"]) ≠ "city" ∧
          json.GetString (json.Get y ["addresstype"]) ≠ "town"))) ∧
    (bestCandidate items ["city", "town", "state"] = none ↔
      ∀ y ∈ items, json.GetString (json.Get y ["addresstype"]) ≠ "city" ∧
        json.GetString (json.Get y ["addresstype"]) ≠ "town" ∧
        json.GetString (json.Get y ["addresstype"]) ≠ "state") := by
  refine ⟨?_, ?_, ?_, ?_⟩
  · intro harr
    apply cities_total lib relationIds Match.Best Get k _ harr
    intro d hd
    rw [hdocs, List.mem_singleton] at hd
    rw [hd]
    rfl
  · intro result hres
    rw [cities_best_single lib relationIds Get k items hdocs result hres]
    unfold bestRecords sc_types
    cases bestCandidate items ["city", "town", "state"] with
    | none => rfl
    | some p => rfl
  · exact bestCandidate_some_spec items
  · exact bestCandidate_none_iff items

/-- The amended C12 on a sample: a single batch with a state item followed by a city item
yields the record of the city item. -/
theorem best_mode_single_batch_first_of_best_type_witness :
    ∃ result, LookupRelationInformationForCities sampleLib2 [1] Match.Best scriptedGet
        ["state-city-array"] = some result ∧
      result.map RelationInfo.primary = [(jsonToObject sampleLib2 romaItem "city").primary] := by
  have h := best_mode_single_batch_first_of_best_type sampleLib2 [1] scriptedGet
    ["state-city-array"] [lazioItem, romaItem] rfl
  obtain ⟨result, hres⟩ := h.1 (by decide)
  exact ⟨result, hres, (h.2.1 result hres).trans rfl⟩

theorem handleCitiesResponse_some_isArray (lib : Lib) (mode : Match) (d : JsonValue)
    (st st' : LookupState) (h : handleCitiesResponse lib mode d st = some st') :
    ∃ items, d = JsonValue.array items := by
  cases d with
  | array items => exact ⟨items, rfl⟩
  | null => simp [handleCitiesResponse, sc_types, citiesTypeLoop, JsonValue.GetArray] at h
  | bool b => simp [handleCitiesResponse, sc_types, citiesTypeLoop, JsonValue.GetArray] at h
  | int i => simp [handleCitiesResponse, sc_types, citiesTypeLoop, JsonValue.GetArray] at h
  | number x => simp [handleCitiesResponse, sc_types, citiesTypeLoop, JsonValue.GetArray] at h
  | str x => simp [handleCitiesResponse, sc_types, citiesTypeLoop, JsonValue.GetArray] at h
  | object ms => simp [handleCitiesResponse, sc_types, citiesTypeLoop, JsonValue.GetArray] at h

theorem cities_best_one_batch {κ : Type} (lib : Lib) (ids : OsmIds)
    (Get : κ → String → String × κ) (k : κ) (hlen : ids.length ≤ 50) (result : RelationInfos)
    (h : LookupRelationInformationForCities lib ids Match.Best Get k = some result) :
    result.map RelationInfo.primary =
      (bestRecords lib (itemsOf (primaryDocuments lib ids Get k))).map RelationInfo.primary := by
  have hle := primaryDocuments_length_le lib ids Get k
  have hone : (primaryDocuments lib ids Get k).length ≤ 1 := by omega
  cases hd : primaryDocuments lib ids Get k with
  | nil =>
    obtain ⟨s1, hs1, hprim, -⟩ := cities_result_primary lib ids Match.Best Get k result h
    rw [hd] at hs1
    simp only [forItems, Option.some.injEq] at hs1
    rw [hprim, ← hs1]
    rfl
  | cons d rest =>
    have hrest : rest = [] := by
      rw [hd] at hone
      cases rest with
      | nil => rfl
      | cons a b => simp at hone
    subst hrest
    obtain ⟨s1, hs1, -, -⟩ := cities_result_primary lib ids Match.Best Get k result h
    rw [hd] at hs1
    simp only [forItems] at hs1
    cases hh : handleCitiesResponse lib Match.Best d emptyState with
    | none => simp [hh] at hs1
    | some s =>
      obtain ⟨items, rfl⟩ := handleCitiesResponse_some_isArray lib _ d _ _ hh
      rw [cities_best_single lib ids Get k items hd result h]
      simp [itemsOf, JsonValue.GetArray]

/-- C13: in `Match::Best` mode with a single batch (at most 50 IDs) the result respects the
priority city, town, state whatever the order of the items in the response: every returned
record carries the primary fields of an item of the most specific type present among the
response items, read under that type, and the result is empty exactly when no item has the
address type city, town or state. The lookup returns whenever the parsed responses are
arrays. -/
theorem best_mode_single_batch_priority {κ : Type} (lib : Lib) (relationIds : OsmIds)
    (Get : κ → String → String × κ) (k : κ) (hlen : relationIds.length ≤ 50) :
    ((∀ d ∈ primaryDocuments lib relationIds Get k, d.IsArray = true) →
      (∀ d ∈ englishDocuments lib relationIds Get k, d.IsArray = true) →
      ∃ result, LookupRelationInformationForCities lib relationIds Match.Best Get k = some result) ∧
    ∀ result, LookupRelationInformationForCities lib relationIds Match.Best Get k = some result →
      (∀ r ∈ result, ∃ x ∈ itemsOf (primaryDocuments lib relationIds Get k), ∃ type,
        json.GetString (json.Get x ["addresstype"]) = type ∧
        r.primary = (jsonToObject lib x type).primary ∧
        (type = "city" ∨
          (type = "town" ∧ ∀ y ∈ itemsOf (primaryDocuments lib relationIds Get k),
            json.GetString (json.Get y ["addresstype"]) ≠ "city") ∨
          (type = "state" ∧ ∀ y ∈ itemsOf (primaryDocuments lib relationIds Get k),
            json.GetString (json.Get y ["addresstype"]) ≠ "city" ∧
            json.GetString (json.Get y ["addresstype"]) ≠ "town"))) ∧
      (result = [] ↔ ∀ y ∈ itemsOf (primaryDocuments lib relationIds Get k),
        json.GetString (json.Get y ["addresstype"]) ≠ "city" ∧
        json.GetString (json.Get y ["addresstype"]) ≠ "town" ∧
        json.GetString (json.Get y ["addresstype"]) ≠ "state") := by
  refine ⟨fun h1 h2 => cities_total lib relationIds Match.Best Get k h1 h2, ?_⟩
  intro result hres
  have hprim := cities_best_one_batch lib relationIds Get k hlen result hres
  unfold bestRecords sc_types at hprim
  constructor
  · intro r hr
    have hrp : r.primary ∈ result.map RelationInfo.primary := List.mem_map_of_mem _ hr
    rw [hprim] at hrp
    cases hb : bestCandidate (itemsOf (primaryDocuments lib relationIds Get k))
        ["city", "town", "state"] with
    | none => simp [hb] at hrp
    | some p =>
      obtain ⟨x, type⟩ := p
      simp only [hb, List.map_cons, List.map_nil, List.mem_singleton] at hrp
      obtain ⟨hfind, hbest⟩ := bestCandidate_some_spec _ x type hb
      have hx := List.find?_some hfind
      simp only [decide_eq_true_eq] at hx
      exact ⟨x, List.mem_of_find?_eq_some hfind, type, hx, hrp, hbest⟩
  · rw [← bestCandidate_none_iff]
    cases hb : bestCandidate (itemsOf (primaryDocuments lib relationIds Get k))
        ["city", "town", "state"] with
    | none =>
      simp only [hb, List.map_nil, List.map_eq_nil_iff] at hprim
      simp [hprim]
    | some p =>
      obtain ⟨x, type⟩ := p
      simp only [hb, List.map_cons, List.map_nil] at hprim
      constructor
      · intro hnil
        rw [hnil] at hprim
        simp at hprim
      · intro hcontra
        cases hcontra

/-- C13 on a sample: a batch of one ID answered by a state item followed by a city item; the
record returned is the one of the city item. -/
theorem best_mode_single_batch_priority_witness :
    ∃ result, LookupRelationInformationForCities sampleLib2 [1] Match.Best scriptedGet
        ["state-city-array"] = some result ∧ result ≠ [] ∧
      ∀ r ∈ result, ∃ x ∈ [lazioItem, romaItem], ∃ type,
        json.GetString (json.Get x ["addresstype"]) = type ∧
        r.primary = (jsonToObject sampleLib2 x type).primary ∧ type = "city" := by
  have h := best_mode_single_batch_priority sampleLib2 [1] scriptedGet ["state-city-array"]
    (by decide)
  obtain ⟨result, hres⟩ := h.1 (by decide) (by decide)
  have hval : LookupRelationInformationForCities sampleLib2 [1] Match.Best scriptedGet
      ["state-city-array"] = some [jsonToObject sampleLib2 romaItem "city"] := by decide
  refine ⟨result, hres, ?_, ?_⟩
  · rw [hval] at hres
    cases hres
    simp
  · intro r hr
    obtain ⟨x, hx, type, hty, hp, hbest⟩ := (h.2 result hres).1 r hr
    have hitems : itemsOf (primaryDocuments sampleLib2 [1] scriptedGet ["state-city-array"]) =
        [lazioItem, romaItem] := rfl
    rw [hitems] at hx hbest
    refine ⟨x, hx, type, hty, hp, ?_⟩
    rcases hbest with hc | ⟨-, hno⟩ | ⟨-, hno⟩
    · exact hc
    · exact absurd (by decide) (hno romaItem (by simp))
    · exact absurd (by decide) (hno romaItem (by simp)).1

/-- C17 (failing input): a city item without `osm_id` is stored by the first pass of
`LookupRelationInformationForCities` in both match modes, and the record returned for it has
`osmId` zero. -/
theorem cities_stores_item_without_id :
    json.GetInt64 (json.Get namelessIdItem ["osm_id"]) = 0 ∧
    LookupRelationInformationForCities sampleLib2 [1] Match.Best scriptedGet ["no-id-array"] =
      some [jsonToObject sampleLib2 namelessIdItem "city"] ∧
    LookupRelationInformationForCities sampleLib2 [1] Match.Any scriptedGet ["no-id-array"] =
      some [jsonToObject sampleLib2 namelessIdItem "city"] ∧
    (jsonToObject sampleLib2 namelessIdItem "city").osmId = 0 ∧
    (jsonToObject sampleLib2 namelessIdItem "city").name = "Roma" ∧
    LookupRelationInformation sampleLib2 [1] scriptedGet ["no-id-array"] = some [] := by
  refine ⟨by decide, by decide, by decide, by decide, by decide, by decide⟩

/-- C20 (failing input): on a state that holds a record for ID 100 and an English document
whose item for ID 100 has no `addresstype`, the English pass of `LookupRelationInformation`
leaves the record unchanged while the English pass of `LookupRelationInformationForCities`
overwrites its English fields; on an item with a non-empty address type the two loop bodies
agree. -/
theorem english_passes_differ_on_empty_addresstype :
    handleResponse sampleLib2 true (JsonValue.array [untyped100])
        (pushRecord emptyState ((itemRecord sampleLib2 roma100).withEnglish ("Rome", "Italy"))) =
      some (pushRecord emptyState ((itemRecord sampleLib2 roma100).withEnglish ("Rome", "Italy"))) ∧
    handleCitiesEnglishResponse (JsonValue.array [untyped100])
        (pushRecord emptyState ((itemRecord sampleLib2 roma100).withEnglish ("Rome", "Italy"))) =
      some (pushRecord emptyState ((itemRecord sampleLib2 roma100).withEnglish ("", "Italy"))) ∧
    json.GetString (json.Get untyped100 ["addresstype"]) = "" ∧
    (∀ (lib : Lib) (st : LookupState) (item : JsonValue),
      json.GetString (json.Get item ["addresstype"]) ≠ "" →
      handleCitiesEnglishItem st item = handleItem lib true st item) := by
  refine ⟨by decide, by decide, by decide, ?_⟩
  intro lib st item hty
  rw [handleItem_english, handleCitiesEnglishItem_eq]
  unfold englishStep isValidItem itemType
  simp [hty]

theorem addCity_of_type_ne (lib : Lib) (mode : Match) (type : String) (st : LookupState)
    (item : JsonValue) (h : itemType item ≠ type) : addCity lib mode type st item = st := by
  unfold addCity
  unfold itemType at h
  rw [if_neg h]

theorem addCity_any_of_close (lib : Lib) (type : String) (st : LookupState) (item : JsonValue)
    (c : RelationInfo) (hc : c ∈ st.records)
    (hclose : areCloseCoordinates c (jsonToObject lib item type) = true) :
    addCity lib Match.Any type st item = st := by
  rcases addCity_cases lib Match.Any type st item with h | ⟨-, hfar, -⟩
  · exact h
  · rw [hfar rfl c hc] at hclose
    cases hclose

theorem lazio_rieti_close :
    areCloseCoordinates (jsonToObject sampleLib2 lazioItem "state")
      (jsonToObject sampleLib2 rietiItem "city") = true := by
  rw [areCloseCoordinates_iff]
  exact ⟨⟨42, 42, by decide, by decide, by norm_num⟩, ⟨13, 13, by decide, by decide, by norm_num⟩⟩

/-- C19 (failing input): with 51 IDs in `Match::Any` mode, a first batch answered by a state
item and a second batch answered by a city item at the same coordinates, the city candidate is
skipped as a duplicate of the state record accepted in the earlier batch; alone, the same city
item is accepted. -/
theorem any_mode_drops_city_for_earlier_state :
    LookupRelationInformationForCities sampleLib2 fiftyOneIds Match.Any scriptedGet
        ["state-array", "rieti-array"] = some [jsonToObject sampleLib2 lazioItem "state"] ∧
    json.GetString (json.Get lazioItem ["addresstype"]) = "state" ∧
    json.GetString (json.Get rietiItem ["addresstype"]) = "city" ∧
    areCloseCoordinates (jsonToObject sampleLib2 lazioItem "state")
      (jsonToObject sampleLib2 rietiItem "city") = true ∧
    LookupRelationInformationForCities sampleLib2 [1] Match.Any scriptedGet ["rieti-array"] =
      some [jsonToObject sampleLib2 rietiItem "city"] := by
  refine ⟨?_, by decide, by decide, lazio_rieti_close, by decide⟩
  have hp : primaryDocuments sampleLib2 fiftyOneIds scriptedGet ["state-array", "rieti-array"] =
      [JsonValue.array [lazioItem], JsonValue.array [rietiItem]] := rfl
  have he : englishDocuments sampleLib2 fiftyOneIds scriptedGet ["state-array", "rieti-array"] =
      [] := rfl
  have h1 : handleCitiesResponse sampleLib2 Match.Any (JsonValue.array [lazioItem]) emptyState =
      some (pushRecord emptyState (jsonToObject sampleLib2 lazioItem "state")) := by decide
  have a1 : addCity sampleLib2 Match.Any "city"
      (pushRecord emptyState (jsonToObject sampleLib2 lazioItem "state")) rietiItem =
      pushRecord emptyState (jsonToObject sampleLib2 lazioItem "state") :=
    addCity_any_of_close _ _ _ _ (jsonToObject sampleLib2 lazioItem "state")
      (by simp [pushRecord, emptyState]) lazio_rieti_close
  have a2 : addCity sampleLib2 Match.Any "town"
      (pushRecord emptyState (jsonToObject sampleLib2 lazioItem "state")) rietiItem =
      pushRecord emptyState (jsonToObject sampleLib2 lazioItem "state") :=
    addCity_of_type_ne _ _ _ _ _ (by decide)
  have a3 : addCity sampleLib2 Match.Any "state"
      (pushRecord emptyState (jsonToObject sampleLib2 lazioItem "state")) rietiItem =
      pushRecord emptyState (jsonToObject sampleLib2 lazioItem "state") :=
    addCity_of_type_ne _ _ _ _ _ (by decide)
  have h2 : handleCitiesResponse sampleLib2 Match.Any (JsonValue.array [rietiItem])
      (pushRecord emptyState (jsonToObject sampleLib2 lazioItem "state")) =
      some (pushRecord emptyState (jsonToObject sampleLib2 lazioItem "state")) := by
    simp [handleCitiesResponse, sc_types, citiesTypeLoop, citiesItemLoop, JsonValue.GetArray,
      a1, a2, a3]
  rw [LookupRelationInformationForCities_eq, hp, he]
  simp only [forItems, h1, h2]
  rfl

theorem forItems_invariant {α σ : Type} (body : σ → α → Option σ) (P : σ → Prop)
    (hP : ∀ s x s', P s → body s x = some s' → P s') :
    ∀ (xs : List α) (s s' : σ), P s → forItems body xs s = some s' → P s' := by
  intro xs
  induction xs with
  | nil =>
    intro s s' h hrun
    simp only [forItems, Option.some.injEq] at hrun
    exact hrun ▸ h
  | cons x rest ih =>
    intro s s' h hrun
    simp only [forItems] at hrun
    cases hb : body s x with
    | none => simp [hb] at hrun
    | some s1 =>
      simp only [hb] at hrun
      exact ih s1 s' (hP s x s1 h hb) hrun

theorem emptyState_indexInvariant : IndexInvariant emptyState := by
  constructor
  · intro id i hi
    simp [emptyState, mapAt] at hi
  · intro id hid
    simp [emptyState, idsOf] at hid

theorem pushRecord_indexInvariant (st : LookupState) (r : RelationInfo)
    (h : IndexInvariant st) : IndexInvariant (pushRecord st r) := by
  obtain ⟨hent, hcov⟩ := h
  have hids : idsOf (pushRecord st r).records = idsOf st.records ++ [r.osmId] := by
    simp [pushRecord, idsOf]
  have hlen : (idsOf st.records).length = st.records.length := by simp [idsOf]
  by_cases hc : mapContains st.pendingIdsForEnglishNames r.osmId = true
  · have hpend : (pushRecord st r).pendingIdsForEnglishNames = st.pendingIdsForEnglishNames := by
      simp [pushRecord, mapEmplace, hc]
    constructor
    · intro id i hi
      rw [hpend] at hi
      obtain ⟨h1, h2⟩ := hent id i hi
      have hil : i < (idsOf st.records).length := by
        by_contra hge
        rw [List.getElem?_eq_none (by omega)] at h1
        cases h1
      rw [hids]
      refine ⟨by rw [List.getElem?_append_left hil]; exact h1, fun j hj => ?_⟩
      rw [List.getElem?_append_left (by omega)]
      exact h2 j hj
    · intro id hid
      rw [hpend]
      rw [hids, List.mem_append, List.mem_singleton] at hid
      rcases hid with hid | rfl
      · exact hcov id hid
      · exact hc
  · have hpend : (pushRecord st r).pendingIdsForEnglishNames =
        st.pendingIdsForEnglishNames ++ [(r.osmId, st.records.length)] := by
      simp [pushRecord, mapEmplace, hc]
    have hnot : r.osmId ∉ idsOf st.records := fun hmem => hc (hcov _ hmem)
    constructor
    · intro id i hi
      rw [hpend, mapAt_append_single] at hi
      rw [hids]
      cases hl : mapAt st.pendingIdsForEnglishNames id with
      | some j =>
        simp only [hl, Option.or_some, Option.some.injEq] at hi
        subst hi
        obtain ⟨h1, h2⟩ := hent id j hl
        have hjl : j < (idsOf st.records).length := by
          by_contra hge
          rw [List.getElem?_eq_none (by omega)] at h1
          cases h1
        refine ⟨by rw [List.getElem?_append_left hjl]; exact h1, fun j' hj' => ?_⟩
        rw [List.getElem?_append_left (by omega)]
        exact h2 j' hj'
      | none =>
        simp only [hl, Option.none_or] at hi
        by_cases he : id = r.osmId
        · simp only [he, if_true, Option.some.injEq] at hi
          subst hi
          subst he
          refine ⟨?_, fun j hj => ?_⟩
          · rw [List.getElem?_append_right (by omega), hlen]
            simp
          · rw [List.getElem?_append_left (by omega)]
            intro hcontra
            exact hnot (List.mem_iff_getElem?.2 ⟨j, hcontra⟩)
        · simp [he] at hi
    · intro id hid
      rw [hids, List.mem_append, List.mem_singleton] at hid
      unfold mapContains
      have hm := mapAt_append_single st.pendingIdsForEnglishNames r.osmId id st.records.length
      unfold mapAt at hm
      rw [hpend, hm]
      rcases hid with hid | rfl
      · have := hcov id hid
        unfold mapContains at this
        cases hl : List.lookup id st.pendingIdsForEnglishNames with
        | none => rw [hl] at this; cases this
        | some j => simp
      · cases hl : List.lookup r.osmId st.pendingIdsForEnglishNames with
        | none => simp
        | some j => simp

theorem englishStep_idsOf (valid : JsonValue → Bool) (st s1 : LookupState) (item : JsonValue)
    (h : englishStep valid st item = some s1) :
    s1.pendingIdsForEnglishNames = st.pendingIdsForEnglishNames ∧
    idsOf s1.records = idsOf st.records := by
  obtain ⟨hp, -, hr⟩ := englishStep_spec valid st s1 item h
  refine ⟨hp, ?_⟩
  apply List.ext_getElem?
  intro n
  unfold idsOf
  rw [List.getElem?_map, List.getElem?_map, hr n]
  cases st.records[n]? with
  | none => rfl
  | some r =>
    simp only [Option.map_some', Option.some.injEq]
    split <;> rfl

theorem englishStep_indexInvariant (valid : JsonValue → Bool) (st s1 : LookupState)
    (item : JsonValue) (hinv : IndexInvariant st) (h : englishStep valid st item = some s1) :
    IndexInvariant s1 := by
  obtain ⟨hp, hids⟩ := englishStep_idsOf valid st s1 item h
  unfold IndexInvariant
  rw [hp, hids]
  exact hinv

theorem indexInvariant_inRange (st : LookupState) (h : IndexInvariant st) : InRange st := by
  intro id i hi
  obtain ⟨h1, -⟩ := h.1 id i hi
  by_contra hge
  rw [List.getElem?_eq_none (by simp [idsOf]; omega)] at h1
  cases h1

theorem handleItem_primary_push (lib : Lib) (st : LookupState) (item : JsonValue) :
    handleItem lib false st item = some st ∨
      handleItem lib false st item = some (pushRecord st (itemRecord lib item)) := by
  rw [handleItem_primary]
  by_cases hc : (isValidItem item && !mapContains st.pendingIdsForEnglishNames (itemId item)) = true
  · right
    rw [if_pos hc]
    simp only [Bool.and_eq_true, Bool.not_eq_true'] at hc
    simp [pushRecord, mapEmplace, itemRecord_osmId, hc.2]
  · left
    rw [if_neg hc]

theorem handleItem_indexInvariant (lib : Lib) (isEnglish : Bool) (st : LookupState)
    (item : JsonValue) (hinv : IndexInvariant st) :
    ∃ st', handleItem lib isEnglish st item = some st' ∧ IndexInvariant st' := by
  cases isEnglish with
  | true =>
    rw [handleItem_english]
    obtain ⟨s1, hs1⟩ := englishStep_total isValidItem st item (indexInvariant_inRange st hinv)
    exact ⟨s1, hs1, englishStep_indexInvariant _ st s1 item hinv hs1⟩
  | false =>
    rcases handleItem_primary_push lib st item with h | h
    · exact ⟨st, h, hinv⟩
    · exact ⟨_, h, pushRecord_indexInvariant st _ hinv⟩

theorem addCity_indexInvariant (lib : Lib) (mode : Match) (type : String) (st : LookupState)
    (item : JsonValue) (hinv : IndexInvariant st) :
    IndexInvariant (addCity lib mode type st item) := by
  rcases addCity_cases lib mode type st item with he | ⟨-, -, he⟩
  · rw [he]; exact hinv
  · rw [he]; exact pushRecord_indexInvariant st _ hinv

theorem handleCitiesEnglishItem_indexInvariant (st : LookupState) (item : JsonValue)
    (hinv : IndexInvariant st) :
    ∃ st', handleCitiesEnglishItem st item = some st' ∧ IndexInvariant st' := by
  rw [handleCitiesEnglishItem_eq]
  obtain ⟨s1, hs1⟩ := englishStep_total _ st item (indexInvariant_inRange st hinv)
  exact ⟨s1, hs1, englishStep_indexInvariant _ st s1 item hinv hs1⟩

theorem handleResponse_docs_indexInvariant (lib : Lib) (isEnglish : Bool)
    (documents : List JsonValue) (st st' : LookupState) (hinv : IndexInvariant st)
    (h : forItems (fun s d => handleResponse lib isEnglish d s) documents st = some st') :
    IndexInvariant st' := by
  rw [handleResponse_eq] at h
  obtain ⟨-, hrun⟩ := forItems_arrays_of_some _ documents st st' h
  refine forItems_invariant (handleItem lib isEnglish) IndexInvariant ?_ _ st st' hinv hrun
  intro s x s' hs hb
  obtain ⟨s2, hs2, hinv2⟩ := handleItem_indexInvariant lib isEnglish s x hs
  rw [hb] at hs2
  cases hs2
  exact hinv2

theorem citiesEnglish_docs_indexInvariant (documents : List JsonValue) (st st' : LookupState)
    (hinv : IndexInvariant st)
    (h : forItems (fun s d => handleCitiesEnglishResponse d s) documents st = some st') :
    IndexInvariant st' := by
  rw [handleCitiesEnglishResponse_eq] at h
  obtain ⟨-, hrun⟩ := forItems_arrays_of_some _ documents st st' h
  refine forItems_invariant handleCitiesEnglishItem IndexInvariant ?_ _ st st' hinv hrun
  intro s x s' hs hb
  obtain ⟨s2, hs2, hinv2⟩ := handleCitiesEnglishItem_indexInvariant s x hs
  rw [hb] at hs2
  cases hs2
  exact hinv2

theorem run_bind_some {σ κ : Type} (first : Option σ) (second : σ → Option σ) (kfin k' : κ)
    (s : σ) (h : (first.bind fun s1 => (second s1).map fun s2 => (kfin, s2)) = some (k', s)) :
    ∃ s1, first = some s1 ∧ second s1 = some s := by
  cases first with
  | none => simp at h
  | some s1 =>
    simp only [Option.some_bind] at h
    cases hs : second s1 with
    | none => simp [hs] at h
    | some s2 =>
      simp only [hs, Option.map_some', Option.some.injEq, Prod.mk.injEq] at h
      exact ⟨s1, rfl, by rw [hs, h.2]⟩

theorem indexInvariant_records (st : LookupState) (hinv : IndexInvariant st) (id : OsmId)
    (i : Nat) (hi : mapAt st.pendingIdsForEnglishNames id = some i) :
    i < st.records.length ∧
      (∃ r, st.records[i]? = some r ∧ r.osmId = id) ∧
      ∀ (j : Nat) (r' : RelationInfo), j < i → st.records[j]? = some r' → r'.osmId ≠ id := by
  obtain ⟨h1, h2⟩ := hinv.1 id i hi
  refine ⟨indexInvariant_inRange st hinv id i hi, ?_, ?_⟩
  · unfold idsOf at h1
    rw [List.getElem?_map] at h1
    cases hr : st.records[i]? with
    | none => simp [hr] at h1
    | some r =>
      simp only [hr, Option.map_some', Option.some.injEq] at h1
      exact ⟨r, rfl, h1⟩
  · intro j r' hj hr' hid
    apply h2 j hj
    unfold idsOf
    rw [List.getElem?_map, hr']
    simp [hid]

/-- C24: the index-map invariant of both lookups. It holds in the start state and is kept by
every step of every loop (`handleItem` in either pass, the candidate step of the cities first
pass, the cities English step), so it holds at every point; under it every entry `id -> i` has
`i < records.size()`, `records[i].osmId == id` and no earlier slot with that ID, and the
English steps, whose only fallible accesses are `records.at(map.at(id))`, always return. Hence
both lookups return for every ID list and all array responses, and leave a state that satisfies
the invariant. -/
theorem index_map_invariant :
    IndexInvariant emptyState ∧
    (∀ (lib : Lib) (isEnglish : Bool) (st : LookupState) (item : JsonValue), IndexInvariant st →
      ∃ st', handleItem lib isEnglish st item = some st' ∧ IndexInvariant st') ∧
    (∀ (lib : Lib) (mode : Match) (type : String) (st : LookupState) (item : JsonValue),
      IndexInvariant st → IndexInvariant (addCity lib mode type st item)) ∧
    (∀ (st : LookupState) (item : JsonValue), IndexInvariant st →
      ∃ st', handleCitiesEnglishItem st item = some st' ∧ IndexInvariant st') ∧
    (∀ (st : LookupState), IndexInvariant st →
      ∀ (id : OsmId) (i : Nat), mapAt st.pendingIdsForEnglishNames id = some i →
        i < st.records.length ∧
        (∃ r, st.records[i]? = some r ∧ r.osmId = id) ∧
        ∀ (j : Nat) (r' : RelationInfo), j < i → st.records[j]? = some r' → r'.osmId ≠ id) ∧
    (∀ (κ : Type) (lib : Lib) (relationIds : OsmIds) (Get : κ → String → String × κ) (k : κ),
      ((∀ d ∈ primaryDocuments lib relationIds Get k, d.IsArray = true) →
        (∀ d ∈ englishDocuments lib relationIds Get k, d.IsArray = true) →
        (∃ result, LookupRelationInformation lib relationIds Get k = some result) ∧
        ∀ mode, ∃ result,
          LookupRelationInformationForCities lib relationIds mode Get k = some result) ∧
      (∀ k' st, LookupRelationInformationRun lib relationIds Get k = some (k', st) →
        IndexInvariant st) ∧
      (∀ mode k' st, LookupRelationInformationForCitiesRun lib relationIds mode Get k =
        some (k', st) → IndexInvariant st)) := by
  refine ⟨emptyState_indexInvariant, handleItem_indexInvariant, addCity_indexInvariant,
    handleCitiesEnglishItem_indexInvariant, indexInvariant_records, ?_⟩
  intro κ lib relationIds Get k
  refine ⟨?_, ?_, ?_⟩
  · intro h1 h2
    exact ⟨lookup_total lib relationIds Get k h1 h2,
      fun mode => cities_total lib relationIds mode Get k h1 h2⟩
  · intro k' st h
    rw [LookupRelationInformationRun_eq] at h
    obtain ⟨s1, hs1, hs2⟩ := run_bind_some _ _ _ _ _ h
    exact handleResponse_docs_indexInvariant lib true _ s1 st
      (handleResponse_docs_indexInvariant lib false _ emptyState s1 emptyState_indexInvariant hs1)
      hs2
  · intro mode k' st h
    rw [LookupRelationInformationForCitiesRun_eq] at h
    obtain ⟨s1, hs1, hs2⟩ := run_bind_some _ _ _ _ _ h
    have hinv1 : IndexInvariant s1 :=
      forItems_cities_invariant lib mode IndexInvariant
        (fun type st item hst => addCity_indexInvariant lib mode type st item hst)
        _ emptyState s1 emptyState_indexInvariant hs1
    exact citiesEnglish_docs_indexInvariant _ s1 st hinv1 hs2

theorem addCity_any_of_far (lib : Lib) (type : String) (st : LookupState) (item : JsonValue)
    (htype : itemType item = type)
    (hfar : ∀ c ∈ st.records, areCloseCoordinates c (jsonToObject lib item type) = false) :
    addCity lib Match.Any type st item = pushRecord st (jsonToObject lib item type) := by
  rcases addCity_cases lib Match.Any type st item with h | ⟨-, -, h⟩
  · unfold addCity at h ⊢
    unfold itemType at htype
    have hany : (st.records.any fun c => areCloseCoordinates c (jsonToObject lib item type)) =
        false := by
      rw [List.any_eq_false]
      intro c hc
      simp [hfar c hc]
    simp only [htype, if_true, hany, Bool.not_false] at h ⊢
    simp [pushRecord]
  · exact h

theorem north_south_latitudes :
    (jsonToObject boundaryLib northItem "city").latitude = Double.val 1 ∧
    (jsonToObject boundaryLib southItem "city").latitude = Double.val (1 / 2 ^ 54) ∧
    (jsonToObject boundaryLib northItem "city").longitude = Double.val 0 ∧
    (jsonToObject boundaryLib southItem "city").longitude = Double.val 0 :=
  ⟨rfl, rfl, rfl, rfl⟩

theorem north_south_not_close :
    areCloseCoordinates (jsonToObject boundaryLib northItem "city")
      (jsonToObject boundaryLib southItem "city") = false := by
  rw [Bool.eq_false_iff]
  intro h
  rw [areCloseCoordinates_iff] at h
  obtain ⟨⟨a, b, ha, hb, hab⟩, -⟩ := h
  rw [north_south_latitudes.1] at ha
  rw [north_south_latitudes.2.1] at hb
  cases ha
  cases hb
  norm_num [abs_of_pos] at hab
theorem roundNearestEven_below_one :
    Double.roundNearestEven (1 - 1 / 2 ^ 54) = Double.val 1 := by
  have hpos : (0 : ℚ) < |1 - 1 / 2 ^ 54| := by norm_num [abs_of_pos]
  have hlog : Int.log 2 |(1 : ℚ) - 1 / 2 ^ 54| = -1 := by
    have h1 : (-1 : ℤ) ≤ Int.log 2 |(1 : ℚ) - 1 / 2 ^ 54| := by
      rw [← Int.zpow_le_iff_le_log (by norm_num) hpos]
      norm_num [abs_of_pos]
    have h2 : Int.log 2 |(1 : ℚ) - 1 / 2 ^ 54| < 0 := by
      rw [← Int.lt_zpow_iff_log_lt (by norm_num) hpos]
      norm_num [abs_of_pos]
    omega
  have hulp : Double.ulp (1 - 1 / 2 ^ 54) = 1 / 2 ^ 53 := by
    unfold Double.ulp Double.exponent
    rw [hlog]
    norm_num
  have hdiv : ((1 : ℚ) - 1 / 2 ^ 54) / (1 / 2 ^ 53) = 2 ^ 53 - 1 / 2 := by norm_num
  have hround : Double.roundHalfEven (2 ^ 53 - 1 / 2) = 2 ^ 53 := by
    have h1 := roundHalfEven_le_of_le (2 ^ 53 - 1 / 2) (2 ^ 53) (by norm_num)
    have h2 := roundHalfEven_le_odd (2 ^ 53 - 1 / 2) (2 ^ 53 - 1) (by norm_num)
    have h3 : ¬ Double.roundHalfEven (2 ^ 53 - 1 / 2) ≤ 2 ^ 53 - 1 := by
      rw [h2]
      norm_num
    omega
  unfold Double.roundNearestEven
  simp only [hulp, hdiv, hround]
  norm_num
theorem boundary_lookup :
    LookupRelationInformationForCities boundaryLib [1, 2] Match.Any scriptedGet
        ["boundary-array"] =
      some [jsonToObject boundaryLib northItem "city",
        jsonToObject boundaryLib southItem "city"] := by
  have hp : primaryDocuments boundaryLib [1, 2] scriptedGet ["boundary-array"] =
      [JsonValue.array [northItem, southItem]] := rfl
  have he : englishDocuments boundaryLib [1, 2] scriptedGet ["boundary-array"] = [] := rfl
  have a1 : addCity boundaryLib Match.Any "city" emptyState northItem =
      pushRecord emptyState (jsonToObject boundaryLib northItem "city") :=
    addCity_any_of_far _ _ _ _ (by decide) (by simp [emptyState])
  have a2 : addCity boundaryLib Match.Any "city"
      (pushRecord emptyState (jsonToObject boundaryLib northItem "city")) southItem =
      pushRecord (pushRecord emptyState (jsonToObject boundaryLib northItem "city"))
        (jsonToObject boundaryLib southItem "city") :=
    addCity_any_of_far _ _ _ _ (by decide) (by
      intro c hc
      have : c = jsonToObject boundaryLib northItem "city" := by
        simpa [pushRecord, emptyState] using hc
      rw [this]
      exact north_south_not_close)
  have a3 : ∀ (type : String) (st : LookupState) (item : JsonValue), type ≠ "city" →
      (item = northItem ∨ item = southItem) → addCity boundaryLib Match.Any type st item = st := by
    intro type st item ht hitem
    apply addCity_of_type_ne
    rcases hitem with rfl | rfl
    · exact fun h => ht (h.symm.trans (by decide))
    · exact fun h => ht (h.symm.trans (by decide))
  have h1 : handleCitiesResponse boundaryLib Match.Any (JsonValue.array [northItem, southItem])
      emptyState =
      some (pushRecord (pushRecord emptyState (jsonToObject boundaryLib northItem "city"))
        (jsonToObject boundaryLib southItem "city")) := by
    simp [handleCitiesResponse, sc_types, citiesTypeLoop, citiesItemLoop, JsonValue.GetArray,
      a1, a2, a3]
  rw [LookupRelationInformationForCities_eq, hp, he]
  simp only [forItems, h1]
  rfl

/-- C3 (counterexample): in `Match::Any` mode a batch with two city items at longitude 0 and at
the latitudes 1 and `2^-54` gives both records, although the latitudes differ by less than 1.0
and the longitudes are equal: the difference `1 - 2^-54` is rounded to the double 1.0, which is
not below 1. -/
theorem any_mode_keeps_records_within_one_degree :
    LookupRelationInformationForCities boundaryLib [1, 2] Match.Any scriptedGet
        ["boundary-array"] =
      some [jsonToObject boundaryLib northItem "city",
        jsonToObject boundaryLib southItem "city"] ∧
    (jsonToObject boundaryLib northItem "city").latitude = Double.val 1 ∧
    (jsonToObject boundaryLib southItem "city").latitude = Double.val (1 / 2 ^ 54) ∧
    (jsonToObject boundaryLib northItem "city").longitude = Double.val 0 ∧
    (jsonToObject boundaryLib southItem "city").longitude = Double.val 0 ∧
    |(1 : ℚ) - 1 / 2 ^ 54| < 1 ∧ |(0 : ℚ) - 0| < 1 ∧
    (Double.val 1).sub (Double.val (1 / 2 ^ 54)) = Double.val 1 ∧
    areCloseCoordinates (jsonToObject boundaryLib northItem "city")
      (jsonToObject boundaryLib southItem "city") = false ∧
    ¬ (∀ result, LookupRelationInformationForCities boundaryLib [1, 2] Match.Any scriptedGet
        ["boundary-array"] = some result →
      ∀ (i j : Nat) (a b : RelationInfo), i ≠ j → result[i]? = some a → result[j]? = some b →
        ¬ ((∃ x y : ℚ, a.latitude = .val x ∧ b.latitude = .val y ∧ |x - y| < 1) ∧
          (∃ x y : ℚ, a.longitude = .val x ∧ b.longitude = .val y ∧ |x - y| < 1))) := by
  refine ⟨boundary_lookup, rfl, rfl, rfl, rfl, by norm_num [abs_of_pos], by norm_num,
    roundNearestEven_below_one, north_south_not_close, ?_⟩
  intro h
  refine h _ boundary_lookup 0 1 _ _ (by decide) rfl rfl ⟨⟨1, 1 / 2 ^ 54, rfl, rfl, ?_⟩,
    ⟨0, 0, rfl, rfl, by norm_num⟩⟩
  norm_num [abs_of_pos]

theorem forEachChunkFrom_traced {κ σ : Type} (relationIds : OsmIds)
    (fn : OsmIds → κ × σ → Option (κ × σ)) (fnTraced : OsmIds → κ × σ → κ × Option σ)
    (hfn : ∀ chunk s, fn chunk s = completed (fnTraced chunk s)) :
    ∀ (fuel itBegin : Nat) (s : κ × σ),
      forEachChunkFrom relationIds fn fuel itBegin s =
        completed (forEachChunkFromTraced relationIds fnTraced fuel itBegin s) := by
  intro fuel
  induction fuel with
  | zero => intro itBegin s; rfl
  | succ fuel ih =>
    intro itBegin s
    unfold forEachChunkFrom forEachChunkFromTraced
    by_cases hlt : itBegin < relationIds.length
    · simp only [hlt, if_true, hfn]
      rcases hres : fnTraced (List.take (min (itBegin + sc_chunkSize) relationIds.length - itBegin)
          (List.drop itBegin relationIds)) s with ⟨k, _ | s'⟩
      · rfl
      · simp only [completed]
        exact ih _ _
    · simp only [hlt, if_false]
      rfl

theorem dispatchChunk_traced {κ σ : Type} (lib : Lib) (Get : κ → String → String × κ)
    (responseHandler : JsonValue → σ → Option σ) (language : Option String) (chunk : OsmIds)
    (st : κ × σ) :
    dispatchChunk lib Get responseHandler language chunk st =
      completed (dispatchChunkTraced lib Get responseHandler language chunk st) := by
  unfold dispatchChunk dispatchChunkTraced
  simp only []
  by_cases hempty : (Get st.1 (formatRelationLookupRequest chunk language)).1 = ""
  · simp only [hempty, if_true]
    rfl
  · simp only [hempty, if_false]
    cases responseHandler ((lib.Parse (Get st.1 (formatRelationLookupRequest chunk language)).1).getD
      JsonValue.null) st.2 <;> rfl

theorem splitInChunksAndParseResponses_traced {κ σ : Type} (lib : Lib) (relationIds : OsmIds)
    (Get : κ → String → String × κ) (responseHandler : JsonValue → σ → Option σ)
    (language : Option String) (st : κ × σ) :
    splitInChunksAndParseResponses lib relationIds Get responseHandler language st =
      completed (splitInChunksAndParseResponsesTraced lib relationIds Get responseHandler
        language st) :=
  forEachChunkFrom_traced relationIds _ _
    (fun chunk s => dispatchChunk_traced lib Get responseHandler language chunk s) _ _ _

theorem LookupRelationInformationRun_traced {κ : Type} (lib : Lib) (relationIds : OsmIds)
    (Get : κ → String → String × κ) (k : κ) :
    LookupRelationInformationRun lib relationIds Get k =
      completed (LookupRelationInformationTraced lib relationIds Get k) := by
  unfold LookupRelationInformationRun LookupRelationInformationTraced
  rw [splitInChunksAndParseResponses_traced]
  rcases splitInChunksAndParseResponsesTraced lib relationIds Get (handleResponse lib false) none
    (k, emptyState) with ⟨k1, _ | st⟩
  · rfl
  · simp only [completed]
    exact splitInChunksAndParseResponses_traced _ _ _ _ _ _

theorem LookupRelationInformationForCitiesRun_traced {κ : Type} (lib : Lib)
    (relationIds : OsmIds) (mode : Match) (Get : κ → String → String × κ) (k : κ) :
    LookupRelationInformationForCitiesRun lib relationIds mode Get k =
      completed (LookupRelationInformationForCitiesTraced lib relationIds mode Get k) := by
  unfold LookupRelationInformationForCitiesRun LookupRelationInformationForCitiesTraced
  rw [splitInChunksAndParseResponses_traced]
  rcases splitInChunksAndParseResponsesTraced lib relationIds Get (handleCitiesResponse lib mode)
    none (k, emptyState) with ⟨k1, _ | st⟩
  · rfl
  · simp only [completed]
    exact splitInChunksAndParseResponses_traced _ _ _ _ _ _

set_option maxRecDepth 100000 in
theorem fiftyOneIds_requests :
    formatRelationLookupRequest (fiftyOneIds.take 50) none =
      "format=json&osm_ids=R1,R2,R3,R4,R5,R6,R7,R8,R9,R10,R11,R12,R13,R14,R15,R16,R17,R18,R19,R20,R21,R22,R23,R24,R25,R26,R27,R28,R29,R30,R31,R32,R33,R34,R35,R36,R37,R38,R39,R40,R41,R42,R43,R44,R45,R46,R47,R48,R49,R50" ∧
    requestsOf fiftyOneIds none ++ requestsOf fiftyOneIds (some "en") =
      ["format=json&osm_ids=R1,R2,R3,R4,R5,R6,R7,R8,R9,R10,R11,R12,R13,R14,R15,R16,R17,R18,R19,R20,R21,R22,R23,R24,R25,R26,R27,R28,R29,R30,R31,R32,R33,R34,R35,R36,R37,R38,R39,R40,R41,R42,R43,R44,R45,R46,R47,R48,R49,R50",
        "format=json&osm_ids=R51",
        "format=json&osm_ids=R1,R2,R3,R4,R5,R6,R7,R8,R9,R10,R11,R12,R13,R14,R15,R16,R17,R18,R19,R20,R21,R22,R23,R24,R25,R26,R27,R28,R29,R30,R31,R32,R33,R34,R35,R36,R37,R38,R39,R40,R41,R42,R43,R44,R45,R46,R47,R48,R49,R50&accept-language=en",
        "format=json&osm_ids=R51&accept-language=en"] := by
  decide

/-- C11 (failing input): for the 51 IDs 1..51 (two chunks, so four requests are due) and a
transport whose first response is a JSON object instead of an array, both lookups stop in the
handler of that response: there is no result and one request has been sent, the one of the
first chunk without a language parameter, not four. With an empty first response, which the
dispatcher skips, the four requests are sent. -/
theorem non_array_response_stops_the_requests :
    2 * ((fiftyOneIds.length + 49) / 50) = 4 ∧
    LookupRelationInformationTraced sampleLib fiftyOneIds (recordingGet scriptedGet)
        (["error-object", "city-array"], []) =
      ((["city-array"], [formatRelationLookupRequest (fiftyOneIds.take 50) none]), none) ∧
    LookupRelationInformationForCitiesTraced sampleLib fiftyOneIds Match.Best
        (recordingGet scriptedGet) (["error-object", "city-array"], []) =
      ((["city-array"], [formatRelationLookupRequest (fiftyOneIds.take 50) none]), none) ∧
    LookupRelationInformationForCitiesTraced sampleLib fiftyOneIds Match.Any
        (recordingGet scriptedGet) (["error-object", "city-array"], []) =
      ((["city-array"], [formatRelationLookupRequest (fiftyOneIds.take 50) none]), none) ∧
    (LookupRelationInformationTraced sampleLib fiftyOneIds (recordingGet scriptedGet)
      (["error-object", "city-array"], [])).1.2.length = 1 ∧
    LookupRelationInformation sampleLib fiftyOneIds (recordingGet scriptedGet)
      (["error-object", "city-array"], []) = none ∧
    LookupRelationInformationForCities sampleLib fiftyOneIds Match.Best
      (recordingGet scriptedGet) (["error-object", "city-array"], []) = none ∧
    LookupRelationInformationForCities sampleLib fiftyOneIds Match.Any
      (recordingGet scriptedGet) (["error-object", "city-array"], []) = none ∧
    (LookupRelationInformationTraced sampleLib fiftyOneIds (recordingGet scriptedGet)
      (["", "city-array"], [])).1.2 =
        requestsOf fiftyOneIds none ++ requestsOf fiftyOneIds (some "en") ∧
    (LookupRelationInformationTraced sampleLib fiftyOneIds (recordingGet scriptedGet)
      (["", "city-array"], [])).1.2.length = 4 ∧
    formatRelationLookupRequest (fiftyOneIds.take 50) none =
      "format=json&osm_ids=R1,R2,R3,R4,R5,R6,R7,R8,R9,R10,R11,R12,R13,R14,R15,R16,R17,R18,R19,R20,R21,R22,R23,R24,R25,R26,R27,R28,R29,R30,R31,R32,R33,R34,R35,R36,R37,R38,R39,R40,R41,R42,R43,R44,R45,R46,R47,R48,R49,R50" ∧
    requestsOf fiftyOneIds none ++ requestsOf fiftyOneIds (some "en") =
      ["format=json&osm_ids=R1,R2,R3,R4,R5,R6,R7,R8,R9,R10,R11,R12,R13,R14,R15,R16,R17,R18,R19,R20,R21,R22,R23,R24,R25,R26,R27,R28,R29,R30,R31,R32,R33,R34,R35,R36,R37,R38,R39,R40,R41,R42,R43,R44,R45,R46,R47,R48,R49,R50",
        "format=json&osm_ids=R51",
        "format=json&osm_ids=R1,R2,R3,R4,R5,R6,R7,R8,R9,R10,R11,R12,R13,R14,R15,R16,R17,R18,R19,R20,R21,R22,R23,R24,R25,R26,R27,R28,R29,R30,R31,R32,R33,R34,R35,R36,R37,R38,R39,R40,R41,R42,R43,R44,R45,R46,R47,R48,R49,R50&accept-language=en",
        "format=json&osm_ids=R51&accept-language=en"] ∧
    (∀ (κ : Type) (lib : Lib) (relationIds : OsmIds) (Get : κ → String → String × κ) (k : κ)
      (mode : Match),
      LookupRelationInformationRun lib relationIds Get k =
          completed (LookupRelationInformationTraced lib relationIds Get k) ∧
        LookupRelationInformationForCitiesRun lib relationIds mode Get k =
          completed (LookupRelationInformationForCitiesTraced lib relationIds mode Get k)) := by
  refine ⟨by decide, rfl, rfl, rfl, by decide, by decide, by decide, by decide, rfl, by decide,
    fiftyOneIds_requests.1, fiftyOneIds_requests.2, ?_⟩
  intro κ lib relationIds Get k mode
  exact ⟨LookupRelationInformationRun_traced lib relationIds Get k,
    LookupRelationInformationForCitiesRun_traced lib relationIds mode Get k⟩

end nominatim

namespace overpass

open nominatim

theorem cityDetailsStep_eq (GetDouble : JsonValue → Double) (features : GeoProtoTaggedFeatures)
    (element : JsonValue) :
    cityDetailsStep GetDouble features element =
      if isHotelOrMuseumNode element then features ++ [featureOf GetDouble element]
      else features := by
  unfold cityDetailsStep isHotelOrMuseumNode featureOf
  by_cases hn : json.GetString (json.Get element ["type"]) = "node"
  · cases ht : json.Get element ["tags"] with
    | object members =>
      cases hl : members.lookup "tourism" with
      | none => simp [hn, JsonValue.IsObject, JsonValue.HasMember, hl]
      | some v =>
        have hget : json.Get (JsonValue.object members) ["tourism"] = v := by
          simp [json.Get, json.member, hl]
        cases v with
        | str s =>
          by_cases hs : s = "hotel" ∨ s = "museum"
          · have hs' : ¬ (¬ s = "hotel" ∧ ¬ s = "museum") := by tauto
            simp [hn, JsonValue.IsObject, JsonValue.HasMember, hl, hget, json.GetString, hs, hs']
          · have hs' : ¬ s = "hotel" ∧ ¬ s = "museum" := by tauto
            simp [hn, JsonValue.IsObject, JsonValue.HasMember, hl, hget, json.GetString, hs, hs']
        | null => simp [hn, JsonValue.IsObject, JsonValue.HasMember, hl, hget, json.GetString]
        | bool b => simp [hn, JsonValue.IsObject, JsonValue.HasMember, hl, hget, json.GetString]
        | int i => simp [hn, JsonValue.IsObject, JsonValue.HasMember, hl, hget, json.GetString]
        | number x => simp [hn, JsonValue.IsObject, JsonValue.HasMember, hl, hget, json.GetString]
        | array xs => simp [hn, JsonValue.IsObject, JsonValue.HasMember, hl, hget, json.GetString]
        | object ms => simp [hn, JsonValue.IsObject, JsonValue.HasMember, hl, hget, json.GetString]
    | null => simp [hn, JsonValue.IsObject]
    | bool b => simp [hn, JsonValue.IsObject]
    | int i => simp [hn, JsonValue.IsObject]
    | number x => simp [hn, JsonValue.IsObject]
    | str x => simp [hn, JsonValue.IsObject]
    | array xs => simp [hn, JsonValue.IsObject]
  · simp [hn]

theorem foldl_cityDetailsStep (GetDouble : JsonValue → Double) :
    ∀ (elements : List JsonValue) (features : GeoProtoTaggedFeatures),
      elements.foldl (cityDetailsStep GetDouble) features =
        features ++ (elements.filter isHotelOrMuseumNode).map (featureOf GetDouble) := by
  intro elements
  induction elements with
  | nil => intro features; simp
  | cons element rest ih =>
    intro features
    rw [List.foldl_cons, ih, cityDetailsStep_eq]
    by_cases hk : isHotelOrMuseumNode element = true
    · simp [hk]
    · simp [hk]

theorem ExtractCityDetails_of_elements (lib : Lib) (GetDouble : JsonValue → Double)
    (jsonText : String) (members : List (String × JsonValue)) (elements : List JsonValue)
    (htext : jsonText ≠ "") (hparse : lib.Parse jsonText = some (JsonValue.object members))
    (hel : members.lookup "elements" = some (JsonValue.array elements)) :
    ExtractCityDetails lib GetDouble jsonText =
      some ((elements.filter isHotelOrMuseumNode).map (featureOf GetDouble)) := by
  unfold ExtractCityDetails
  simp [htext, hparse, JsonValue.IsObject, JsonValue.HasMember, JsonValue.index, hel,
    JsonValue.GetArray, foldl_cityDetailsStep]

theorem isHotelOrMuseumNode_iff (element : JsonValue) :
    isHotelOrMuseumNode element = true ↔
      json.GetString (json.Get element ["type"]) = "node" ∧
      ∃ members, json.Get element ["tags"] = JsonValue.object members ∧
        (members.lookup "tourism" = some (JsonValue.str "hotel") ∨
          members.lookup "tourism" = some (JsonValue.str "museum")) := by
  unfold isHotelOrMuseumNode
  rw [Bool.and_eq_true, decide_eq_true_eq]
  constructor
  · rintro ⟨hn, hm⟩
    refine ⟨hn, ?_⟩
    cases ht : json.Get element ["tags"] with
    | object members =>
      rw [ht] at hm
      cases hl : members.lookup "tourism" with
      | none => simp [hl] at hm
      | some v =>
        cases v with
        | str s =>
          simp only [hl, decide_eq_true_eq] at hm
          refine ⟨members, rfl, ?_⟩
          rcases hm with rfl | rfl
          · exact Or.inl hl
          · exact Or.inr hl
        | null => simp [hl] at hm
        | bool b => simp [hl] at hm
        | int i => simp [hl] at hm
        | number x => simp [hl] at hm
        | array xs => simp [hl] at hm
        | object ms => simp [hl] at hm
    | null => simp [ht] at hm
    | bool b => simp [ht] at hm
    | int i => simp [ht] at hm
    | number x => simp [ht] at hm
    | str x => simp [ht] at hm
    | array xs => simp [ht] at hm
  · rintro ⟨hn, members, ht, hl⟩
    refine ⟨hn, ?_⟩
    rw [ht]
    rcases hl with hl | hl <;> simp [hl]

theorem setTagIfPresent_tags (tags : JsonValue) (key : String) (feature : GeoProtoTaggedFeature)
    (hnew : feature.tags.lookup key = none) :
    (setTagIfPresent tags key feature).tags = feature.tags ++ optionalTag tags key := by
  unfold setTagIfPresent optionalTag
  by_cases hname : json.GetString (json.Get tags [key]) = ""
  · by_cases hm : tags.HasMember key = true <;> simp [hm, hname]
  · have hm : tags.HasMember key = true := by
      cases tags with
      | object members =>
        cases hl : members.lookup key with
        | none => simp [json.Get, json.member, hl, json.GetString] at hname
        | some v => simp [JsonValue.HasMember, hl]
      | null => simp [json.Get, json.member, json.GetString] at hname
      | bool b => simp [json.Get, json.member, json.GetString] at hname
      | int i => simp [json.Get, json.member, json.GetString] at hname
      | number x => simp [json.Get, json.member, json.GetString] at hname
      | str x => simp [json.Get, json.member, json.GetString] at hname
      | array xs => simp [json.Get, json.member, json.GetString] at hname
    simp [hm, hname, tagsSet, hnew]

theorem setTagIfPresent_position (tags : JsonValue) (key : String)
    (feature : GeoProtoTaggedFeature) :
    (setTagIfPresent tags key feature).latitude = feature.latitude ∧
    (setTagIfPresent tags key feature).longitude = feature.longitude := by
  unfold setTagIfPresent
  by_cases hm : tags.HasMember key = true
  · by_cases hname : json.GetString (json.Get tags [key]) = "" <;> simp [hm, hname]
  · simp [hm]

theorem optionalTag_lookup_ne (tags : JsonValue) (key other : String) (h : other ≠ key) :
    (optionalTag tags key).lookup other = none := by
  unfold optionalTag
  have hb : (other == key) = false := by simpa using h
  by_cases hname : json.GetString (json.Get tags [key]) = ""
  · simp [hname]
  · simp [hname, List.lookup, hb]

theorem makeFeature_tags (GetDouble : JsonValue → Double) (element tags : JsonValue)
    (tourismValue : String) :
    (makeFeature GetDouble element tags tourismValue).tags =
      [("tourism", tourismValue)] ++ optionalTag tags "name" ++ optionalTag tags "name:en" := by
  unfold makeFeature
  simp only []
  have h0 : tagsSet [] "tourism" tourismValue = [("tourism", tourismValue)] := by
    simp [tagsSet]
  rw [h0]
  have h1 := setTagIfPresent_tags tags "name"
    { latitude := GetDouble (json.Get element ["lat"])
      longitude := GetDouble (json.Get element ["lon"])
      tags := [("tourism", tourismValue)] } rfl
  have h2 := setTagIfPresent_tags tags "name:en"
    (setTagIfPresent tags "name"
      { latitude := GetDouble (json.Get element ["lat"])
        longitude := GetDouble (json.Get element ["lon"])
        tags := [("tourism", tourismValue)] })
    (by
      rw [h1, List.lookup_append, optionalTag_lookup_ne tags "name" "name:en" (by decide)]
      rfl)
  rw [h2, h1]

/-- C14: for every well-formed Overpass response with an `elements` array,
`ExtractCityDetails` returns, in document order, one feature for each element that is a node
whose `tags` object carries `tourism` equal to `hotel` or `museum`, and nothing for any other
element. -/
theorem ExtractCityDetails_keeps_hotel_and_museum_nodes (lib : Lib)
    (GetDouble : JsonValue → Double) (jsonText : String) (members : List (String × JsonValue))
    (elements : List JsonValue) (htext : jsonText ≠ "")
    (hparse : lib.Parse jsonText = some (JsonValue.object members))
    (hel : members.lookup "elements" = some (JsonValue.array elements)) :
    ∃ features, ExtractCityDetails lib GetDouble jsonText = some features ∧
      features = (elements.filter isHotelOrMuseumNode).map (featureOf GetDouble) ∧
      features.length = (elements.filter isHotelOrMuseumNode).length ∧
      (∀ element, isHotelOrMuseumNode element = true ↔
        json.GetString (json.Get element ["type"]) = "node" ∧
        ∃ tags, json.Get element ["tags"] = JsonValue.object tags ∧
          (tags.lookup "tourism" = some (JsonValue.str "hotel") ∨
            tags.lookup "tourism" = some (JsonValue.str "museum"))) ∧
      (∀ element, (featureOf GetDouble element).latitude = GetDouble (json.Get element ["lat"]) ∧
        (featureOf GetDouble element).longitude = GetDouble (json.Get element ["lon"]) ∧
        (featureOf GetDouble element).tags.lookup "tourism" =
          some (json.GetString (json.Get (json.Get element ["tags"]) ["tourism"]))) := by
  refine ⟨_, ExtractCityDetails_of_elements lib GetDouble jsonText members elements htext hparse hel,
    rfl, by simp, isHotelOrMuseumNode_iff, ?_⟩
  intro element
  refine ⟨?_, ?_, ?_⟩
  · unfold featureOf makeFeature
    simp only []
    rw [(setTagIfPresent_position _ _ _).1, (setTagIfPresent_position _ _ _).1]
  · unfold featureOf makeFeature
    simp only []
    rw [(setTagIfPresent_position _ _ _).2, (setTagIfPresent_position _ _ _).2]
  · unfold featureOf
    rw [makeFeature_tags]
    simp [List.lookup]

/-- The spec's example for C14: one hotel node and one restaurant node give exactly one
feature, the hotel. -/
theorem ExtractCityDetails_keeps_hotel_and_museum_nodes_witness :
    ∃ features, ExtractCityDetails sampleOverpassLib sampleGetDouble "hotel-and-restaurant" =
        some features ∧
      features = [featureOf sampleGetDouble grandHotel] ∧ features.length = 1 := by
  obtain ⟨features, hres, hfeat, hlen, -⟩ :=
    ExtractCityDetails_keeps_hotel_and_museum_nodes sampleOverpassLib sampleGetDouble
      "hotel-and-restaurant" [("elements", JsonValue.array [grandHotel, restaurant])]
      [grandHotel, restaurant] (by decide) rfl rfl
  exact ⟨features, hres, hfeat.trans rfl, hlen.trans rfl⟩

/-- C15 (counterexample): a hotel node that also carries the tag `stars` yields a feature whose
tag mapping has `tourism` and `name` only; the tag `stars` of the element is not copied. -/
theorem ExtractCityDetails_drops_other_tags :
    ExtractCityDetails sampleOverpassLib sampleGetDouble "starred-hotel" =
      some [featureOf sampleGetDouble starredHotel] ∧
    (featureOf sampleGetDouble starredHotel).tags = [("tourism", "hotel"), ("name", "Grand Hotel")] ∧
    json.Get starredHotel ["tags"] =
      JsonValue.object [("tourism", .str "hotel"), ("name", .str "Grand Hotel"),
        ("stars", .str "5")] ∧
    ¬ (∀ features, ExtractCityDetails sampleOverpassLib sampleGetDouble "starred-hotel" =
        some features →
      ∀ feature ∈ features, feature.tags.lookup "stars" = some "5") := by
  have hval : ExtractCityDetails sampleOverpassLib sampleGetDouble "starred-hotel" =
      some [featureOf sampleGetDouble starredHotel] := by decide
  refine ⟨hval, by decide, rfl, ?_⟩
  intro h
  have := h _ hval _ (List.mem_singleton.2 rfl)
  revert this
  decide

/-- C15 (amended): for every element kept by `ExtractCityDetails` the tag mapping of the output
feature holds `tourism`, then `name` and `name:en` when present with a non-empty text, and no
other tag of the element. -/
theorem ExtractCityDetails_copies_three_tags (lib : Lib) (GetDouble : JsonValue → Double)
    (jsonText : String) (members : List (String × JsonValue)) (elements : List JsonValue)
    (htext : jsonText ≠ "") (hparse : lib.Parse jsonText = some (JsonValue.object members))
    (hel : members.lookup "elements" = some (JsonValue.array elements)) :
    ExtractCityDetails lib GetDouble jsonText =
      some ((elements.filter isHotelOrMuseumNode).map (featureOf GetDouble)) ∧
    (∀ element, (featureOf GetDouble element).tags =
      [("tourism", json.GetString (json.Get (json.Get element ["tags"]) ["tourism"]))] ++
        (if json.GetString (json.Get (json.Get element ["tags"]) ["name"]) ≠ "" then
          [("name", json.GetString (json.Get (json.Get element ["tags"]) ["name"]))] else []) ++
        (if json.GetString (json.Get (json.Get element ["tags"]) ["name:en"]) ≠ "" then
          [("name:en", json.GetString (json.Get (json.Get element ["tags"]) ["name:en"]))]
          else [])) ∧
    (∀ element key value, (key, value) ∈ (featureOf GetDouble element).tags →
      key = "tourism" ∨ key = "name" ∨ key = "name:en") := by
  have htags : ∀ element, (featureOf GetDouble element).tags =
      [("tourism", json.GetString (json.Get (json.Get element ["tags"]) ["tourism"]))] ++
        optionalTag (json.Get element ["tags"]) "name" ++
        optionalTag (json.Get element ["tags"]) "name:en" := by
    intro element
    unfold featureOf
    exact makeFeature_tags _ _ _ _
  refine ⟨ExtractCityDetails_of_elements lib GetDouble jsonText members elements htext hparse hel,
    fun element => (htags element).trans rfl, ?_⟩
  intro element key value hmem
  rw [htags] at hmem
  simp only [List.mem_append, List.mem_singleton, Prod.mk.injEq, optionalTag] at hmem
  rcases hmem with (h | h) | h
  · exact Or.inl h.1
  · split at h
    · simp only [List.mem_singleton, Prod.mk.injEq] at h
      exact Or.inr (Or.inl h.1)
    · simp at h
  · split at h
    · simp only [List.mem_singleton, Prod.mk.injEq] at h
      exact Or.inr (Or.inr h.1)
    · simp at h

/-- The amended C15 on the sample: the feature of the starred hotel has the tags `tourism` and
`name` and no tag `stars`. -/
theorem ExtractCityDetails_copies_three_tags_witness :
    ExtractCityDetails sampleOverpassLib sampleGetDouble "starred-hotel" =
      some [featureOf sampleGetDouble starredHotel] ∧
    (featureOf sampleGetDouble starredHotel).tags.lookup "stars" = none := by
  obtain ⟨hres, htags, -⟩ := ExtractCityDetails_copies_three_tags sampleOverpassLib
    sampleGetDouble "starred-hotel" [("elements", JsonValue.array [starredHotel])] [starredHotel]
    (by decide) rfl rfl
  exact ⟨hres.trans rfl, by rw [htags starredHotel]; decide⟩

/-- C16 (failing input): on the well-formed object without `elements`, `ExtractRelationIds`
reads `document["elements"]` with no `HasMember` check, and on an object whose `elements` is
the number 5 both functions call `GetArray()` on a non-array: the preconditions fail and there
is no result. On an empty text, on a text that does not parse, and (for `ExtractCityDetails`)
on the object without `elements` the result is the empty sequence. -/
theorem overpass_extractors_fail_without_elements_array :
    ExtractRelationIds sampleOverpassLib "empty-object" = none ∧
    ExtractRelationIds sampleOverpassLib "elements-five" = none ∧
    ExtractCityDetails sampleOverpassLib sampleGetDouble "elements-five" = none ∧
    ExtractCityDetails sampleOverpassLib sampleGetDouble "empty-object" = some [] ∧
    ExtractCityDetails sampleOverpassLib sampleGetDouble "empty-array" = some [] ∧
    ExtractRelationIds sampleOverpassLib "empty-array" = some [] ∧
    (∀ (lib : Lib) (GetDouble : JsonValue → Double),
      ExtractCityDetails lib GetDouble "" = some [] ∧ ExtractRelationIds lib "" = some []) ∧
    (∀ (lib : Lib) (GetDouble : JsonValue → Double) (jsonText : String),
      lib.Parse jsonText = none →
      ExtractCityDetails lib GetDouble jsonText = some [] ∧
        ExtractRelationIds lib jsonText = some []) := by
  refine ⟨by decide, by decide, by decide, by decide, by decide, by decide, ?_, ?_⟩
  · intro lib GetDouble
    exact ⟨by simp [ExtractCityDetails], by simp [ExtractRelationIds]⟩
  · intro lib GetDouble jsonText hparse
    constructor
    · unfold ExtractCityDetails
      by_cases h : jsonText = "" <;> simp [h, hparse, JsonValue.IsObject]
    · unfold ExtractRelationIds
      by_cases h : jsonText = "" <;> simp [h, hparse, JsonValue.IsObject]

theorem relationIdsStep_eq (result : OsmIds) (e : JsonValue) :
    relationIdsStep result e =
      if isRelationWithId e then result ++ [json.GetInt64 (json.Get e ["id"])] else result := by
  unfold relationIdsStep isRelationWithId
  simp only [Bool.and_comm]

theorem foldl_relationIdsStep :
    ∀ (elements : List JsonValue) (result : OsmIds),
      elements.foldl relationIdsStep result =
        result ++ (elements.filter isRelationWithId).map
          fun e => json.GetInt64 (json.Get e ["id"]) := by
  intro elements
  induction elements with
  | nil => intro result; simp
  | cons e rest ih =>
    intro result
    rw [List.foldl_cons, ih, relationIdsStep_eq]
    by_cases hk : isRelationWithId e = true
    · simp [hk]
    · simp [hk]

theorem isNull_get_id_iff (e : JsonValue) :
    (json.Get e ["id"]).IsNull = false ↔
      ∃ members v, e = JsonValue.object members ∧ members.lookup "id" = some v ∧
        v.IsNull = false := by
  cases e with
  | object members =>
    cases hl : members.lookup "id" with
    | none => simp [json.Get, json.member, hl, JsonValue.IsNull]
    | some v => simp [json.Get, json.member, hl]
  | null => simp [json.Get, json.member, JsonValue.IsNull]
  | bool b => simp [json.Get, json.member, JsonValue.IsNull]
  | int i => simp [json.Get, json.member, JsonValue.IsNull]
  | number x => simp [json.Get, json.member, JsonValue.IsNull]
  | str x => simp [json.Get, json.member, JsonValue.IsNull]
  | array xs => simp [json.Get, json.member, JsonValue.IsNull]

/-- C21: for every JSON object with an `elements` array, `ExtractRelationIds` returns, in
document order, the IDs of the elements whose type is `relation` and whose member `id` is
present and not null, and nothing for any other element; the length of the result is the
number of such elements. -/
theorem ExtractRelationIds_keeps_relations_with_id (lib : Lib) (jsonText : String)
    (members : List (String × JsonValue)) (elements : List JsonValue) (htext : jsonText ≠ "")
    (hparse : lib.Parse jsonText = some (JsonValue.object members))
    (hel : members.lookup "elements" = some (JsonValue.array elements)) :
    ∃ ids, ExtractRelationIds lib jsonText = some ids ∧
      ids = (elements.filter isRelationWithId).map (fun e => json.GetInt64 (json.Get e ["id"])) ∧
      ids.length = (elements.filter isRelationWithId).length ∧
      (∀ e, isRelationWithId e = true ↔
        json.GetString (json.Get e ["type"]) = "relation" ∧
        ∃ fields v, e = JsonValue.object fields ∧ fields.lookup "id" = some v ∧
          v.IsNull = false) := by
  refine ⟨_, ?_, rfl, by simp, ?_⟩
  · unfold ExtractRelationIds
    simp [htext, hparse, JsonValue.IsObject, JsonValue.index, hel, JsonValue.GetArray,
      foldl_relationIdsStep]
  · intro e
    unfold isRelationWithId
    rw [Bool.and_eq_true, decide_eq_true_eq, Bool.not_eq_true', isNull_get_id_iff]

/-- C21 on a sample: of the relation 5, the node 7, a relation without ID, the way 8 and the
relation 9, the IDs 5 and 9 are returned. -/
theorem ExtractRelationIds_keeps_relations_with_id_witness :
    ∃ ids, ExtractRelationIds sampleRelationsLib "relations" = some ids ∧ ids = [5, 9] ∧
      ids.length = 2 := by
  obtain ⟨ids, hres, hids, hlen, -⟩ := ExtractRelationIds_keeps_relations_with_id
    sampleRelationsLib "relations"
    [("elements", JsonValue.array [sampleElement "relation" 5, sampleElement "node" 7,
      relationWithoutId, sampleElement "way" 8, sampleElement "relation" 9])]
    [sampleElement "relation" 5, sampleElement "node" 7, relationWithoutId,
      sampleElement "way" 8, sampleElement "relation" 9] (by decide) rfl rfl
  exact ⟨ids, hres, hids.trans (by decide), hlen.trans (by decide)⟩

end overpass

theorem weatherLocationsError_none_iff (env : ValidatorEnv) :
    ∀ locations : List Position,
      weatherLocationsError env locations = none ↔
        ∀ l ∈ locations, env.IsValidLatitude l.latitude = true ∧
          env.IsValidLongitude l.longitude = true := by
  intro locations
  induction locations with
  | nil => simp [weatherLocationsError]
  | cons location rest ih =>
    unfold weatherLocationsError
    by_cases hlat : env.IsValidLatitude location.latitude = true
    · by_cases hlon : env.IsValidLongitude location.longitude = true
      · simp [hlat, hlon, ih]
      · simp [hlat, hlon]
    · simp [hlat]

theorem weatherLocationsError_first (env : ValidatorEnv) :
    ∀ (locations : List Position) (l : Position),
      locations.find? (fun l => !(env.IsValidLatitude l.latitude && env.IsValidLongitude l.longitude))
        = some l →
      weatherLocationsError env locations =
        some (if env.IsValidLatitude l.latitude = false then "Wrong latitude in WeatherRequest"
          else "Wrong longitude in WeatherRequest") := by
  intro locations
  induction locations with
  | nil => intro l h; simp at h
  | cons location rest ih =>
    intro l h
    unfold weatherLocationsError
    by_cases hlat : env.IsValidLatitude location.latitude = true
    · by_cases hlon : env.IsValidLongitude location.longitude = true
      · simp only [List.find?, hlat, hlon, Bool.and_self, Bool.not_true] at h
        simp only [hlat, hlon, Bool.not_true, Bool.false_eq_true, if_false]
        exact ih l h
      · simp only [List.find?, hlat, hlon, Bool.and_false, Bool.not_false, Option.some.injEq,
          Bool.true_and] at h
        subst h
        simp [hlat, hlon]
    · simp only [List.find?, hlat, Bool.false_and, Bool.not_false, Option.some.injEq] at h
      subst h
      simp [hlat]

/-- C22 (failing input): a request with one valid location, `from_date` = 10 s + 5 ns,
`to_date` = 10 s + 0 ns and `num_years` = 1 is accepted although `from_date` is later than
`to_date` as a timestamp, against the check the source announces (`from_date <= to_date`): the
code compares the `seconds` fields only. So acceptance does not imply that `from_date` is at
most `to_date`. -/
theorem ValidateWeatherRequest_ignores_nanos :
    ValidateWeatherRequest sampleEnv sameSecondRequest = none ∧
    sameSecondRequest.from_date = some { seconds := 10, nanos := 5 } ∧
    sameSecondRequest.to_date = some { seconds := 10, nanos := 0 } ∧
    ¬ Timestamp.le { seconds := 10, nanos := 5 } { seconds := 10, nanos := 0 } ∧
    ¬ (∀ request : WeatherRequest, ValidateWeatherRequest sampleEnv request = none →
      ∃ f t, request.from_date = some f ∧ request.to_date = some t ∧ f.le t) := by
  have hle : ¬ Timestamp.le { seconds := 10, nanos := 5 } { seconds := 10, nanos := 0 } := by
    unfold Timestamp.le
    decide
  refine ⟨by decide, rfl, rfl, hle, ?_⟩
  intro h
  obtain ⟨f, t, hf, ht, hft⟩ := h sameSecondRequest (by decide)
  have hf' : f = { seconds := 10, nanos := 5 } := by
    have : some f = some ({ seconds := 10, nanos := 5 } : Timestamp) := hf.symm.trans rfl
    exact (Option.some.inj this)
  have ht' : t = { seconds := 10, nanos := 0 } := by
    have : some t = some ({ seconds := 10, nanos := 0 } : Timestamp) := ht.symm.trans rfl
    exact (Option.some.inj this)
  rw [hf', ht'] at hft
  exact hle hft

/-- The checks that `ValidateWeatherRequest` performs, as the code has them: it accepts exactly
when the request has at least one location, every location has a valid latitude and a valid
longitude, both dates are set, the `seconds` field of `from_date` is at most the `seconds`
field of `to_date` and `num_years` is not zero; otherwise it returns the error of the first
failing check in that order, where the check of the locations reports the first location with
a wrong coordinate, its latitude before its longitude. -/
theorem ValidateWeatherRequest_accepts_iff (env : ValidatorEnv) (request : WeatherRequest) :
    (ValidateWeatherRequest env request = none ↔
      request.locations ≠ [] ∧
      (∀ l ∈ request.locations, env.IsValidLatitude l.latitude = true ∧
        env.IsValidLongitude l.longitude = true) ∧
      (∃ f t, request.from_date = some f ∧ request.to_date = some t ∧ f.seconds ≤ t.seconds) ∧
      1 ≤ request.num_years) ∧
    (request.locations = [] → ValidateWeatherRequest env request =
      some "At least one location must be set in WeatherRequest") ∧
    (∀ l, request.locations.find?
        (fun l => !(env.IsValidLatitude l.latitude && env.IsValidLongitude l.longitude)) = some l →
      ValidateWeatherRequest env request =
        some (if env.IsValidLatitude l.latitude = false then "Wrong latitude in WeatherRequest"
          else "Wrong longitude in WeatherRequest")) ∧
    (request.locations ≠ [] →
      (∀ l ∈ request.locations, env.IsValidLatitude l.latitude = true ∧
        env.IsValidLongitude l.longitude = true) →
      (request.from_date = none ∨ request.to_date = none →
        ValidateWeatherRequest env request = some "Date range must be set in WeatherRequest") ∧
      (∀ f t, request.from_date = some f → request.to_date = some t →
        (t.seconds < f.seconds → ValidateWeatherRequest env request =
          some "from_date must be before or equal to to_date in WeatherRequest") ∧
        (f.seconds ≤ t.seconds → request.num_years = 0 → ValidateWeatherRequest env request =
          some "num_years must be at least 1 in WeatherRequest"))) := by
  have hlen : request.locations.length = 0 ↔ request.locations = [] := List.length_eq_zero
  refine ⟨?_, ?_, ?_, ?_⟩
  · unfold ValidateWeatherRequest
    by_cases hnil : request.locations = []
    · simp [hnil]
    · have hl : ¬ request.locations.length = 0 := fun h => hnil (hlen.1 h)
      rw [if_neg hl]
      cases hloc : weatherLocationsError env request.locations with
      | some e =>
        have hne : ¬ (∀ l ∈ request.locations, env.IsValidLatitude l.latitude = true ∧
            env.IsValidLongitude l.longitude = true) := by
          intro hall
          rw [(weatherLocationsError_none_iff env _).2 hall] at hloc
          cases hloc
        simp [hne]
      | none =>
        have hall := (weatherLocationsError_none_iff env _).1 hloc
        cases hf : request.from_date with
        | none => simp [hnil]
        | some f =>
          cases ht : request.to_date with
          | none => simp [hnil]
          | some t =>
            simp only [Option.isNone_some, Bool.or_self, Bool.false_eq_true, if_false,
              Timestamp.orDefault, Option.getD_some, gt_iff_lt]
            by_cases hlt : t.seconds < f.seconds
            · simp only [hlt, if_true]
              constructor
              · intro h
                cases h
              · rintro ⟨-, -, ⟨f', t', hf', ht', hle⟩, -⟩
                cases hf'
                cases ht'
                omega
            · by_cases hy : request.num_years = 0
              · simp [hlt, hy]
              · simp only [hlt, hy, if_false, true_iff]
                refine ⟨hnil, hall, ⟨f, t, rfl, rfl, by omega⟩, by omega⟩
  · intro hnil
    simp [ValidateWeatherRequest, hnil]
  · intro l hfind
    have hmem := List.mem_of_find?_eq_some hfind
    have hnil : ¬ request.locations.length = 0 := by
      intro h
      rw [hlen.1 h] at hmem
      cases hmem
    unfold ValidateWeatherRequest
    rw [if_neg hnil, weatherLocationsError_first env _ l hfind]
  · intro hnil hall
    have hl : ¬ request.locations.length = 0 := fun h => hnil (hlen.1 h)
    have hloc := (weatherLocationsError_none_iff env _).2 hall
    constructor
    · intro hdate
      unfold ValidateWeatherRequest
      rw [if_neg hl, hloc]
      rcases hdate with h | h <;> simp [h]
    · intro f t hf ht
      constructor
      · intro hlt
        unfold ValidateWeatherRequest
        rw [if_neg hl, hloc]
        simp [hf, ht, Timestamp.orDefault, hlt]
      · intro hle hy
        unfold ValidateWeatherRequest
        rw [if_neg hl, hloc]
        have hnlt : ¬ t.seconds < f.seconds := by omega
        simp [hf, ht, Timestamp.orDefault, hnlt, hy]

/-- C23: `ValidateRegionsRequest` accepts exactly when position and preferences are both set,
latitude and longitude are valid, `distance_km` is at most 1000, the feature mask is not
`GEOGRAPHICAL_FEATURE_UNSPECIFIED` and, when the mask has the peaks bit, the properties contain
the key `minPeakHeight`; otherwise it returns the error of the first failing check in that
order. -/
theorem ValidateRegionsRequest_accepts_iff (env : ValidatorEnv) (request : RegionsRequest) :
    (ValidateRegionsRequest env request = none ↔
      ∃ p prefs, request.position = some p ∧ request.prefs = some prefs ∧
        env.IsValidLatitude p.latitude = true ∧ env.IsValidLongitude p.longitude = true ∧
        request.distance_km ≤ 1000 ∧
        prefs.mask ≠ env.GEOGRAPHICAL_FEATURE_UNSPECIFIED ∧
        (prefs.mask &&& env.GEOGRAPHICAL_FEATURE_PEAKS ≠ 0 →
          ∃ value, prefs.properties.lookup "minPeakHeight" = some value)) ∧
    (request.position = none →
      ValidateRegionsRequest env request = some "Position must be set in RegionsRequest") ∧
    (∀ p, request.position = some p → request.prefs = none →
      ValidateRegionsRequest env request = some "Preferences must be set in RegionsRequest") ∧
    (∀ p prefs, request.position = some p → request.prefs = some prefs →
      (env.IsValidLatitude p.latitude = false →
        ValidateRegionsRequest env request = some "Wrong latitude in RegionsRequest") ∧
      (env.IsValidLatitude p.latitude = true →
        (env.IsValidLongitude p.longitude = false →
          ValidateRegionsRequest env request = some "Wrong longitude in RegionsRequest") ∧
        (env.IsValidLongitude p.longitude = true →
          (1000 < request.distance_km →
            ValidateRegionsRequest env request = some "distance_km is out-of-range") ∧
          (request.distance_km ≤ 1000 →
            (prefs.mask = env.GEOGRAPHICAL_FEATURE_UNSPECIFIED →
              ValidateRegionsRequest env request =
                some "At least one feature must be specified") ∧
            (prefs.mask ≠ env.GEOGRAPHICAL_FEATURE_UNSPECIFIED →
              prefs.mask &&& env.GEOGRAPHICAL_FEATURE_PEAKS ≠ 0 →
              prefs.properties.lookup "minPeakHeight" = none →
              ValidateRegionsRequest env request =
                some "minPeakHeight is required for Peaks feature"))))) := by
  refine ⟨?_, ?_, ?_, ?_⟩
  · unfold ValidateRegionsRequest RegionsRequest.positionOrDefault RegionsRequest.prefsOrDefault
    cases hp : request.position with
    | none => simp
    | some p =>
      cases hq : request.prefs with
      | none => simp
      | some prefs =>
        simp only [Option.isNone_some, Bool.false_eq_true, if_false, Option.getD_some,
          Option.some.injEq, exists_and_left, exists_eq_left']
        by_cases hlat : env.IsValidLatitude p.latitude = true
        · by_cases hlon : env.IsValidLongitude p.longitude = true
          · by_cases hd : request.distance_km > 1000
            · have : ¬ request.distance_km ≤ 1000 := by omega
              simp [hlat, hlon, hd, this]
            · have hd' : request.distance_km ≤ 1000 := by omega
              by_cases hm : prefs.mask = env.GEOGRAPHICAL_FEATURE_UNSPECIFIED
              · simp [hlat, hlon, hd, hm]
              · by_cases hpk : prefs.mask &&& env.GEOGRAPHICAL_FEATURE_PEAKS ≠ 0
                · rcases Option.eq_none_or_eq_some (prefs.properties.lookup "minPeakHeight") with
                    hl | ⟨v, hl⟩
                  · simp [hlat, hlon, hd, hd', hm, hpk, hl]
                  · simp [hlat, hlon, hd, hd', hm, hpk, hl]
                · simp [hlat, hlon, hd, hd', hm, hpk]
          · simp [hlat, hlon]
        · simp [hlat]
  · intro hp
    simp [ValidateRegionsRequest, hp]
  · intro p hp hq
    simp [ValidateRegionsRequest, hp, hq]
  · intro p prefs hp hq
    unfold ValidateRegionsRequest RegionsRequest.positionOrDefault RegionsRequest.prefsOrDefault
    simp only [hp, hq, Option.isNone_some, Bool.false_eq_true, if_false, Option.getD_some]
    refine ⟨fun hlat => by simp [hlat], fun hlat => ⟨fun hlon => by simp [hlat, hlon],
      fun hlon => ⟨fun hd => by simp [hlat, hlon, hd], fun hd => ?_⟩⟩⟩
    have hd' : ¬ request.distance_km > 1000 := by omega
    refine ⟨fun hm => by simp [hlat, hlon, hd', hm], fun hm hpk hl => ?_⟩
    simp [hlat, hlon, hd', hm, hpk, hl]

theorem deliverWrites_not_pending {β ρ η : Type} (search : η → β → Preferences → List ρ × η)
    (oks : List Bool) (r : ReactorState β ρ η) (h : r.writePending = false) :
    deliverWrites search oks r = r := by
  cases oks with
  | nil => rfl
  | cons ok rest => simp [deliverWrites, h]

theorem drop_eq_cons_spec {β : Type} (boxes : List β) (index : Nat) (bbox : β) (rest : List β)
    (h : boxes.drop index = bbox :: rest) :
    ∃ hlt : index < boxes.length, boxes[index] = bbox ∧ boxes.drop (index + 1) = rest ∧
      rest.length + 1 = boxes.length - index := by
  have hlt : index < boxes.length := by
    by_contra hge
    rw [List.drop_eq_nil_of_le (by omega)] at h
    cases h
  refine ⟨hlt, ?_⟩
  have hlen := congrArg List.length h
  rw [List.length_drop, List.length_cons] at hlen
  rw [List.drop_eq_getElem_cons hlt] at h
  injection h with h1 h2
  exact ⟨h1, h2, hlen.symm⟩

theorem processNextBoxLoop_run {β ρ η : Type} (search : η → β → Preferences → List ρ × η) :
    ∀ (rest : List β) (fuel m : Nat) (r : ReactorState β ρ η),
      r.m_boundingBoxes.drop r.m_currentBoxIndex = rest → rest.length + 1 ≤ fuel →
      rest.length ≤ m → r.writePending = false →
      r.m_currentBoxIndex ≤ r.m_boundingBoxes.length →
      (deliverWrites search (List.replicate m true) (processNextBoxLoop search fuel r)).events =
          r.events ++ expectedEvents search r.m_prefs r.m_searchHandler r.m_currentBoxIndex rest ∧
        (deliverWrites search (List.replicate m true)
          (processNextBoxLoop search fuel r)).m_currentBoxIndex = r.m_boundingBoxes.length ∧
        (deliverWrites search (List.replicate m true)
          (processNextBoxLoop search fuel r)).writePending = false := by
  intro rest
  induction rest with
  | nil =>
    intro fuel m r hdrop hfuel _ hpend hle
    have hge : r.m_boundingBoxes.length ≤ r.m_currentBoxIndex := by
      have := congrArg List.length hdrop
      rw [List.length_drop] at this
      simp at this
      omega
    obtain ⟨f, rfl⟩ : ∃ f, fuel = f + 1 := ⟨fuel - 1, by omega⟩
    have hnot : ¬ r.m_currentBoxIndex < r.m_boundingBoxes.length := by omega
    rw [processNextBoxLoop, dif_neg hnot, deliverWrites_not_pending search _
      { r with events := r.events ++ [ReactorEvent.finish Status.OK] } hpend]
    exact ⟨rfl, by show r.m_currentBoxIndex = r.m_boundingBoxes.length; omega, hpend⟩
  | cons bbox bs ih =>
    intro fuel m r hdrop hfuel hm hpend hle
    obtain ⟨hlt, hget, hdrop', hlen⟩ := drop_eq_cons_spec _ _ _ _ hdrop
    obtain ⟨f, rfl⟩ : ∃ f, fuel = f + 1 := ⟨fuel - 1, by simp at hfuel; omega⟩
    rw [processNextBoxLoop, dif_pos hlt]
    simp only [hget]
    by_cases hempty : (search r.m_searchHandler bbox r.m_prefs).1.isEmpty = true
    · simp only [hempty, Bool.not_true, Bool.false_eq_true, if_false]
      have := ih f m
        { r with
          m_currentBoxIndex := r.m_currentBoxIndex + 1
          m_searchHandler := (search r.m_searchHandler bbox r.m_prefs).2
          events := r.events ++ [ReactorEvent.search r.m_currentBoxIndex bbox] }
        hdrop' (by simp at hfuel; omega) (by simp at hm; omega) hpend
        (by show r.m_currentBoxIndex + 1 ≤ r.m_boundingBoxes.length; omega)
      simpa [expectedEvents, hempty] using this
    · simp only [hempty, Bool.not_false, if_true]
      obtain ⟨m', rfl⟩ : ∃ m', m = m' + 1 := ⟨m - 1, by simp at hm; omega⟩
      rw [List.replicate_succ, deliverWrites]
      simp only [if_true, OnWriteDone, Bool.not_true, Bool.false_eq_true, if_false, processNextBox]
      have := ih (r.m_boundingBoxes.length - (r.m_currentBoxIndex + 1) + 1) m'
        { r with
          m_currentBoxIndex := r.m_currentBoxIndex + 1
          m_searchHandler := (search r.m_searchHandler bbox r.m_prefs).2
          events := r.events ++ [ReactorEvent.search r.m_currentBoxIndex bbox] ++
            [ReactorEvent.write (search r.m_searchHandler bbox r.m_prefs).1]
          writePending := false }
        hdrop' (by show bs.length + 1 ≤ _; omega) (by simp at hm; omega) rfl
        (by show r.m_currentBoxIndex + 1 ≤ r.m_boundingBoxes.length; omega)
      simpa [expectedEvents, hempty] using this
theorem processNextBoxLoop_index {β ρ η : Type} (search : η → β → Preferences → List ρ × η) :
    ∀ (fuel : Nat) (r : ReactorState β ρ η),
      r.m_currentBoxIndex ≤ r.m_boundingBoxes.length →
      (processNextBoxLoop search fuel r).m_boundingBoxes = r.m_boundingBoxes ∧
        r.m_currentBoxIndex ≤ (processNextBoxLoop search fuel r).m_currentBoxIndex ∧
        (processNextBoxLoop search fuel r).m_currentBoxIndex ≤ r.m_boundingBoxes.length ∧
        (r.m_currentBoxIndex < r.m_boundingBoxes.length → 0 < fuel →
          r.m_currentBoxIndex < (processNextBoxLoop search fuel r).m_currentBoxIndex) := by
  intro fuel
  induction fuel with
  | zero => intro r hle; exact ⟨rfl, le_refl _, hle, fun _ h => absurd h (by decide)⟩
  | succ f ih =>
    intro r hle
    rw [processNextBoxLoop]
    by_cases hlt : r.m_currentBoxIndex < r.m_boundingBoxes.length
    · rw [dif_pos hlt]
      by_cases hempty : (search r.m_searchHandler (r.m_boundingBoxes[r.m_currentBoxIndex])
          r.m_prefs).1.isEmpty = true
      · simp only [hempty, Bool.not_true, Bool.false_eq_true, if_false]
        have := ih
          { r with
            m_currentBoxIndex := r.m_currentBoxIndex + 1
            m_searchHandler :=
              (search r.m_searchHandler (r.m_boundingBoxes[r.m_currentBoxIndex]) r.m_prefs).2
            events := r.events ++
              [ReactorEvent.search r.m_currentBoxIndex (r.m_boundingBoxes[r.m_currentBoxIndex])] }
          (by show r.m_currentBoxIndex + 1 ≤ r.m_boundingBoxes.length; omega)
        obtain ⟨h1, h2, h3, -⟩ := this
        simp only [] at h1 h2 h3
        exact ⟨h1, by omega, h3, fun _ _ => by omega⟩
      · simp only [hempty, Bool.not_false, if_true]
        simp; omega
    · rw [dif_neg hlt]
      exact ⟨rfl, le_refl _, hle, fun h => absurd h hlt⟩

theorem OnWriteDone_index {β ρ η : Type} (search : η → β → Preferences → List ρ × η)
    (ok : Bool) (r : ReactorState β ρ η) (hle : r.m_currentBoxIndex ≤ r.m_boundingBoxes.length) :
    (OnWriteDone search ok r).m_boundingBoxes = r.m_boundingBoxes ∧
      r.m_currentBoxIndex ≤ (OnWriteDone search ok r).m_currentBoxIndex ∧
      (OnWriteDone search ok r).m_currentBoxIndex ≤ r.m_boundingBoxes.length := by
  unfold OnWriteDone
  cases ok with
  | false => exact ⟨rfl, le_refl _, hle⟩
  | true =>
    simp only [Bool.not_true, Bool.false_eq_true, if_false, processNextBox]
    have := processNextBoxLoop_index search
      (r.m_boundingBoxes.length - r.m_currentBoxIndex + 1) r hle
    exact ⟨this.1, this.2.1, this.2.2.1⟩

theorem expectedEvents_searched {β ρ η : Type} (search : η → β → Preferences → List ρ × η)
    (prefs : Preferences) :
    ∀ (boxes : List β) (handler : η) (index : Nat),
      (expectedEvents (ρ := ρ) search prefs handler index boxes).filterMap ReactorEvent.searched =
        indexedFrom index boxes := by
  intro boxes
  induction boxes with
  | nil => intro handler index; rfl
  | cons bbox rest ih =>
    intro handler index
    simp only [expectedEvents, indexedFrom]
    by_cases hempty : (search handler bbox prefs).1.isEmpty = true
    · simp [hempty, ReactorEvent.searched, ih]
    · simp [hempty, ReactorEvent.searched, ih]

theorem expectedEvents_written {β ρ η : Type} (search : η → β → Preferences → List ρ × η)
    (prefs : Preferences) :
    ∀ (boxes : List β) (handler : η) (index : Nat),
      (expectedEvents search prefs handler index boxes).filterMap ReactorEvent.written =
        (searchResults search prefs handler boxes).filter (fun regions => !regions.isEmpty) := by
  intro boxes
  induction boxes with
  | nil => intro handler index; rfl
  | cons bbox rest ih =>
    intro handler index
    simp only [expectedEvents, searchResults]
    by_cases hempty : (search handler bbox prefs).1.isEmpty = true
    · simp [hempty, ReactorEvent.written, ih]
    · simp [hempty, ReactorEvent.written, ih]

theorem expectedEvents_finished {β ρ η : Type} (search : η → β → Preferences → List ρ × η)
    (prefs : Preferences) :
    ∀ (boxes : List β) (handler : η) (index : Nat),
      (expectedEvents search prefs handler index boxes).filterMap ReactorEvent.finished =
          [Status.OK] ∧
        (expectedEvents search prefs handler index boxes).getLast? =
          some (ReactorEvent.finish Status.OK) := by
  intro boxes
  induction boxes with
  | nil => intro handler index; exact ⟨rfl, rfl⟩
  | cons bbox rest ih =>
    intro handler index
    obtain ⟨h1, h2⟩ := ih (search handler bbox prefs).2 (index + 1)
    have hne : expectedEvents search prefs (search handler bbox prefs).2 (index + 1) rest ≠ [] := by
      intro h; rw [h] at h2; cases h2
    simp only [expectedEvents]
    by_cases hempty : (search handler bbox prefs).1.isEmpty = true
    · simp [hempty, ReactorEvent.finished, h1, h2, List.getLast?_cons_cons, hne,
        List.getLast?_append_of_ne_nil, List.getLast?_cons]
    · simp [hempty, ReactorEvent.finished, h1, h2, List.getLast?_cons_cons, hne]
      cases hx : expectedEvents search prefs (search handler bbox prefs).2 (index + 1) rest with
      | nil => exact absurd hx hne
      | cons e es => rw [hx] at h2; simpa [List.getLast?_cons_cons] using h2
/-- C25: the index of `GetRegionsStreamReactor` never exceeds the number of boxes, never goes
back and grows on every search; for a valid request whose writes all succeed the run searches
every bounding box exactly once in order, writes exactly the non-empty search results in box
order (never an empty response) and finishes with `OK` exactly once, as the last event. -/
theorem reactor_searches_every_box_once {β ρ η : Type} (env : ValidatorEnv)
    (CreateBoundingBoxes : Double → Double → Nat → Nat → Nat → List β) (StartFindRegions : η)
    (search : η → β → Preferences → List ρ × η) (request : RegionsRequest)
    (maxBoxWidth maxBoxHeight writes : Nat) (boxes : List β) (final : ReactorState β ρ η)
    (hvalid : ValidateRegionsRequest env request = none)
    (hboxes : boxes = CreateBoundingBoxes request.positionOrDefault.latitude
      request.positionOrDefault.longitude (request.distance_km * 1000) maxBoxWidth maxBoxHeight)
    (hwrites : boxes.length ≤ writes)
    (hfinal : final = deliverWrites search (List.replicate writes true)
      (GetRegionsStreamReactor env CreateBoundingBoxes StartFindRegions search request
        maxBoxWidth maxBoxHeight)) :
    (∀ (r : ReactorState β ρ η), r.m_currentBoxIndex ≤ r.m_boundingBoxes.length →
        (processNextBox search r).m_boundingBoxes = r.m_boundingBoxes ∧
          r.m_currentBoxIndex ≤ (processNextBox search r).m_currentBoxIndex ∧
          (processNextBox search r).m_currentBoxIndex ≤ r.m_boundingBoxes.length ∧
          (r.m_currentBoxIndex < r.m_boundingBoxes.length →
            r.m_currentBoxIndex < (processNextBox search r).m_currentBoxIndex)) ∧
      (∀ (ok : Bool) (r : ReactorState β ρ η), r.m_currentBoxIndex ≤ r.m_boundingBoxes.length →
        (OnWriteDone search ok r).m_boundingBoxes = r.m_boundingBoxes ∧
          r.m_currentBoxIndex ≤ (OnWriteDone search ok r).m_currentBoxIndex ∧
          (OnWriteDone search ok r).m_currentBoxIndex ≤ r.m_boundingBoxes.length) ∧
      final.events = expectedEvents search request.prefsOrDefault StartFindRegions 0 boxes ∧
      final.events.filterMap ReactorEvent.searched = indexedFrom 0 boxes ∧
      final.events.filterMap ReactorEvent.written =
        (searchResults search request.prefsOrDefault StartFindRegions boxes).filter
          (fun regions => !regions.isEmpty) ∧
      ReactorEvent.write [] ∉ final.events ∧
      final.events.filterMap ReactorEvent.finished = [Status.OK] ∧
      final.events.getLast? = some (ReactorEvent.finish Status.OK) ∧
      final.m_currentBoxIndex = boxes.length ∧
      final.writePending = false := by
  have hrun := processNextBoxLoop_run search boxes (boxes.length - 0 + 1) writes
    { m_prefs := { mask := request.prefsOrDefault.mask
                   properties := request.prefsOrDefault.properties }
      m_boundingBoxes := boxes
      m_currentBoxIndex := 0
      m_searchHandler := StartFindRegions
      events := []
      writePending := false }
    rfl (by omega) hwrites rfl (Nat.zero_le _)
  have hstart : GetRegionsStreamReactor env CreateBoundingBoxes StartFindRegions search request
      maxBoxWidth maxBoxHeight =
      processNextBoxLoop search (boxes.length - 0 + 1)
        { m_prefs := { mask := request.prefsOrDefault.mask
                       properties := request.prefsOrDefault.properties }
          m_boundingBoxes := boxes
          m_currentBoxIndex := 0
          m_searchHandler := StartFindRegions
          events := []
          writePending := false } := by
    unfold GetRegionsStreamReactor
    rw [hvalid, hboxes]
    rfl
  rw [hstart] at hfinal
  rw [← hfinal] at hrun
  obtain ⟨hevents, hindex, hpending⟩ := hrun
  have hevents' : final.events =
      expectedEvents search request.prefsOrDefault StartFindRegions 0 boxes := by
    rw [hevents]
    rfl
  have hwritten := expectedEvents_written search request.prefsOrDefault boxes StartFindRegions 0
  refine ⟨?_, fun ok r hle => OnWriteDone_index search ok r hle, hevents', ?_, ?_, ?_, ?_, ?_,
    hindex, hpending⟩
  · intro r hle
    have := processNextBoxLoop_index search
      (r.m_boundingBoxes.length - r.m_currentBoxIndex + 1) r hle
    exact ⟨this.1, this.2.1, this.2.2.1, fun hlt => this.2.2.2 hlt (Nat.succ_pos _)⟩
  · rw [hevents']
    exact expectedEvents_searched search request.prefsOrDefault boxes StartFindRegions 0
  · rw [hevents']
    exact hwritten
  · rw [hevents']
    intro hmem
    have : ([] : List ρ) ∈ (expectedEvents search request.prefsOrDefault StartFindRegions 0
        boxes).filterMap ReactorEvent.written :=
      List.mem_filterMap.mpr ⟨_, hmem, rfl⟩
    rw [hwritten] at this
    have := (List.mem_filter.mp this).2
    simp at this
  · rw [hevents']
    exact (expectedEvents_finished search request.prefsOrDefault boxes StartFindRegions 0).1
  · rw [hevents']
    exact (expectedEvents_finished search request.prefsOrDefault boxes StartFindRegions 0).2

theorem reactor_searches_every_box_once_witness :
    ValidateRegionsRequest sampleEnv sampleRegionsRequest = none ∧
      (deliverWrites sampleSearch (List.replicate 3 true)
        (GetRegionsStreamReactor sampleEnv sampleBoxes 0 sampleSearch sampleRegionsRequest
          1 1)).events =
        [ReactorEvent.search 0 4, ReactorEvent.write [2], ReactorEvent.search 1 7,
          ReactorEvent.search 2 10, ReactorEvent.write [5], ReactorEvent.finish Status.OK] ∧
      (deliverWrites sampleSearch (List.replicate 3 true)
        (GetRegionsStreamReactor sampleEnv sampleBoxes 0 sampleSearch sampleRegionsRequest
          1 1)).events.filterMap ReactorEvent.searched = [(0, 4), (1, 7), (2, 10)] ∧
      (deliverWrites sampleSearch (List.replicate 3 true)
        (GetRegionsStreamReactor sampleEnv sampleBoxes 0 sampleSearch sampleRegionsRequest
          1 1)).events.filterMap ReactorEvent.written = [[2], [5]] ∧
      (deliverWrites sampleSearch (List.replicate 3 true)
        (GetRegionsStreamReactor sampleEnv sampleBoxes 0 sampleSearch sampleRegionsRequest
          1 1)).events.filterMap ReactorEvent.finished = [Status.OK] :=
  have h := reactor_searches_every_box_once sampleEnv sampleBoxes 0 sampleSearch
    sampleRegionsRequest 1 1 3 [4, 7, 10] _ (by decide) rfl (by decide) rfl
  ⟨by decide, h.2.2.1, h.2.2.2.1, h.2.2.2.2.1, h.2.2.2.2.2.2.1⟩

end geo
